import Mathlib

/-!
# margo: import resolution and cursor symbol lookup

A shallow embedding of `src/gosubli.me/margo/m_doc_types.go`.

* Go values reached through pointers carry an `addr`; pointer comparison
  (`obj == cursorObj`, `cursorPkg == pkg`) is comparison of addresses.
* A Go map is a list of entries.  The order of the list stands for the order in
  which `range` happens to visit the map, so statements quantify over all lists.
* `token.Pos` is an integer.
* The standard library and the type checker are not part of the file under
  study; what they return is supplied by a `World`.
* `Run` records how a stretch of Go code ends: normally, by a run-time panic, by
  `log.Fatal`, or not within the recursion budget given to the model.
-/

namespace Margo

/-! ## Outcomes -/

/-- How a call ends. -/
inductive Run (α : Type) where
  /-- normal return -/
  | ok (a : α)
  /-- run-time panic: nil dereference or failed type assertion -/
  | panic (msg : String)
  /-- the process exits through `log.Fatalln` or `log.Fatalf` -/
  | fatal (msg : String)
  /-- the recursion budget of the model is used up -/
  | outOfFuel

/-- Sequencing: everything but a normal return ends the whole computation. -/
def Run.bind {α β : Type} : Run α → (α → Run β) → Run β
  | .ok a, f => f a
  | .panic m, _ => .panic m
  | .fatal m, _ => .fatal m
  | .outOfFuel, _ => .outOfFuel

instance : Monad Run where
  pure := Run.ok
  bind := Run.bind

/-- The call returned normally. -/
def Run.returns {α : Type} : Run α → Bool
  | .ok _ => true
  | _ => false

/-- The call ended in a run-time panic. -/
def Run.panics {α : Type} : Run α → Bool
  | .panic _ => true
  | _ => false

/-- The call ended the process through `log.Fatal`. -/
def Run.aborts {α : Type} : Run α → Bool
  | .fatal _ => true
  | _ => false

/-- The call did not end within the budget. -/
def Run.diverges {α : Type} : Run α → Bool
  | .outOfFuel => true
  | _ => false

/-- Errors built by this file (`fmt.Errorf`) or handed over by a library. -/
inductive Err where
  /-- `fmt.Errorf("cycle importing package %q", name)` -/
  | cycle (name : String)
  /-- `fmt.Errorf("unknown obj type %T", obj)` -/
  | unknownObj (name : String)
  /-- an error value produced outside this file, with its text -/
  | lib (msg : String)
deriving DecidableEq, Repr

/-! ## Positions and syntax -/

/-- Type `token.Pos`. -/
abbrev TokenPos := Int

/-- Type `token.Position`, as far as it is read. -/
structure Position where
  Filename : String
  Line : Int
  Column : Int
deriving DecidableEq, Repr

/-- Type `*ast.Ident`. -/
structure Ident where
  NamePos : TokenPos
  Name : String
deriving DecidableEq, Repr

/-- Method `(*ast.Ident).Pos`. -/
def Ident.Pos (x : Ident) : TokenPos := x.NamePos

/-- Method `(*ast.Ident).End`: `NamePos + len(Name)`, the length counted in bytes. -/
def Ident.End (x : Ident) : TokenPos := x.NamePos + (x.Name.utf8ByteSize : Int)

/-- Type `*ast.SelectorExpr`; only the selected identifier `Sel` is read. -/
structure SelectorExpr where
  Sel : Ident
deriving DecidableEq, Repr

/-- Type `*ast.BasicLit`, for the path of an import. -/
structure BasicLit where
  ValuePos : TokenPos
  Value : String
deriving DecidableEq, Repr

/-- Type `*ast.ImportSpec`; `Name` is nil when the import has no local alias. -/
structure ImportSpec where
  Name : Option Ident
  Path : BasicLit
  EndPos : TokenPos
deriving DecidableEq, Repr

/-- Method `(*ast.ImportSpec).Pos`. -/
def ImportSpec.Pos (s : ImportSpec) : TokenPos :=
  match s.Name with
  | some n => n.Pos
  | none => s.Path.ValuePos

/-- Method `(*ast.ImportSpec).End`. -/
def ImportSpec.End (s : ImportSpec) : TokenPos :=
  if s.EndPos ≠ 0 then s.EndPos else s.Path.ValuePos + (s.Path.Value.utf8ByteSize : Int)

/-- Type `*ast.File`, as far as it is read: the position of the file (`f.Pos()`),
the base of its `token.File` in the file set, and its import declarations. -/
structure AstFile where
  Package : TokenPos
  Base : Int
  Imports : List ImportSpec
deriving DecidableEq, Repr

/-- Function `inRange` for an import declaration (never nil where it is called). -/
def inRange (node : ImportSpec) (p : TokenPos) : Bool :=
  decide (p ≥ node.Pos) && decide (p ≤ node.End)

/-! ## Packages, types and objects of the type checker -/

/-- Type `*types.Package`. -/
structure Package where
  addr : Nat
  path : String
  name : String
  complete : Bool
deriving DecidableEq, Repr

/-- Pointer comparison of two packages that may be nil. -/
def samePkg : Option Package → Option Package → Bool
  | none, none => true
  | some a, some b => a.addr == b.addr
  | _, _ => false

/-- What every `types.Object` carries: its address, `Name()`, `Pkg()` (nil for
objects of the universe), `Pos()`, and the texts of `String()` and `Id()`. -/
structure ObjHead where
  addr : Nat
  name : String
  pkg : Option Package
  pos : TokenPos
  str : String
  id : String
deriving DecidableEq, Repr

mutual
/-- Modelled from the spec: interface `types.Type` of the type checker (package
`something-borrowed/types`, which is not among the sources), by dynamic type.
An interface type lists the methods it declares directly (what `NumMethods` and
`Method(i)` enumerate) and the named interfaces it embeds, both in declaration
order; embedding is a tree, as the checker rejects a type that embeds itself. -/
inductive Typ where
  /-- any type that the file does not tell apart from the others -/
  | basic (name : String)
  /-- type `*types.Pointer` -/
  | pointer (elem : Typ)
  /-- type `*types.Named` -/
  | named (n : Named)
  /-- type `*types.Struct` with its fields in order -/
  | struct (fields : List Var)
  /-- type `*types.Interface`: what `Method(i)` and `Embedded(i)` enumerate -/
  | interface (methods : List Func) (embeddeds : List Named)
  /-- type `*types.Signature`; `recv` is `Recv()` -/
  | signature (recv : Option Var)
/-- Type `*types.Named`: its type name, its underlying type and its methods. -/
inductive Named where
  | mk (obj : ObjHead) (underlying : Typ) (methods : List Func)
/-- Type `*types.Var`. -/
inductive Var where
  | mk (head : ObjHead) (typ : Typ) (isField : Bool) (anonymous : Bool)
/-- Type `*types.Func`. -/
inductive Func where
  | mk (head : ObjHead) (typ : Typ)
end

/-- Interface `types.Object`, by dynamic type. -/
inductive Object where
  | pkgName (head : ObjHead)
  | const (head : ObjHead) (typ : Typ)
  | typeName (head : ObjHead) (typ : Typ)
  | var (v : Var)
  | func (f : Func)
  | label (head : ObjHead)
  | builtin (head : ObjHead)
  | nil (head : ObjHead)
  /-- an object of a dynamic type the type switch of `parserObjKind` does not list -/
  | other (head : ObjHead)

def Var.head : Var → ObjHead
  | .mk h _ _ _ => h

def Var.Type : Var → Typ
  | .mk _ t _ _ => t

def Var.IsField : Var → Bool
  | .mk _ _ f _ => f

def Var.Anonymous : Var → Bool
  | .mk _ _ _ a => a

def Var.Pos (v : Var) : TokenPos := v.head.pos

def Func.head : Func → ObjHead
  | .mk h _ => h

def Func.Type : Func → Typ
  | .mk _ t => t

def Func.Name (f : Func) : String := f.head.name

def Named.objHead : Named → ObjHead
  | .mk h _ _ => h

/-- Method `(*types.Named).Underlying`. -/
def Named.Underlying : Named → Typ
  | .mk _ u _ => u

/-- Methods declared on the named type: `NumMethods` and `Method(i)`. -/
def Named.Methods : Named → List Func
  | .mk _ _ ms => ms

/-- Method `(*types.Named).Obj`: the type name that declares the named type. -/
def Named.Obj (n : Named) : Object := .typeName n.objHead (.named n)

/-- Method `Underlying` of a `types.Type`. -/
def Typ.Underlying : Typ → Typ
  | .named n => n.Underlying
  | t => t

def Object.head : Object → ObjHead
  | .pkgName h => h
  | .const h _ => h
  | .typeName h _ => h
  | .var v => v.head
  | .func f => f.head
  | .label h => h
  | .builtin h => h
  | .nil h => h
  | .other h => h

def Object.addr (o : Object) : Nat := o.head.addr

def Object.Name (o : Object) : String := o.head.name

def Object.Pkg (o : Object) : Option Package := o.head.pkg

def Object.Pos (o : Object) : TokenPos := o.head.pos

/-- Method `String()` of an object: its rendering with its full signature. -/
def Object.Render (o : Object) : String := o.head.str

def Object.Id (o : Object) : String := o.head.id

/-- Pointer comparison of two objects. -/
def Object.same (a b : Object) : Bool := a.addr == b.addr

/-- Comparison `obj == cursorObj` of a table entry, which may be nil, with an object. -/
def sameObj (entry : Option Object) (cursorObj : Object) : Bool :=
  match entry with
  | some o => o.same cursorObj
  | none => false

/-! ## Kinds -/

/-- Type `ObjKind` is an `int`; the constants are numbered by `iota`. -/
abbrev ObjKind := Int

def ObjNone : ObjKind := 0
def ObjPkgName : ObjKind := 1
def ObjTypeName : ObjKind := 2
def ObjInterface : ObjKind := 3
def ObjStruct : ObjKind := 4
def ObjConst : ObjKind := 5
def ObjVar : ObjKind := 6
def ObjField : ObjKind := 7
def ObjFunc : ObjKind := 8
def ObjMethod : ObjKind := 9
def ObjLabel : ObjKind := 10
def ObjBuiltin : ObjKind := 11
def ObjNil : ObjKind := 12

def ObjKindName : List String :=
  ["none", "package", "type", "interface", "struct", "const", "var", "field",
   "func", "method", "label", "builtin", "nil"]

/-- Method `ObjKind.String`. -/
def ObjKind.String (k : ObjKind) : String :=
  if 0 ≤ k ∧ k < (ObjKindName.length : Int) then ObjKindName.getD k.toNat "" else "unkwnown"

/-- Function `parserObjKind`: the kind and the error it returns.  A nil interface
is not among the arguments: the one caller returns before the call when nothing
was found. -/
def parserObjKind (obj : Object) : ObjKind × Option Err :=
  match obj with
  | .pkgName _ => (ObjPkgName, none)
  | .const _ _ => (ObjConst, none)
  | .typeName _ t =>
    match t.Underlying with
    | .interface _ _ => (ObjInterface, none)
    | .struct _ => (ObjStruct, none)
    | _ => (ObjTypeName, none)
  | .var v => if v.IsField then (ObjField, none) else (ObjVar, none)
  | .func f =>
    match f.Type with
    | .signature (some _) => (ObjMethod, none)
    | _ => (ObjFunc, none)
  | .label _ => (ObjLabel, none)
  | .builtin _ => (ObjBuiltin, none)
  | .nil _ => (ObjNil, none)
  | .other h => (ObjNone, some (.unknownObj h.name))

/-! ## Canned signatures of the builtins -/

def builtinInfoMap : List (String × String) :=
  [("append", "func append(slice []Type, elems ...Type) []Type"),
   ("copy", "func copy(dst, src []Type) int"),
   ("delete", "func delete(m map[Type]Type1, key Type)"),
   ("len", "func len(v Type) int"),
   ("cap", "func cap(v Type) int"),
   ("make", "func make(Type, size IntegerType) Type"),
   ("new", "func new(Type) *Type"),
   ("complex", "func complex(r, i FloatType) ComplexType"),
   ("real", "func real(c ComplexType) FloatType"),
   ("imag", "func imag(c ComplexType) FloatType"),
   ("close", "func close(c chan<- Type)"),
   ("panic", "func panic(v interface\x7b\x7d)"),
   ("recover", "func recover() interface\x7b\x7d"),
   ("print", "func print(args ...Type)"),
   ("println", "func println(args ...Type)"),
   ("error", "type error interface \x7bError() string\x7d")]

/-- Function `builtinInfo`. -/
def builtinInfo (id : String) : String :=
  match builtinInfoMap.lookup id with
  | some info => "builtin " ++ info
  | none => "builtin " ++ id

/-! ## Semantic tables, records and the cursor -/

/-- Type `*types.Selection`: `Obj()` and `Recv()`. -/
structure Selection where
  obj : Option Object
  recv : Option Typ

/-- Type `*types.Info`: the three maps that are filled.  A nil map reads as an
empty one. -/
structure Info where
  Defs : List (Ident × Option Object)
  Uses : List (Ident × Option Object)
  Selections : List (SelectorExpr × Selection)

/-- Type `Doc`, the location record. -/
structure Doc where
  Pkg : String
  Src : String
  Name : String
  Kind : String
  Fn : String
  Row : Int
  Col : Int
deriving DecidableEq, Repr

/-- Type `FileCursor`; `src` is the text of the file under the cursor. -/
structure FileCursor where
  pkg : String
  fileName : String
  fileDir : String
  cursorPos : Int
  pos : TokenPos
  src : Option String
deriving DecidableEq, Repr

/-- Type `PkgConfig`, without the three file maps that nothing reads. -/
structure PkgConfig where
  IgnoreFuncBodies : Bool
  AllowBinary : Bool
  WithTestFiles : Bool
  Cursor : Option FileCursor
  Info : Option Info

/-! ## The world outside the file -/

/-- Type `*build.Package`, as far as it is read. -/
structure BuildPackage where
  Dir : String
  Name : String
  ImportPath : String
  GoFiles : List String
  CgoFiles : List String
  TestGoFiles : List String
  XTestGoFiles : List String
deriving DecidableEq, Repr

/-- What one run of the type checker over a list of files produces. -/
structure Checked where
  pkg : Package
  err : Option String
  defs : List (Ident × Option Object)
  uses : List (Ident × Option Object)
  selections : List (SelectorExpr × Selection)

/-- Everything the file obtains from the standard library, the disk and the
type checker. -/
structure World where
  /-- fields `GOOS` and `GOARCH` of the build context -/
  GOOS : String
  GOARCH : String
  /-- functions `filepath.IsAbs`, `filepath.Join`, `filepath.Base` -/
  IsAbs : String → Bool
  Join : String → String → String
  Base : String → String
  /-- methods `context.ImportDir(name, 0)` and `context.Import(name, "", 0)`;
  the package returned is never nil -/
  ImportDir : String → BuildPackage × Option String
  Import : String → BuildPackage × Option String
  /-- function `parser.ParseFile(fset, filename, src, mode)`; the flag tells
  whether the mode is `parser.AllErrors` -/
  ParseFile : String → Option String → Bool → Option AstFile × Option String
  /-- function `gcimporter.Import(imports, name)`, which may add to `imports` -/
  gcimporterImport : List (String × Package) → String →
    (Option Package × Option String) × List (String × Package)
  /-- what `types.Config.Check` computes for a package name and its files; `none`
  when the checker cannot run over them -/
  Check : String → List (Option AstFile) → Option Checked
  /-- method `fset.Position` -/
  Position : TokenPos → Position
  /-- function `strconv.Unquote` -/
  Unquote : String → Option String
  /-- function `filepath.Dir` -/
  Dir : String → String
  /-- function `os.Getwd` -/
  Getwd : String × Option String

/-! ## The walker -/

/-- What is stored in `w.imported` under a path: the address of `w.importing`,
or a checked package. -/
inductive Imported where
  | importing
  | pkg (p : Package)
deriving DecidableEq, Repr

/-- Work done by the walker, recorded to count it. -/
inductive Event where
  /-- the build context was asked to locate a package -/
  | locate (name : String)
  /-- the parser was run on a file -/
  | parse (filename : String)
  /-- the type checker was run on a package -/
  | check (name : String)
deriving DecidableEq, Repr

/-- What the file writes to standard output. -/
inductive Printed where
  /-- `fmt.Println(fpos)` -/
  | position (p : Position)
  /-- `fmt.Println` or `fmt.Printf` of a text -/
  | line (s : String)
deriving DecidableEq, Repr

/-- Type `PkgWalker`.  The file set and the build context are part of the
`World`; `trace` and `stdout` record the work done and the lines printed. -/
structure PkgWalker where
  parsedFileCache : List (String × Option AstFile)
  imported : List (String × Option Imported)
  gcimporter : List (String × Package)
  findDef : Bool
  findUse : Bool
  findInfo : Bool
  trace : List Event
  stdout : List Printed

/-- Package `types.Unsafe`. -/
def Unsafe : Package := { addr := 0, path := "unsafe", name := "unsafe", complete := true }

/-- Function `NewPkgWalker`. -/
def NewPkgWalker (findDef findUse findInfo : Bool) : PkgWalker :=
  { parsedFileCache := [],
    imported := [("unsafe", some (.pkg Unsafe))],
    gcimporter := [("unsafe", Unsafe)],
    findDef := findDef, findUse := findUse, findInfo := findInfo,
    trace := [], stdout := [] }

/-- Reading `w.imported[name]`; an entry set to nil reads like a missing one. -/
def PkgWalker.importedAt (w : PkgWalker) (name : String) : Option Imported :=
  (w.imported.lookup name).join

/-- Assignment `w.imported[name] = v`. -/
def PkgWalker.setImported (w : PkgWalker) (name : String) (v : Option Imported) : PkgWalker :=
  { w with imported := (name, v) :: w.imported }

def PkgWalker.logged (w : PkgWalker) (e : Event) : PkgWalker :=
  { w with trace := w.trace ++ [e] }

def PkgWalker.printed (w : PkgWalker) (p : Printed) : PkgWalker :=
  { w with stdout := w.stdout ++ [p] }

/-- Variable `typeVerbose`, which nothing sets. -/
def typeVerbose : Bool := false

/-- Function `contains`. -/
def contains (list : List String) (s : String) : Bool :=
  list.any (fun t => t == s)

def stdPkg : List String :=
  ["cmd/cgo", "cmd/fix", "cmd/go", "cmd/gofmt",
   "cmd/yacc", "archive/tar", "archive/zip", "bufio",
   "bytes", "compress/bzip2", "compress/flate", "compress/gzip",
   "compress/lzw", "compress/zlib", "container/heap", "container/list",
   "container/ring", "crypto", "crypto/aes", "crypto/cipher",
   "crypto/des", "crypto/dsa", "crypto/ecdsa", "crypto/elliptic",
   "crypto/hmac", "crypto/md5", "crypto/rand", "crypto/rc4",
   "crypto/rsa", "crypto/sha1", "crypto/sha256", "crypto/sha512",
   "crypto/subtle", "crypto/tls", "crypto/x509", "crypto/x509/pkix",
   "database/sql", "database/sql/driver", "debug/dwarf", "debug/elf",
   "debug/gosym", "debug/macho", "debug/pe", "encoding",
   "encoding/ascii85", "encoding/asn1", "encoding/base32", "encoding/base64",
   "encoding/binary", "encoding/csv", "encoding/gob", "encoding/hex",
   "encoding/json", "encoding/pem", "encoding/xml", "errors",
   "expvar", "flag", "fmt", "go/ast",
   "go/build", "go/doc", "go/format", "go/parser",
   "go/printer", "go/scanner", "go/token", "hash",
   "hash/adler32", "hash/crc32", "hash/crc64", "hash/fnv",
   "html", "html/template", "image", "image/color",
   "image/color/palette", "image/draw", "image/gif", "image/jpeg",
   "image/png", "index/suffixarray", "io", "io/ioutil",
   "log", "log/syslog", "math", "math/big",
   "math/cmplx", "math/rand", "mime", "mime/multipart",
   "net", "net/http", "net/http/cgi", "net/http/cookiejar",
   "net/http/fcgi", "net/http/httptest", "net/http/httputil", "net/http/pprof",
   "net/mail", "net/rpc", "net/rpc/jsonrpc", "net/smtp",
   "net/textproto", "net/url", "os", "os/exec",
   "os/signal", "os/user", "path", "path/filepath",
   "reflect", "regexp", "regexp/syntax", "runtime",
   "runtime/cgo", "runtime/debug", "runtime/pprof", "runtime/race",
   "sort", "strconv", "strings", "sync",
   "sync/atomic", "syscall", "testing", "testing/iotest",
   "testing/quick", "text/scanner", "text/tabwriter", "text/template",
   "text/template/parse", "time", "unicode", "unicode/utf16",
   "unicode/utf8", "unsafe"]

/-- Function `isStdPkg`. -/
def isStdPkg (pkg : String) : Bool :=
  stdPkg.any (fun v => v == pkg)

/-- Method `PkgWalker.isBinaryPkg`. -/
def isBinaryPkg (pkg : String) : Bool := isStdPkg pkg

/-- Function `strings.HasPrefix`. -/
def hasPrefix (s p : String) : Bool := p.data.isPrefixOf s.data

/-- Method `PkgWalker.parseFile`. -/
def parseFile (world : World) (w : PkgWalker) (dir file : String) (src : Option String) :
    Run ((Option AstFile × Option Err) × PkgWalker) :=
  let filename := world.Join dir (world.Base file)
  match (w.parsedFileCache.lookup filename).join with
  | some f => .ok ((some f, none), w)
  | none => do
    -- generate missing context-dependent files
    let (f, w) ←
      (if file == "zgoos_" ++ world.GOOS ++ ".go" then
        match world.ParseFile filename
            (some ("package runtime; const theGoos = `" ++ world.GOOS ++ "`")) false with
        | (_, some _) => Run.fatal "incorrect generated file"
        | (f, none) => Run.ok (f, w.logged (.parse filename))
      else Run.ok (none, w) : Run (Option AstFile × PkgWalker))
    let (f, w) ←
      (if file == "zgoarch_" ++ world.GOARCH ++ ".go" then
        match world.ParseFile filename
            (some ("package runtime; const theGoarch = `" ++ world.GOARCH ++ "`")) false with
        | (_, some _) => Run.fatal "incorrect generated file"
        | (f, none) => Run.ok (f, w.logged (.parse filename))
      else Run.ok (f, w) : Run (Option AstFile × PkgWalker))
    match f with
    | some f =>
      .ok ((some f, none), { w with parsedFileCache := (filename, some f) :: w.parsedFileCache })
    | none =>
      match world.ParseFile filename src true with
      | (f, some err) => .ok ((f, some (.lib err)), w.logged (.parse filename))
      | (f, none) =>
        .ok ((f, none),
          { w.logged (.parse filename) with
            parsedFileCache := (filename, f) :: w.parsedFileCache })

/-! ## Import -/

/-- Expression `w.fset.File(f.Pos()).Base()` for a file parsed into the file set
of the walker.  When the package clause did not parse, `f.Pos()` is `token.NoPos`,
no file of the set holds it, and `Base` is called on a nil `*token.File`. -/
def fileBase (af : AstFile) : Run Int :=
  if af.Package == 0 then .panic "nil dereference: w.fset.File(f.Pos()).Base()"
  else .ok af.Base

/-- The `for` loop of the closure `parserFiles` inside `Import`: the files parsed
so far, the cursor, the flag `foundCursor` and the walker. -/
def parserFilesLoop (world : World) (dir : String) :
    List String → Option FileCursor → Bool → PkgWalker →
    Run (List (Option AstFile) × Option FileCursor × Bool × PkgWalker)
  | [], cursor, foundCursor, w => .ok ([], cursor, foundCursor, w)
  | file :: rest, cursor, foundCursor, w =>
    match cursor.filter (fun c => c.fileName == file) with
    | some c => do
      let ((f, _), w) ← parseFile world w dir file c.src
      match f with
      | none => Run.panic "nil dereference: f.Pos()"
      | some af => do
        let base ← fileBase af
        let c := { c with pos := base + c.cursorPos, fileDir := dir }
        let (files, cursor, foundCursor, w) ← parserFilesLoop world dir rest (some c) true w
        pure (some af :: files, cursor, foundCursor, w)
    | none => do
      let ((f, _), w) ← parseFile world w dir file none
      let (files, cursor, foundCursor, w) ← parserFilesLoop world dir rest cursor foundCursor w
      pure (f :: files, cursor, foundCursor, w)

/-- The closure `parserFiles` inside `Import`. -/
def parserFiles (world : World) (w : PkgWalker) (dir : String) (filenames : List String)
    (cursor : Option FileCursor) (includeDefault : Bool) :
    Run (List (Option AstFile) × Option FileCursor × PkgWalker) := do
  let (files, cursor, foundCursor, w) ← parserFilesLoop world dir filenames cursor false w
  match cursor with
  | some c =>
    if includeDefault && !foundCursor then do
      let ((f, err), w) ← parseFile world w dir c.fileName c.src
      if err.isSome && typeVerbose then pure (files, some c, w)
      else
        match f with
        | none => Run.panic "nil dereference: f.Pos()"
        | some af => do
          let base ← fileBase af
          pure (files, some { c with pos := base + c.cursorPos, fileDir := dir }, w)
    else pure (files, some c, w)
  | none => pure (files, none, w)

/-- What an import yields: the package, the error, and the walker afterwards. -/
abbrev ImportResult := (Option Package × Option Err) × PkgWalker

/-- The closure `typesConf.Import` inside `Import`.  Its first test reads the
closure's own result `pkg`, which is nil on entry, so it never fires.  `imp` is
the final `w.Import(bp.Dir, name, ...)`. -/
def importCallback (world : World) (allowBinary : Bool)
    (imp : PkgWalker → String → Run ImportResult) (w : PkgWalker) (name : String) :
    Run ImportResult :=
  if allowBinary && isBinaryPkg name then
    match (w.gcimporter.lookup name).filter (fun p => p.complete) with
    | some p => .ok ((some p, none), w)
    | none =>
      match world.gcimporterImport w.gcimporter name with
      | ((pkg, err), imports) =>
        match pkg.filter (fun p => p.complete) with
        | some p => .ok ((some p, err.map Err.lib), { w with gcimporter := (name, p) :: imports })
        | none => imp { w with gcimporter := imports } name
  else imp w name

/-- The import paths of the files, in order; a path that does not unquote is
reported by the checker and not imported. -/
def importPaths (world : World) (files : List (Option AstFile)) : List String :=
  files.flatMap (fun f =>
    match f with
    | some af => af.Imports.filterMap (fun s => world.Unquote s.Path.Value)
    | none => [])

/-- The checker resolving the imports one after the other through the callback.
With `FakeImportC` set the path `C` is not imported; a failed import is reported
through `Error`, which only logs, and checking goes on. -/
def resolveImports (callback : PkgWalker → String → Run ImportResult) :
    List String → PkgWalker → Run PkgWalker
  | [], w => .ok w
  | path :: rest, w =>
    if path == "C" then resolveImports callback rest w
    else do
      let (_, w) ← callback w path
      resolveImports callback rest w

/-- Entries the checker records into the maps of `info`, when `info` is given. -/
def Info.record (info : Info) (c : Checked) : Info :=
  { Defs := info.Defs ++ c.defs,
    Uses := info.Uses ++ c.uses,
    Selections := info.Selections ++ c.selections }

/-- Modelled from the spec: method `types.Config.Check` of the type checker
(package `something-borrowed/types`, which is not among the sources).  It checks
the files as one package, follows every nested import through the callback
`Import` of the configuration, fills the semantic tables, and returns a package
even when it reports errors. -/
def Check (world : World) (callback : PkgWalker → String → Run ImportResult)
    (path : String) (files : List (Option AstFile)) (info : Option Info) (w : PkgWalker) :
    Run ((Package × Option Err) × Option Info × PkgWalker) :=
  match world.Check path files with
  | none => Run.panic "types.Check"
  | some c => do
    let w ← resolveImports callback (importPaths world files) (w.logged (.check path))
    pure ((c.pkg, c.err.map Err.lib), info.map (fun i => i.record c), w)

/-- The configuration of a nested import. -/
def nestedConfig : PkgConfig :=
  { IgnoreFuncBodies := true, AllowBinary := true, WithTestFiles := false,
    Cursor := none, Info := none }

/-- Method `PkgWalker.Import`.  The first argument bounds the depth of nested
imports; the result carries the configuration because the call updates the
cursor and the tables it points to. -/
def Import (world : World) :
    Nat → PkgWalker → String → String → PkgConfig → Run (ImportResult × PkgConfig)
  | 0, _, _, _, _ => .outOfFuel
  | fuel + 1, w, parentDir, name, conf =>
    let name :=
      if hasPrefix name "." && parentDir != "" then world.Join parentDir name else name
    match w.importedAt name with
    | some .importing => .ok (((none, some (.cycle name)), w), conf)
    | some (.pkg p) => .ok (((some p, none), w), conf)
    | none =>
      match (if world.IsAbs name then world.ImportDir name else world.Import name) with
      | (bp, err) =>
        let w := w.logged (.locate name)
        let checkName := if bp.ImportPath == "." then bp.Name else bp.ImportPath
        match err with
        | some e => .ok (((none, some (.lib e)), w), conf)
        | none => do
          let filenames := bp.GoFiles ++ bp.CgoFiles
          let filenames :=
            if conf.WithTestFiles then filenames ++ bp.TestGoFiles else filenames
          let filenames :=
            if name == "runtime" then
              let n := "zgoos_" ++ world.GOOS ++ ".go"
              let filenames := if !contains filenames n then filenames ++ [n] else filenames
              let n := "zgoarch_" ++ world.GOARCH ++ ".go"
              if !contains filenames n then filenames ++ [n] else filenames
            else filenames
          let (files, cursor, w) ← parserFiles world w bp.Dir filenames conf.Cursor true
          let (xfiles, cursor, w) ← parserFiles world w bp.Dir bp.XTestGoFiles cursor false
          let callback := importCallback world conf.AllowBinary
            (fun w name => (Import world fuel w bp.Dir name nestedConfig).bind
              (fun r => .ok r.1))
          let ((pkg, err), info, w) ← Check world callback checkName files conf.Info w
          let w := w.setImported name (some (.pkg pkg))
          if xfiles.length > 0 then do
            let ((xpkg, _), info, w) ←
              Check world callback (checkName ++ "_test") xfiles info w
            let w := w.setImported (checkName ++ "_test") (some (.pkg xpkg))
            pure (((some pkg, err), w), { conf with Cursor := cursor, Info := info })
          else
            pure (((some pkg, err), w), { conf with Cursor := cursor, Info := info })

/-! ## Texts -/

/-- The part of `s` behind the last character that satisfies `p`; all of `s` when
there is none (`s[i+1:]` for `i` the last index, `s` for `i == -1`). -/
def afterLast (p : Char → Bool) (s : List Char) : List Char :=
  (s.reverse.takeWhile (fun c => !p c)).reverse

/-- The function that `simpleType` applies to every match. -/
def simpleTypeWord (s : List Char) : List Char :=
  let r := afterLast (fun c => c == '/') s
  if r.count '.' > 1 then (r.dropWhile (fun c => c != '.')).drop 1 else r

/-- A character of the class `[\w\./]`. -/
def isTypeChar (c : Char) : Bool :=
  c.isAlphanum || c == '_' || c == '.' || c == '/'

/-- Rewriting of every maximal run of `[\w\./]` characters; `run` is the run read
so far. -/
def simpleTypeRuns : List Char → List Char → List Char
  | run, [] => simpleTypeWord run
  | run, c :: cs =>
    if isTypeChar c then simpleTypeRuns (run ++ [c]) cs
    else simpleTypeWord run ++ c :: simpleTypeRuns [] cs

/-- Function `simpleType`. -/
def simpleType (src : String) : String := ⟨simpleTypeRuns [] src.data⟩

/-- Function `strings.Replace(s, old, new, 1)` for a non-empty `old`. -/
def replaceFirst (old new : List Char) : List Char → List Char
  | [] => []
  | c :: cs =>
    if old.isPrefixOf (c :: cs) then new ++ (c :: cs).drop old.length
    else c :: replaceFirst old new cs

/-- Call `sort.IntSlice(usages).Sort()`: the same integers in ascending order. -/
def sortInts (usages : List Int) : List Int :=
  usages.insertionSort (fun a b => a ≤ b)

/-! ## Import declarations under the cursor -/

/-- Method `PkgWalker.CheckIsImport`. -/
def CheckIsImport (world : World) (w : PkgWalker) (cursor : FileCursor) :
    Run (Option ImportSpec × PkgWalker) :=
  if cursor.fileDir == "" then .ok (none, w)
  else do
    let ((file, _), w) ← parseFile world w cursor.fileDir cursor.fileName cursor.src
    match file with
    | none => pure (none, w)
    | some f => pure (f.Imports.find? (fun is => inRange is cursor.pos), w)

/-- The record appended for an import: kind `package` at a zero-based line and
column. -/
def importDoc (pkg : Package) (name : String) (fpos : Position) : Doc :=
  { Pkg := pkg.name, Src := "", Name := name, Kind := "package",
    Fn := fpos.Filename, Row := fpos.Line - 1, Col := fpos.Column - 1 }

/-- Method `PkgWalker.LookupImport`. -/
def LookupImport (world : World) (w : PkgWalker) (pkg : Package) (pkgInfo : Info)
    (_cursor : FileCursor) (is : ImportSpec) : Run (List Doc × PkgWalker) :=
  match world.Unquote is.Path.Value with
  | none => .ok ([], w)
  | some fpath => do
    let (ret, w) ←
      (if w.findDef then
        let fpos := world.Position is.Pos
        match is.Name with
        | none => Run.panic "nil dereference: is.Name.Name"
        | some n => Run.ok ([importDoc pkg n.Name fpos], w.printed (.position fpos))
      else Run.ok ([], w) : Run (List Doc × PkgWalker))
    let fbase : String :=
      ⟨afterLast (fun c => c == '.' || c == '/' || c == '-' || c == '\\') fpath.data⟩
    let fname :=
      match is.Name with
      | some n => n.Name
      | none => fbase
    let w :=
      if w.findInfo then
        if fname == fpath then w.printed (.line ("package " ++ fname))
        else w.printed (.line ("package " ++ fname ++ " (\"" ++ fpath ++ "\")"))
      else w
    if !w.findUse then pure (ret, w)
    else
      let fid := pkg.path ++ "." ++ fname
      let usages := pkgInfo.Uses.filterMap (fun e =>
        match e.2 with
        | some obj => if obj.Id == fid then some e.1.Pos else none
        | none => none)
      pure (ret ++ (sortInts usages).map (fun pos => importDoc pkg fname (world.Position pos)), w)

/-! ## Methods and structs -/

mutual
/-- Method `PkgWalker.lookupNamedMethod`; `none` is the result `(nil, nil)`. -/
def lookupNamedMethod : Named → String → Option (Func × Named)
  | .mk obj (.interface methods embeddeds) ms, name =>
    match methods.find? (fun fn => fn.Name == name) with
    | some fn => some (fn, .mk obj (.interface methods embeddeds) ms)
    | none => lookupEmbeddeds embeddeds name
  | .mk obj (.struct fields) ms, name =>
    match ms.find? (fun fn => fn.Name == name) with
    | some fn => some (fn, .mk obj (.struct fields) ms)
    | none => lookupFields fields name
  | .mk _ _ _, _ => none
/-- The loop over `iface.Embedded(i)`. -/
def lookupEmbeddeds : List Named → String → Option (Func × Named)
  | [], _ => none
  | e :: rest, name =>
    match lookupNamedMethod e name with
    | some r => some r
    | none => lookupEmbeddeds rest name
/-- The loop over `istruct.Field(i)`. -/
def lookupFields : List Var → String → Option (Func × Named)
  | [], _ => none
  | .mk _ (.named typ) _ true :: rest, name =>
    match lookupNamedMethod typ name with
    | some r => some r
    | none => lookupFields rest name
  | _ :: rest, name => lookupFields rest name
end

/-- The test of `LookupStructFromField` on one object of the definition table: a
type name whose underlying type is a struct with a field declared at `cursorPos`. -/
def structHasFieldAt (cursorPos : TokenPos) (obj : Object) : Bool :=
  match obj with
  | .typeName _ t =>
    match t.Underlying with
    | .struct fields => fields.any (fun f => f.Pos == cursorPos)
    | _ => false
  | _ => false

/-- The configuration with which a package is imported again to get positions. -/
def preciseConfig : PkgConfig :=
  { IgnoreFuncBodies := true, AllowBinary := true, WithTestFiles := true,
    Cursor := none, Info := some { Defs := [], Uses := [], Selections := [] } }

/-- The scan of the definition table in `LookupStructFromField`. -/
def structOfField (info : Info) (cursorPos : TokenPos) : Option Object :=
  (info.Defs.find? (fun e =>
    match e.2 with
    | some obj => structHasFieldAt cursorPos obj
    | none => false)).bind (fun e => e.2)

/-- Method `PkgWalker.LookupStructFromField`. -/
def LookupStructFromField (world : World) (fuel : Nat) (w : PkgWalker) (info : Option Info)
    (cursorPkg : Option Package) (_cursorObj : Object) (cursorPos : TokenPos) :
    Run (Option Object × PkgWalker) := do
  let (info, w) ←
    (match info with
    | some i => Run.ok (some i, w)
    | none =>
      match cursorPkg with
      | none => Run.panic "nil dereference: cursorPkg.Path()"
      | some cp => do
        let w := w.setImported cp.path none
        let ((r, w), conf) ← Import world fuel w "" cp.path preciseConfig
        pure (if r.1.isSome then conf.Info else none, w)
      : Run (Option Info × PkgWalker))
  match info with
  | none => pure (none, w)
  | some i => pure (structOfField i cursorPos, w)

/-! ## Symbols under the cursor -/

/-- The test `cursor.pos >= id.Pos() && cursor.pos <= id.End()`. -/
def Ident.spans (id : Ident) (pos : TokenPos) : Bool :=
  decide (pos ≥ id.Pos) && decide (pos ≤ id.End)

/-- The three loops at the head of `LookupObjects`: `cursorObj` and
`cursorSelection` when they are done.  Each loop stops at the first entry whose
identifier spans the position, and runs only while `cursorObj` is nil. -/
def findCursorObj (pkgInfo : Info) (pos : TokenPos) : Option Object × Option Selection :=
  let found := pkgInfo.Selections.find? (fun e => e.1.Sel.spans pos)
  let cursorSelection := found.map (fun e => e.2)
  let cursorObj := found.bind (fun e => e.2.obj)
  let cursorObj :=
    match cursorObj with
    | some obj => some obj
    | none => (pkgInfo.Defs.find? (fun (e : Ident × Option Object) => e.1.spans pos)).bind Prod.snd
  let cursorObj :=
    match cursorObj with
    | some obj => some obj
    | none => (pkgInfo.Uses.find? (fun (e : Ident × Option Object) => e.1.spans pos)).bind Prod.snd
  (cursorObj, cursorSelection)

/-- The step of `LookupObjects` for an embedded field. -/
def promoteAnonymous (kind : ObjKind) (cursorObj : Object) : Run Object :=
  if kind == ObjField then
    match cursorObj with
    | .var v =>
      if v.Anonymous then
        match v.Type with
        | .named named => .ok named.Obj
        | _ => .ok cursorObj
      else .ok cursorObj
    | _ => .panic "type assertion: cursorObj.(*types.Var)"
  else .ok cursorObj

/-- The step of `LookupObjects` for a method selected through an interface:
`cursorObj`, `cursorPkg`, `cursorInterfaceTypeName` and `cursorIsInterfaceMethod`
afterwards. -/
def interfaceMethod (kind : ObjKind) (cursorSelection : Option Selection)
    (cursorObj : Object) (cursorPkg : Option Package) :
    Run (Object × Option Package × String × Bool) :=
  match (if kind == ObjMethod then cursorSelection.bind (fun s => s.recv) else none) with
  | none => .ok (cursorObj, cursorPkg, "", false)
  | some selRecv =>
    match cursorObj with
    | .func f =>
      match f.Type.Underlying with
      | .signature sigRecv =>
        match sigRecv with
        | none => .panic "nil dereference: sig.Recv().Type()"
        | some r =>
          match r.Type.Underlying with
          | .interface _ _ =>
            match selRecv with
            | .named named =>
              match lookupNamedMethod named cursorObj.Name with
              | some (obj, typ) => .ok (.func obj, typ.Obj.Pkg, typ.Obj.Name, true)
              | none => .ok (cursorObj, cursorPkg, "", true)
            | _ => .panic "type assertion: cursorSelection.Recv().(*types.Named)"
          | _ => .ok (cursorObj, cursorPkg, "", false)
      | _ => .panic "type assertion: (*types.Signature)"
    | _ => .panic "type assertion: cursorObj.(*types.Func)"

/-- The variables of `LookupObjects` once the symbol is classified. -/
structure Located where
  cursorObj : Object
  kind : ObjKind
  cursorPkg : Option Package
  cursorPos : TokenPos
  fieldTypeInfo : Option Info
  cursorIsInterfaceMethod : Bool
  cursorInterfaceTypeName : String

/-- The loop that looks for the declaration of an interface method in the tables
of the package imported again. -/
def interfaceMethodPos (name typeName : String) :
    List (Ident × Option Object) → Run (Option TokenPos)
  | [] => .ok none
  | (_, some (.func fn)) :: rest =>
    if fn.Name == name then
      match fn.Type.Underlying with
      | .signature none => .panic "nil dereference: sig.Recv().Type()"
      | .signature (some r) =>
        match r.Type with
        | .named named =>
          if named.Obj.Name == typeName then .ok (some fn.head.pos)
          else interfaceMethodPos name typeName rest
        | _ => interfaceMethodPos name typeName rest
      | _ => interfaceMethodPos name typeName rest
    else interfaceMethodPos name typeName rest
  | _ :: rest => interfaceMethodPos name typeName rest

/-- The loop that looks for a definition rendered like the symbol. -/
def renderedPos (str : String) (defs : List (Ident × Option Object)) : Option TokenPos :=
  (defs.findSome? (fun e =>
    match e.2 with
    | some obj => if obj.Render == str then some obj.Pos else none
    | none => none))

/-- The step of `LookupObjects` for a symbol of another, standard package: the
package is imported again with positions. -/
def promotePackage (world : World) (fuel : Nat) (w : PkgWalker) (pkg : Package)
    (l : Located) : Run (Located × PkgWalker) :=
  match l.cursorPkg with
  | none => .ok (l, w)
  | some cp =>
    if !samePkg (some cp) (some pkg) && l.kind != ObjPkgName && isBinaryPkg cp.path then do
      let ((r, w), conf) ← Import world fuel w "" cp.path preciseConfig
      let defs :=
        match conf.Info with
        | some i => i.Defs
        | none => []
      let found ←
        (match r.1 with
        | some _ =>
          if l.cursorIsInterfaceMethod then
            interfaceMethodPos l.cursorObj.Name l.cursorInterfaceTypeName defs
          else .ok (renderedPos l.cursorObj.Render defs)
        | none => .ok none : Run (Option TokenPos))
      let fieldTypeInfo :=
        if l.kind == ObjField || l.cursorIsInterfaceMethod then conf.Info else l.fieldTypeInfo
      pure ({ l with cursorPos := found.getD l.cursorPos, fieldTypeInfo := fieldTypeInfo }, w)
    else .ok (l, w)

/-- The record of a symbol of package `p` at a position: zero-based line and
column. -/
def docAt (world : World) (p : Package) (cursorObj : Object) (kind : ObjKind)
    (pos : TokenPos) : Doc :=
  { Pkg := p.name, Src := "", Name := cursorObj.Name, Kind := ObjKind.String kind,
    Fn := (world.Position pos).Filename, Row := (world.Position pos).Line - 1,
    Col := (world.Position pos).Column - 1 }

/-- The record built for the symbol at one position; reading the name of a
package that is nil panics. -/
def symbolDoc (world : World) (cursorObj : Object) (kind : ObjKind) (pos : TokenPos) :
    Run Doc :=
  match cursorObj.Pkg with
  | none => .panic "nil dereference: cursorObj.Pkg().Name()"
  | some p => .ok (docAt world p cursorObj kind pos)

/-- The line printed when the hover text is requested. -/
def hoverText (pkg : Package) (l : Located) (fieldTypeObj : Option Object) : Run String :=
  match (if l.kind == ObjField then fieldTypeObj else none) with
  | some t =>
    let typeName :=
      match t.Pkg with
      | some tp => if !samePkg (some tp) (some pkg) then tp.name ++ "." ++ t.Name else t.Name
      | none => t.Name
    .ok (typeName ++ " " ++ simpleType l.cursorObj.Render)
  | none =>
    if l.kind == ObjBuiltin then .ok (builtinInfo l.cursorObj.Name)
    else if l.kind == ObjPkgName then .ok l.cursorObj.Render
    else if l.cursorIsInterfaceMethod then
      match l.cursorPkg with
      | none => .panic "nil dereference: cursorPkg.Name()"
      | some cp =>
        .ok ⟨replaceFirst "(interface)".data (cp.name ++ "." ++ l.cursorInterfaceTypeName).data
          (simpleType l.cursorObj.Render).data⟩
    else .ok (simpleType l.cursorObj.Render)

/-- The positions collected into `usages` by `LookupObjects`, before sorting. -/
def usagePositions (pkgInfo : Info) (kind : ObjKind) (cursorObj : Object) : List Int :=
  if kind == ObjPkgName then
    pkgInfo.Uses.filterMap (fun e =>
      match e.2 with
      | some obj => if obj.Id == cursorObj.Id then some e.1.Pos else none
      | none => none)
  else
    (pkgInfo.Defs.filter (fun e => sameObj e.2 cursorObj)).map (fun e => e.1.Pos) ++
    (pkgInfo.Uses.filter (fun e => sameObj e.2 cursorObj)).map (fun e => e.1.Pos)

/-- The last loop of `LookupObjects`: one record for every position. -/
def usageDocs (world : World) (cursorObj : Object) (kind : ObjKind) : List Int → Run (List Doc)
  | [] => .ok []
  | pos :: rest => do
    let d ← symbolDoc world cursorObj kind pos
    let ds ← usageDocs world cursorObj kind rest
    pure (d :: ds)

/-- The records that `LookupObjects` appends when usages are requested. -/
def usageRecords (world : World) (pkgInfo : Info) (kind : ObjKind) (cursorObj : Object) :
    Run (List Doc) :=
  usageDocs world cursorObj kind (sortInts (usagePositions pkgInfo kind cursorObj))

/-- The tail of `LookupObjects`: the definition record, the hover line and the
usage records. -/
def emitDocs (world : World) (w : PkgWalker) (pkg : Package) (pkgInfo : Info) (l : Located)
    (fieldTypeObj : Option Object) : Run (List Doc × PkgWalker) := do
  let ret ←
    (if w.findDef then (symbolDoc world l.cursorObj l.kind l.cursorPos).bind (fun d => .ok [d])
     else .ok [] : Run (List Doc))
  let w ←
    (if w.findInfo then (hoverText pkg l fieldTypeObj).bind (fun t => .ok (w.printed (.line t)))
     else .ok w : Run PkgWalker)
  if !w.findUse then pure (ret, w)
  else do
    let ds ← usageRecords world pkgInfo l.kind l.cursorObj
    pure (ret ++ ds, w)

/-- Method `PkgWalker.LookupObjects`. -/
def LookupObjects (world : World) (fuel : Nat) (w : PkgWalker) (pkg : Package) (pkgInfo : Info)
    (cursor : FileCursor) : Run (List Doc × PkgWalker) :=
  match findCursorObj pkgInfo cursor.pos with
  | (none, _) => .ok ([], w)
  | (some cursorObj, cursorSelection) =>
    match parserObjKind cursorObj with
    | (_, some _) => .fatal "unknown obj type"
    | (kind, none) => do
      let cursorObj ← promoteAnonymous kind cursorObj
      let fieldTypeInfo := if samePkg cursorObj.Pkg (some pkg) then some pkgInfo else none
      let cursorPos := cursorObj.Pos
      let (cursorObj, cursorPkg, typeName, isInterfaceMethod) ←
        interfaceMethod kind cursorSelection cursorObj cursorObj.Pkg
      let l : Located :=
        { cursorObj := cursorObj, kind := kind, cursorPkg := cursorPkg, cursorPos := cursorPos,
          fieldTypeInfo := fieldTypeInfo, cursorIsInterfaceMethod := isInterfaceMethod,
          cursorInterfaceTypeName := typeName }
      let (l, w) ← promotePackage world fuel w pkg l
      let (fieldTypeObj, w) ←
        (if kind == ObjField then
          LookupStructFromField world fuel w l.fieldTypeInfo l.cursorPkg l.cursorObj l.cursorPos
         else .ok (none, w) : Run (Option Object × PkgWalker))
      emitDocs world w pkg pkgInfo l fieldTypeObj

/-- Method `PkgWalker.LookupCursor`. -/
def LookupCursor (world : World) (fuel : Nat) (w : PkgWalker) (pkg : Package) (pkgInfo : Info)
    (cursor : FileCursor) : Run (List Doc × PkgWalker) := do
  let (is, w) ← CheckIsImport world w cursor
  match is with
  | some is => LookupImport world w pkg pkgInfo cursor is
  | none => LookupObjects world fuel w pkg pkgInfo cursor

/-! ## The request -/

/-- Type `mDoc`, as far as `findCode` reads it. -/
structure mDoc where
  Fn : String
  Src : String
  Offset : Int
  FindDef : Bool
  FindUse : Bool
  FindInfo : Bool

/-- The configuration `findCode` builds for a root package: with a cursor the
bodies of functions are checked and the three tables are filled. -/
def rootConfig (cursor : FileCursor) : PkgConfig :=
  { IgnoreFuncBodies := false, AllowBinary := true, WithTestFiles := true,
    Cursor := some cursor, Info := some { Defs := [], Uses := [], Selections := [] } }

/-- The loop of `findCode` over the packages; the cursor is shared by all rounds. -/
def findCodeLoop (world : World) (fuel : Nat) (m : mDoc) :
    List String → PkgWalker → FileCursor → List Doc → Run (List Doc × PkgWalker)
  | [], w, _, res => .ok (res, w)
  | pkgName :: rest, w, cursor, res => do
    let pkgName ←
      (if pkgName == "." then
        match world.Getwd with
        | (_, some err) => Run.fatal err
        | (pkgPath, none) => Run.ok pkgPath
      else Run.ok pkgName : Run String)
    let conf := rootConfig cursor
    let ((r, w), conf) ← Import world fuel w "" pkgName conf
    match r.1 with
    | none => Run.fatal "error import path"
    | some pkg =>
      let cursor := conf.Cursor.getD cursor
      let info := conf.Info.getD { Defs := [], Uses := [], Selections := [] }
      if m.FindInfo || m.FindDef || m.FindUse then do
        let (res, w) ← LookupCursor world fuel w pkg info cursor
        findCodeLoop world fuel m rest w cursor res
      else findCodeLoop world fuel m rest w cursor res

/-- Method `mDoc.findCode`. -/
def findCode (world : World) (fuel : Nat) (m : mDoc) (packages : List String) :
    Run (List Doc × PkgWalker) :=
  findCodeLoop world fuel m packages (NewPkgWalker m.FindDef m.FindUse m.FindInfo)
    { pkg := "", src := some m.Src, cursorPos := m.Offset, pos := 0,
      fileName := world.Base m.Fn, fileDir := world.Dir m.Fn } []

/-! ## Embedding, as `lookupNamedMethod` walks it -/

/-- The methods a named type declares itself, where `lookupNamedMethod` reads
them: the methods of an interface, the methods of a named struct. -/
def Named.declared : Named → List Func
  | .mk _ (.interface methods _) _ => methods
  | .mk _ (.struct _) ms => ms
  | .mk _ _ _ => []

/-- The named type a struct field embeds, if it embeds one. -/
def embeddedOfField : Var → Option Named
  | .mk _ (.named typ) _ true => some typ
  | _ => none

/-- The named types embedded directly, in declaration order. -/
def Named.embedded : Named → List Named
  | .mk _ (.interface _ embeddeds) _ => embeddeds
  | .mk _ (.struct fields) _ => fields.filterMap embeddedOfField
  | .mk _ _ _ => []

/-- Reachability through embedding: `Embeds n m` when `m` is `n` or is embedded,
at any depth, in `n`. -/
inductive Embeds : Named → Named → Prop where
  | refl (n : Named) : Embeds n n
  | step {n e m : Named} : e ∈ n.embedded → Embeds e m → Embeds n m

/-! ## Example inputs -/

/-- A source tree for the examples: every package `x` lives in `/src/x`. -/
def exampleWorld (locate : String → Option BuildPackage) (parse : String → Option AstFile)
    (checked : String → Checked) : World :=
  { GOOS := "linux", GOARCH := "amd64",
    IsAbs := fun name => hasPrefix name "/",
    Join := fun dir file => dir ++ "/" ++ file,
    Base := fun file => ⟨afterLast (fun c => c == '/') file.data⟩,
    ImportDir := fun name =>
      match locate name with
      | some bp => (bp, none)
      | none => ({ Dir := name, Name := "", ImportPath := ".", GoFiles := [], CgoFiles := [],
                   TestGoFiles := [], XTestGoFiles := [] }, some "no buildable Go source files"),
    Import := fun name =>
      match locate name with
      | some bp => (bp, none)
      | none => ({ Dir := "", Name := "", ImportPath := name, GoFiles := [], CgoFiles := [],
                   TestGoFiles := [], XTestGoFiles := [] }, some "cannot find package"),
    ParseFile := fun filename _ _ =>
      match parse filename with
      | some f => (some f, none)
      | none => (none, some "no such file"),
    gcimporterImport := fun imports _ => ((none, some "can't find import"), imports),
    Check := fun path _ => some (checked path),
    Position := fun pos => { Filename := "p.go", Line := pos / 80 + 1, Column := pos % 80 + 1 },
    Unquote := fun s =>
      if hasPrefix s "\"" && 2 ≤ s.length then some ⟨(s.data.drop 1).dropLast⟩ else none,
    Dir := fun file => ⟨(file.data.reverse.dropWhile (fun c => c != '/')).drop 1 |>.reverse⟩,
    Getwd := ("/src/p", none) }

/-- A package of one file `x.go` in `/src/x`. -/
def oneFilePackage (name : String) : BuildPackage :=
  { Dir := "/src/" ++ name, Name := name, ImportPath := name, GoFiles := [name ++ ".go"],
    CgoFiles := [], TestGoFiles := [], XTestGoFiles := [] }

/-- A file whose only declarations of interest are its imports, given by path. -/
def fileImporting (paths : List String) : AstFile :=
  { Package := 1, Base := 1,
    Imports := paths.enum.map (fun p =>
      { Name := none, Path := { ValuePos := 19 + 40 * p.1, Value := "\"" ++ p.2 ++ "\"" },
        EndPos := 0 }) }

/-- The checker's result for a package without declarations. -/
def emptyChecked (path : String) : Checked :=
  { pkg := { addr := 1 + path.length, path := path, name := path, complete := true },
    err := none, defs := [], uses := [], selections := [] }

/-- The packages of the example tree. -/
def exampleLocate (name : String) : Option BuildPackage :=
  if name == "self" || name == "a" || name == "b" || name == "top" || name == "leaf" ||
    name == "p"
  then some (oneFilePackage name) else none

/-- The files of the example tree. -/
def exampleParse (filename : String) : Option AstFile :=
  if filename == "/src/self/self.go" then some (fileImporting ["self"])
  else if filename == "/src/a/a.go" then some (fileImporting ["b"])
  else if filename == "/src/b/b.go" then some (fileImporting ["a"])
  else if filename == "/src/top/top.go" then some (fileImporting ["leaf", "leaf"])
  else if filename == "/src/leaf/leaf.go" then some (fileImporting [])
  else if filename == "/src/p/p.go" then some (fileImporting ["encoding/json"])
  else none

/-- A tree with the packages `self` (imports itself), `a` and `b` (import each
other), `top` (imports `leaf` twice), `leaf` (imports nothing) and `p` (its file
`p.go` reads `package p`, an empty line and `import "encoding/json"`); nothing else
exists, and no compiled package is installed. -/
def exampleTree : World :=
  exampleWorld exampleLocate exampleParse emptyChecked

/-- A request for the definition under offset 25 of `/src/p/p.go`, which is
inside the path of its import declaration. -/
def importRequest : mDoc :=
  { Fn := "/src/p/p.go", Src := "package p\n\nimport \"encoding/json\"\n", Offset := 25,
    FindDef := true, FindUse := false, FindInfo := false }

/-- The package under the cursor in the examples. -/
def examplePkg : Package := { addr := 2, path := "p", name := "p", complete := true }

/-- The head of an object of the example package. -/
def exampleHead (addr : Nat) (name : String) (pos : TokenPos) (str : String) : ObjHead :=
  { addr := addr, name := name, pkg := some examplePkg, pos := pos, str := str, id := name }

/-- Method `M` of interface `I`. -/
def exampleM : Func :=
  .mk (exampleHead 11 "M" 25 "func (interface).M()")
    (.signature (some (.mk (exampleHead 13 "" 0 "var  interface{M()}") (.interface [] [])
      false false)))

/-- Declaration `type I interface{ M() }`. -/
def exampleI : Named :=
  .mk (exampleHead 10 "I" 6 "type p.I interface{M()}") (.interface [exampleM] []) []

/-- Declaration `type J interface{ I }`. -/
def exampleJ : Named :=
  .mk (exampleHead 12 "J" 36 "type p.J interface{I}") (.interface [] [exampleI]) []

/-- Field `F` of `type S struct { F int }`. -/
def fieldOfS : Var := .mk (exampleHead 21 "F" 17 "field F int") (.basic "int") true false

/-- Field `F` of `type T struct { F string }`. -/
def fieldOfT : Var := .mk (exampleHead 23 "F" 47 "field F string") (.basic "string") true false

/-- Type name `S`. -/
def structS : Object :=
  Named.Obj (.mk (exampleHead 20 "S" 6 "type p.S struct{F int}") (.struct [fieldOfS]) [])

/-- Type name `T`. -/
def structT : Object :=
  Named.Obj (.mk (exampleHead 22 "T" 36 "type p.T struct{F string}") (.struct [fieldOfT]) [])

/-- Tables of a file that declares `type S struct { F int }` and
`type T struct { F string }` and selects `s.F` at position 82: the definitions
(the package clause defines no object), the uses of `S` and `F`, and the selection. -/
def twoStructs : Info :=
  { Defs := [({ NamePos := 36, Name := "T" }, some structT),
             ({ NamePos := 47, Name := "F" }, some (.var fieldOfT)),
             ({ NamePos := 9, Name := "p" }, none),
             ({ NamePos := 6, Name := "S" }, some structS),
             ({ NamePos := 17, Name := "F" }, some (.var fieldOfS))],
    Uses := [({ NamePos := 70, Name := "S" }, some structS),
             ({ NamePos := 82, Name := "F" }, some (.var fieldOfS))],
    Selections := [({ Sel := { NamePos := 82, Name := "F" } },
                    { obj := some (.var fieldOfS), recv := some (.basic "S") })] }

/-- A cursor in `p.go` of package `p` at a position of the file set. -/
def cursorAt (pos : TokenPos) : FileCursor :=
  { pkg := "", fileName := "p.go", fileDir := "/src/p", cursorPos := pos - 1, pos := pos,
    src := none }

/-- Function `Foo` of the example package. -/
def exampleFoo : Object :=
  .func (.mk (exampleHead 30 "Foo" 15 "func p.Foo()") (.signature none))

/-- Tables in which the identifier at position 15 is bound to `Foo` both in the
definitions and in the uses; the type checker fills no such tables. -/
def sharedIdentInfo : Info :=
  { Defs := [({ NamePos := 15, Name := "Foo" }, some exampleFoo)],
    Uses := [({ NamePos := 15, Name := "Foo" }, some exampleFoo)],
    Selections := [] }

/-- Tables in which the identifier at position 30 denotes an object of a dynamic
type that `parserObjKind` does not list. -/
def unknownObjInfo : Info :=
  { Defs := [],
    Uses := [({ NamePos := 30, Name := "x" }, some (.other (exampleHead 40 "x" 30 "x")))],
    Selections := [] }

/-- Every file in the cache of the walker is the file of the example tree. -/
def CacheOK (w : PkgWalker) : Prop :=
  ∀ filename f, (w.parsedFileCache.lookup filename).join = some f →
    exampleParse filename = some f
/-- A relation between the walker before and after some work that reads only the
table of imported packages, is a preorder, and admits storing a package. -/
structure ImportStable (R : PkgWalker → PkgWalker → Prop) : Prop where
  refl : ∀ w, R w w
  trans : ∀ {a b c}, R a b → R b c → R a c
  congr : ∀ {w w1}, w1.imported = w.imported → R w w1
  set : ∀ w k p, R w (w.setImported k (some (.pkg p)))
/-- A path that has a package keeps having one. -/
def KeepsPackages (w w1 : PkgWalker) : Prop :=
  ∀ k, (∃ p, w.importedAt k = some (.pkg p)) → ∃ q, w1.importedAt k = some (.pkg q)

/-- The marker of an import in progress does not appear. -/
def StaysUnmarked (w w1 : PkgWalker) : Prop :=
  (∀ k, w.importedAt k ≠ some .importing) → ∀ k, w1.importedAt k ≠ some .importing

/-- The path under which `Import` looks a package up and stores it: a path that
starts with a dot is joined to the directory of the importing package. -/
def importKey (world : World) (parentDir name : String) : String :=
  if hasPrefix name "." && parentDir != "" then world.Join parentDir name else name

/-- The answer of the build context for a path, as `Import` asks for it. -/
def locatePackage (world : World) (name : String) : BuildPackage × Option String :=
  if world.IsAbs name then world.ImportDir name else world.Import name

/-- How often the build context was asked to locate the path.  `Import` asks
before it parses and checks a package, so this counts the resolutions of the
path that were started. -/
def PkgWalker.locates (w : PkgWalker) (k : String) : Nat :=
  w.trace.count (Event.locate k)

/-- The path is not the name under which `Import` stores an external test
package, the checked name followed by `_test`. -/
def NotTestKey (k : String) : Prop := ∀ c : String, k ≠ c ++ "_test"

/-- If the first walker holds the package under the path, so does the second, and
the path was not located in between. -/
def Remembers (k : String) (p : Package) (w w1 : PkgWalker) : Prop :=
  w.importedAt k = some (.pkg p) →
    w1.importedAt k = some (.pkg p) ∧ w1.locates k = w.locates k

/-- The walker of a fresh session after `top` has been imported: `top` and `leaf`
are stored, their files are cached, and each was located, parsed and checked once
although `top` imports `leaf` twice. -/
def walkerAfterTop : PkgWalker :=
  { parsedFileCache := [("/src/leaf/leaf.go", some (fileImporting [])),
                        ("/src/top/top.go", some (fileImporting ["leaf", "leaf"]))],
    imported := [("top", some (.pkg (emptyChecked "top").pkg)),
                 ("leaf", some (.pkg (emptyChecked "leaf").pkg)),
                 ("unsafe", some (.pkg Unsafe))],
    gcimporter := [("unsafe", Unsafe)],
    findDef := false, findUse := false, findInfo := false,
    trace := [.locate "top", .parse "/src/top/top.go", .check "top",
              .locate "leaf", .parse "/src/leaf/leaf.go", .check "leaf"],
    stdout := [] }

/-- The builtin function `len`, an object of the universe: it has no package. -/
def builtinLen : Object :=
  .builtin { addr := 50, name := "len", pkg := none, pos := 0, str := "builtin len", id := "len" }

/-- Tables of a file that calls `len` at position 40. -/
def lenInfo : Info :=
  { Defs := [],
    Uses := [({ NamePos := 40, Name := "len" }, some builtinLen)],
    Selections := [] }

/-- Struct `type R struct { I }`, which embeds the interface `I`. -/
def structEmbedsI : Named :=
  .mk (exampleHead 60 "R" 66 "type p.R struct{I}")
    (.struct [.mk (exampleHead 61 "I" 77 "field I p.I") (.named exampleI) true true]) []

/-- Tables of a file that calls `r.M()` at position 92 with `r` of type `*R`: the
selection resolves to the method `M` of the embedded interface `I`, and the
receiver of the selection is the pointer type. -/
def pointerReceiverInfo : Info :=
  { Defs := [],
    Uses := [({ NamePos := 92, Name := "M" }, some (.func exampleM))],
    Selections := [({ Sel := { NamePos := 92, Name := "M" } },
                    { obj := some (.func exampleM),
                      recv := some (.pointer (.named structEmbedsI)) })] }

/-- Tables of a file that calls `x.M()` at position 92 with `x` declared as
`var x interface{ M() }`: the receiver of the selection is an interface type
without a name. -/
def literalReceiverInfo : Info :=
  { Defs := [],
    Uses := [({ NamePos := 92, Name := "M" }, some (.func exampleM))],
    Selections := [({ Sel := { NamePos := 92, Name := "M" } },
                    { obj := some (.func exampleM),
                      recv := some (.interface [exampleM] []) })] }

/-- Tables of a file that calls `j.M()` at position 92 with `j` of the named
interface type `J`. -/
def namedReceiverInfo : Info :=
  { Defs := [({ NamePos := 25, Name := "M" }, some (.func exampleM))],
    Uses := [({ NamePos := 92, Name := "M" }, some (.func exampleM))],
    Selections := [({ Sel := { NamePos := 92, Name := "M" } },
                    { obj := some (.func exampleM), recv := some (.named exampleJ) })] }

/-- Every file stored in the cache of the first walker is stored under the same
name in the second. -/
def KeepsFiles (w w1 : PkgWalker) : Prop :=
  ∀ filename f, (w.parsedFileCache.lookup filename).join = some f →
    (w1.parsedFileCache.lookup filename).join = some f

/-- The tree that the parser hands back together with an error for the
unfinished text `package p`, an empty line and `import (`: the part read before
the error, without an import. -/
def partialFile : AstFile := { Package := 1, Base := 1, Imports := [] }

/-- The example tree with a parser that reads the override text: the unfinished
text `package p`, an empty line and `import (` yields the partial tree and an
error; any other text, and the files on disk, are parsed as in the example
tree. -/
def editedTree : World :=
  { exampleTree with
    ParseFile := fun filename src mode =>
      if src == some "package p\n\nimport (" then
        (some partialFile, some "expected import path")
      else exampleTree.ParseFile filename src mode }

/-! ## Source file `m_import_paths.go` -/

/-- The loop of `uniqueSlice`: `seen` is the set of strings met so far, `s` the
slice that is rewritten in place, `i` the index read and `j` the index written.
It returns the slice and the final `j`. -/
def uniqueSliceLoop (seen : List String) (s : List String) (i j : Nat) : List String × Nat :=
  if h : i < s.length then
    if seen.contains (s.get ⟨i, h⟩) then uniqueSliceLoop seen s (i + 1) j
    else uniqueSliceLoop (s.get ⟨i, h⟩ :: seen) (s.set j (s.get ⟨i, h⟩)) (i + 1) (j + 1)
  else (s, j)
termination_by s.length - i
decreasing_by
  all_goals simp_wf
  all_goals omega

/-- Function `uniqueSlice`: the slice `s` is made of `s0` followed by `s1`, the
loop moves the strings not seen before to the front, and `s[:j]` is returned. -/
def uniqueSlice (s0 s1 : List String) : List String :=
  let s := s0 ++ s1
  let r := uniqueSliceLoop [] s 0 0
  r.1.take r.2

/-- Function `uniqueEnv`.  The method `DefaultEnv.PkgDirs` is declared in a file
that is not part of the sources at hand and is a parameter here; `none` is the
nil map. -/
def uniqueEnv (PkgDirs : Option (List (String × String)) → List String)
    (env : Option (List (String × String))) : List String :=
  match env with
  | none => PkgDirs none
  | some e =>
    if e.length == 0 then PkgDirs none
    else uniqueSlice (PkgDirs none) (PkgDirs (some e))

/-- The list with every repeated occurrence removed, as the claim words it: a
string is dropped when it is among the strings that stand earlier, and kept
otherwise. -/
def removeRepeats (earlier : List String) : List String → List String
  | [] => []
  | x :: rest =>
    if earlier.contains x then removeRepeats earlier rest
    else x :: removeRepeats (x :: earlier) rest

/-! ## Source file `bridge.go` of package `gocode` -/

/-- Type `MargoCandidate`. -/
structure MargoCandidate where
  Name : String
  Typ : String
  Class : String
deriving DecidableEq, Repr

/-- Type `MargoConfig`. -/
structure MargoConfig where
  GOROOT : String
  GOPATH : String
  InstallSuffix : String
  Builtins : Bool
deriving DecidableEq, Repr

/-- Type `build.Context`, as far as the daemon reads it. -/
structure BuildContext where
  GOARCH : String
  GOOS : String
  GOROOT : String
  GOPATH : String
  InstallSuffix : String
deriving DecidableEq, Repr

/-- Modelled from the spec: the package cache of the candidate engine, which is
declared in a file that is not part of the sources at hand.  A cache is an
allocation, known by its address, and holds entries. -/
structure package_cache where
  addr : Nat
  entries : List String
deriving DecidableEq, Repr

/-- Modelled from the spec: the declaration cache of the candidate engine, made
for a build context. -/
structure decl_cache where
  addr : Nat
  context : BuildContext
  entries : List String
deriving DecidableEq, Repr

/-- Modelled from the spec: the autocomplete context of the candidate engine,
which works on the two caches it was made with. -/
structure auto_complete_context where
  addr : Nat
  pcache : package_cache
  declcache : decl_cache
deriving DecidableEq, Repr

/-- Modelled from the spec: a candidate as the engine proposes it; `Class` is the
number of its declaration class. -/
structure candidate where
  Name : String
  Typ : String
  Class : Nat
deriving DecidableEq, Repr

/-- The fields of the package variable `g_config` that the daemon writes. -/
structure config where
  ProposeBuiltins : Bool
  LibPath : String
deriving DecidableEq, Repr

/-- Type `mgoDaemon`.  The mutex is left out: one call runs at a time. -/
structure mgoDaemon where
  autocomplete : auto_complete_context
  declcache : decl_cache
  pkgcache : package_cache
  context : BuildContext
deriving DecidableEq, Repr

/-- The package variables of `gocode`: the daemon `Margo`, the configuration
`g_config`, and the number of allocations made so far, which is the address of
the next one. -/
structure Globals where
  daemon : mgoDaemon
  g_config : config
  heap : Nat
deriving DecidableEq, Repr

/-- What the candidate engine and the standard library do for the daemon. -/
structure Engine where
  /-- Modelled from the spec: method `apropos` of the autocomplete context, a
  black box: the candidates (`none` is the nil list), and the entries that the
  package cache and the declaration cache hold afterwards -/
  apropos : auto_complete_context → config → String → String → Int →
    Option (List candidate) × List String × List String
  /-- method `String` of the declaration class -/
  classString : Nat → String
  /-- function `filepath.Join` -/
  Join : List String → String
  /-- function `filepath.SplitList` -/
  SplitList : String → List String
  /-- constant `filepath.ListSeparator`, as a string -/
  ListSeparator : String

/-- Modelled from the spec: function `new_package_cache`, a new and empty cache
at the next address. -/
def new_package_cache (heap : Nat) : package_cache × Nat :=
  ({ addr := heap, entries := [] }, heap + 1)

/-- Modelled from the spec: function `new_decl_cache`, a new and empty cache for
the context. -/
def new_decl_cache (heap : Nat) (context : BuildContext) : decl_cache × Nat :=
  ({ addr := heap, context := context, entries := [] }, heap + 1)

/-- Modelled from the spec: function `new_auto_complete_context`, a new context
on the two caches. -/
def new_auto_complete_context (heap : Nat) (pcache : package_cache) (declcache : decl_cache) :
    auto_complete_context × Nat :=
  ({ addr := heap, pcache := pcache, declcache := declcache }, heap + 1)

/-- Function `newMgoDaemon`, for the default build context. -/
def newMgoDaemon (defaultContext : BuildContext) (heap : Nat) : mgoDaemon × Nat :=
  let (pkgcache, heap) := new_package_cache heap
  let (declcache, heap) := new_decl_cache heap defaultContext
  let (autocomplete, heap) := new_auto_complete_context heap pkgcache declcache
  ({ autocomplete := autocomplete, declcache := declcache, pkgcache := pkgcache,
     context := defaultContext }, heap)

/-- Function `splitPathList`. -/
def splitPathList (engine : Engine) (s : String) : List String :=
  engine.SplitList s

/-- Method `mgoDaemon.gopath`. -/
def mgoDaemon.gopath (engine : Engine) (m : mgoDaemon) : List String :=
  (splitPathList engine m.context.GOPATH).filter
    (fun p => p != "" && p != m.context.GOROOT && !hasPrefix p "~")

/-- Method `mgoDaemon.osArch`. -/
def mgoDaemon.osArch (m : mgoDaemon) : String :=
  if m.context.InstallSuffix == "" then m.context.GOOS ++ "_" ++ m.context.GOARCH
  else m.context.GOOS ++ "_" ++ m.context.GOARCH ++ "_" ++ m.context.InstallSuffix

/-- Method `mgoDaemon.libPath`. -/
def mgoDaemon.libPath (engine : Engine) (m : mgoDaemon) : String :=
  let arch := m.osArch
  let all : List String :=
    if m.context.GOROOT != "" then [engine.Join [m.context.GOROOT, "pkg", arch]] else []
  let all := all ++ (m.gopath engine).map (fun p => engine.Join [p, "pkg", arch])
  engine.ListSeparator.intercalate all

/-- Method `mgoDaemon.update`. -/
def mgoDaemon.update (engine : Engine) (g : Globals) (c : MargoConfig) : Globals :=
  let m := g.daemon
  let m := { m with context := { m.context with GOROOT := c.GOROOT } }
  let m := { m with context := { m.context with GOPATH := c.GOPATH } }
  let m := { m with context := { m.context with InstallSuffix := c.InstallSuffix } }
  let g_config := { g.g_config with ProposeBuiltins := c.Builtins }
  let g_config := { g_config with LibPath := m.libPath engine }
  let (pkgcache, heap) := new_package_cache g.heap
  let m := { m with pkgcache := pkgcache }
  let (declcache, heap) := new_decl_cache heap m.context
  let m := { m with declcache := declcache }
  let (autocomplete, heap) := new_auto_complete_context heap m.pkgcache m.declcache
  let m := { m with autocomplete := autocomplete }
  { daemon := m, g_config := g_config, heap := heap }

/-- The `switch` at the head of `Complete`: the first case that holds is taken. -/
def mgoDaemon.reconfigure (engine : Engine) (g : Globals) (config : MargoConfig) : Globals :=
  if g.daemon.context.GOROOT != config.GOROOT then mgoDaemon.update engine g config
  else if g.daemon.context.GOPATH != config.GOPATH then mgoDaemon.update engine g config
  else if g.daemon.context.InstallSuffix != config.InstallSuffix then
    mgoDaemon.update engine g config
  else if g.g_config.ProposeBuiltins != config.Builtins then
    { g with g_config := { g.g_config with ProposeBuiltins := config.Builtins } }
  else g

/-- The call of `apropos` in `Complete`: the engine works on the autocomplete
context of the daemon, and what it stores is in the caches of that context, which
are the caches of the daemon. -/
def mgoDaemon.apropos (engine : Engine) (g : Globals) (file filename : String) (cursor : Int) :
    Option (List candidate) × Globals :=
  let r := engine.apropos g.daemon.autocomplete g.g_config file filename cursor
  let pkgcache := { g.daemon.autocomplete.pcache with entries := r.2.1 }
  let declcache := { g.daemon.autocomplete.declcache with entries := r.2.2 }
  (r.1,
   { g with
     daemon :=
       { g.daemon with
         autocomplete := { g.daemon.autocomplete with pcache := pkgcache, declcache := declcache },
         pkgcache := { g.daemon.pkgcache with entries :=
           if g.daemon.pkgcache.addr == pkgcache.addr then r.2.1 else g.daemon.pkgcache.entries },
         declcache := { g.daemon.declcache with entries :=
           if g.daemon.declcache.addr == declcache.addr then r.2.2
           else g.daemon.declcache.entries } } })

/-- The end of `Complete`: a nil list gives the empty slice, and every candidate
is copied with the name of its class.  `none` is the nil slice. -/
def margoCandidates (engine : Engine) : Option (List candidate) → Option (List MargoCandidate)
  | none => some []
  | some list =>
    some (list.map (fun c =>
      { Name := c.Name, Typ := c.Typ, Class := engine.classString c.Class }))

/-- Method `mgoDaemon.Complete`. -/
def mgoDaemon.Complete (engine : Engine) (g : Globals) (file filename : String) (cursor : Int)
    (config : MargoConfig) : Option (List MargoCandidate) × Globals :=
  let g := mgoDaemon.reconfigure engine g config
  let (list, g) := mgoDaemon.apropos engine g file filename cursor
  (margoCandidates engine list, g)

/-- The request names another root, another path list or another install suffix
than the daemon holds. -/
def pathsDiffer (g : Globals) (config : MargoConfig) : Prop :=
  g.daemon.context.GOROOT ≠ config.GOROOT ∨ g.daemon.context.GOPATH ≠ config.GOPATH ∨
    g.daemon.context.InstallSuffix ≠ config.InstallSuffix

/-- The caches and the autocomplete context of the daemon were allocated before
the next address, and the autocomplete context works on the caches of the
daemon. -/
def Globals.Sound (g : Globals) : Prop :=
  g.daemon.pkgcache.addr < g.heap ∧ g.daemon.declcache.addr < g.heap ∧
    g.daemon.autocomplete.addr < g.heap ∧
    g.daemon.autocomplete.pcache = g.daemon.pkgcache ∧
    g.daemon.autocomplete.declcache = g.daemon.declcache

/-- An engine for the examples: it proposes `Println`, and `println` as well when
builtins are asked for; afterwards the package cache holds the archive of `fmt`
under the root of the context the declaration cache was made for, next to what it
held before, and the declaration cache holds the file. -/
def exampleEngine : Engine :=
  { apropos := fun ctx cfg _ filename _ =>
      (some ([{ Name := "Println", Typ := "func(a ...string)", Class := 1 }] ++
        (if cfg.ProposeBuiltins then [{ Name := "println", Typ := "func(args ...Type)", Class := 1 }]
         else [])),
       (ctx.declcache.context.GOROOT ++ "/pkg/fmt.a") :: ctx.pcache.entries,
       filename :: ctx.declcache.entries),
    classString := fun c => if c == 1 then "func" else "var",
    Join := fun parts => "/".intercalate parts,
    SplitList := fun s => s.splitOn ":",
    ListSeparator := ":" }

/-- The default build context of the examples. -/
def exampleDefault : BuildContext :=
  { GOARCH := "amd64", GOOS := "linux", GOROOT := "/go", GOPATH := "/home", InstallSuffix := "" }

/-- The package variables when the program starts. -/
def exampleGlobals : Globals :=
  { daemon := (newMgoDaemon exampleDefault 0).1,
    g_config := { ProposeBuiltins := false, LibPath := "" },
    heap := (newMgoDaemon exampleDefault 0).2 }

/-- A request with the paths of the default context and the given flag. -/
def defaultRequest (builtins : Bool) : MargoConfig :=
  { GOROOT := "/go", GOPATH := "/home", InstallSuffix := "", Builtins := builtins }

/-- The package variables after one completion with the default paths and
without builtins: the caches are filled. -/
def filledGlobals : Globals :=
  (mgoDaemon.Complete exampleEngine exampleGlobals "package main" "a.go" 0
    (defaultRequest false)).2

/-! ## Source file `m_gocode.go` -/

/-- Type `token.Position`, as far as `calltips` reads it. -/
structure OffsetPosition where
  Offset : Int
  Line : Int
deriving DecidableEq, Repr

/-- Method `(*token.Position).IsValid`. -/
def OffsetPosition.IsValid (p : OffsetPosition) : Bool := decide (p.Line > 0)

/-- Type `*token.File`: its base, its size, and the line of every offset. -/
structure TokenFile where
  Base : Int
  Size : Int
  Line : Int → Int

/-- Method `(*token.File).Position`: it panics for a position outside the file. -/
def TokenFile.Position (f : TokenFile) (p : TokenPos) : Run OffsetPosition :=
  if p != 0 then
    if p < f.Base || p > f.Base + f.Size then .panic "illegal Pos value"
    else .ok { Offset := p - f.Base, Line := f.Line (p - f.Base) }
  else .ok { Offset := 0, Line := 0 }

/-- Type `*token.FileSet`: the files added to it. -/
abbrev FileSet := List TokenFile

/-- Method `(*token.FileSet).File`: the file that holds the position, or nil. -/
def FileSet.File (s : FileSet) (p : TokenPos) : Option TokenFile :=
  if p != 0 then s.find? (fun f => decide (f.Base ≤ p) && decide (p ≤ f.Base + f.Size)) else none

/-- Method `(*token.FileSet).Position`: the zero position when no file holds
the position. -/
def FileSet.Position (s : FileSet) (p : TokenPos) : OffsetPosition :=
  if p != 0 then
    match s.find? (fun f => decide (f.Base ≤ p) && decide (p ≤ f.Base + f.Size)) with
    | some f => { Offset := p - f.Base, Line := f.Line (p - f.Base) }
    | none => { Offset := 0, Line := 0 }
  else { Offset := 0, Line := 0 }

mutual
/-- The nodes of a syntax tree, as the walk of `calltips` tells them apart: an
identifier, a selector expression `X.Sel`, a call, and any other node with its
children in the order of `ast.Walk`. -/
inductive AstNode where
  | ident (id : Ident)
  | selector (X : AstNode) (Sel : Option Ident)
  | call (x : CallExpr)
  | other (children : List AstNode)
/-- Type `*ast.CallExpr`: the values of `Pos()` and `End()`, the function `Fun`,
which the parser never leaves nil, and the arguments. -/
inductive CallExpr where
  | mk (pos end_ : TokenPos) (Fun : AstNode) (Args : List AstNode)
end

/-- Method `(*ast.CallExpr).Pos`. -/
def CallExpr.Pos : CallExpr → TokenPos
  | .mk pos _ _ _ => pos

/-- Method `(*ast.CallExpr).End`. -/
def CallExpr.End : CallExpr → TokenPos
  | .mk _ end_ _ _ => end_

/-- Field `Fun` of a call. -/
def CallExpr.Fun : CallExpr → AstNode
  | .mk _ _ fn _ => fn

/-- Field `Args` of a call. -/
def CallExpr.Args : CallExpr → List AstNode
  | .mk _ _ _ args => args

/-- Type `*ast.File` for `calltips`: the position of the file and the nodes below
the file node, in the order of `ast.Walk`. -/
structure SourceFile where
  Package : TokenPos
  Nodes : List AstNode

/-- Method `(*ast.File).Pos`. -/
def SourceFile.Pos (af : SourceFile) : TokenPos := af.Package

/-- Type `calltipVisitor`. -/
structure calltipVisitor where
  offset : Int
  fset : FileSet
  x : Option CallExpr

/-- Method `calltipVisitor.Visit`, which always returns the visitor itself: the
result is the visitor after the visit. -/
def calltipVisitor.Visit (v : calltipVisitor) (node : AstNode) : calltipVisitor :=
  match node with
  | .call x =>
    let a := v.fset.Position x.Pos
    if a.IsValid && decide (v.offset ≥ a.Offset) then
      let b := v.fset.Position x.End
      if !b.IsValid || decide (v.offset ≤ b.Offset) then { v with x := some x } else v
    else v
  | _ => v

mutual
/-- Function `ast.Walk` for a visitor whose `Visit` returns the visitor itself:
the node is visited, then its children in order. -/
def Walk (v : calltipVisitor) : AstNode → calltipVisitor
  | .ident id => v.Visit (.ident id)
  | .selector X Sel =>
    let v := v.Visit (.selector X Sel)
    let v := Walk v X
    match Sel with
    | some id => v.Visit (.ident id)
    | none => v
  | .call x => WalkCall (v.Visit (.call x)) x
  | .other children => WalkList (v.Visit (.other children)) children
/-- The children of a call: the function, then the arguments. -/
def WalkCall (v : calltipVisitor) : CallExpr → calltipVisitor
  | .mk _ _ fn args => WalkList (Walk v fn) args
/-- Function `walkExprList` and its likes: the nodes of a list in order. -/
def WalkList (v : calltipVisitor) : List AstNode → calltipVisitor
  | [] => v
  | node :: rest => WalkList (Walk v node) rest
end

/-- Function `calltipsWalk`.  The file node itself is not a call, so the walk of
the file is the walk of the nodes below it. -/
def calltipsWalk (af : SourceFile) (fset : FileSet) (offset : Int) : Option Ident :=
  let vis : calltipVisitor := { offset := offset, fset := fset, x := none }
  let vis := WalkList vis af.Nodes
  match vis.x with
  | none => none
  | some x =>
    match x.Fun with
    | .ident v => some v
    | .selector _ Sel => Sel
    | _ => none

/-- Function `offsetLine`. -/
def offsetLine (fset : Option FileSet) (af : Option SourceFile) (offset : Int) : Run Int :=
  match fset, af with
  | some fset, some af =>
    if af.Pos == 0 then .ok 0
    else
      match fset.File af.Pos with
      | none => .ok 0
      | some f =>
        -- prevent f.Position from panicking
        if offset < f.Base || offset > f.Base + f.Size then .ok 0
        else do
          let p ← f.Position offset
          pure p.Line
  | _, _ => .ok 0

/-- Type `mGocode`; for `Env`, `none` is the nil map. -/
structure mGocode where
  Autoinst : Bool
  InstallSuffix : String
  Env : Option (List (String × String))
  Home : String
  Dir : String
  Builtins : Bool
  Fn : String
  Src : String
  Pos : Int
  calltip : Bool

/-- What the standard library does for `calltips`. -/
structure Frontend where
  /-- function `parser.ParseFile(fset, "<stdin>", src, 0)` on a new file set: the
  tree, or nil, and the file set afterwards -/
  ParseFile : String → String → Option SourceFile × FileSet
  /-- function `strings.EqualFold` -/
  EqualFold : String → String → Bool

/-- Method `mGocode.goPaths`. -/
def mGocode.goPaths (g : mGocode) : String × String :=
  match g.Env with
  | some env => ((env.lookup "GOROOT").getD "", (env.lookup "GOPATH").getD "")
  | none => ("", "")

/-- Method `mGocode.completions`. -/
def mGocode.completions (engine : Engine) (g : mGocode) (st : Globals) (src fn : String)
    (pos : Int) : Option (List MargoCandidate) × Globals :=
  let (root, path) := g.goPaths
  let c : MargoConfig :=
    { InstallSuffix := g.InstallSuffix, Builtins := g.Builtins, GOROOT := root, GOPATH := path }
  mgoDaemon.Complete engine st src fn pos c

/-- Function `emptyCandidate`: a slice that is empty and not nil. -/
def emptyCandidate : Option (List MargoCandidate) := some []

/-- The loop at the end of `calltips`: the slice `cl[i:i+1]` for the first
candidate whose name is the name of the identifier but for the case. -/
def calltipsLoop (front : Frontend) (id : Ident) :
    List MargoCandidate → Option (List MargoCandidate)
  | [] => emptyCandidate
  | c :: rest =>
    if front.EqualFold id.Name c.Name then some [c] else calltipsLoop front id rest

/-- Method `mGocode.calltips`. -/
def mGocode.calltips (front : Frontend) (engine : Engine) (g : mGocode) (st : Globals)
    (src filename : String) (offset : Int) : Run (Option (List MargoCandidate) × Globals) :=
  let (af, fset) := front.ParseFile "<stdin>" src
  match af with
  | none => .ok (emptyCandidate, st)
  | some af =>
    match calltipsWalk af fset offset with
    | none => .ok (emptyCandidate, st)
    | some id =>
      let end_ := fset.Position id.End
      if !end_.IsValid then .ok (emptyCandidate, st)
      else do
        let line ← offsetLine (some fset) (some af) offset
        if end_.Line != line && line != 0 then .ok (emptyCandidate, st)
        else
          let (cl, st) := g.completions engine st src filename end_.Offset
          if (cl.getD []).length == 0 then .ok (emptyCandidate, st)
          else .ok (calltipsLoop front id (cl.getD []), st)

/-- The call holds the offset, as `Visit` tests it: its start is a valid position
at or before the offset, and its end is not valid or at or after the offset. -/
def Encloses (fset : FileSet) (offset : Int) (x : CallExpr) : Prop :=
  (fset.Position x.Pos).IsValid = true ∧ offset ≥ (fset.Position x.Pos).Offset ∧
    ((fset.Position x.End).IsValid = false ∨ offset ≤ (fset.Position x.End).Offset)

/-- The call that a visitor holds, if any, holds the offset of the visitor. -/
def calltipVisitor.Good (v : calltipVisitor) : Prop :=
  ∀ x, v.x = some x → Encloses v.fset v.offset x

/-- The test of `Visit` for a call, as one condition: the start of the call is a
valid position at or before the offset, and its end is not valid or at or after
the offset. -/
def holdsOffset (fset : FileSet) (offset : Int) (x : CallExpr) : Bool :=
  ((fset.Position x.Pos).IsValid && decide (offset ≥ (fset.Position x.Pos).Offset)) &&
    (!(fset.Position x.End).IsValid || decide (offset ≤ (fset.Position x.End).Offset))

mutual
/-- The calls of a tree in the order in which `ast.Walk` visits them: a call
before the calls inside its function and its arguments. -/
def callsOf : AstNode → List CallExpr
  | .ident _ => []
  | .selector X _ => callsOf X
  | .call x => x :: callsOfCall x
  | .other children => callsOfList children
/-- The calls inside a call. -/
def callsOfCall : CallExpr → List CallExpr
  | .mk _ _ fn args => callsOf fn ++ callsOfList args
/-- The calls of a list of trees. -/
def callsOfList : List AstNode → List CallExpr
  | [] => []
  | node :: rest => callsOf node ++ callsOfList rest
end

/-- The enclosing call of the claim, in the words of the claim: among the calls
that hold the offset, the one visited last, which is the innermost where calls
are nested. -/
def enclosingCall (fset : FileSet) (offset : Int) (nodes : List AstNode) : Option CallExpr :=
  (callsOfList nodes).reverse.find? (holdsOffset fset offset)

/-- The function identifier of a call: the function itself when it is an
identifier, the selected name when it is a selector expression. -/
def CallExpr.funIdent (x : CallExpr) : Option Ident :=
  match x.Fun with
  | .ident v => some v
  | .selector _ Sel => Sel
  | _ => none

/-- The text of the examples: a file of package `p` with the function `f`, whose
body is the call `fmt.println(1)`, on one line. -/
def exampleSource : String := "package p; func f() \x7b fmt.println(1) \x7d"

/-- The tree of the example text.  Below the file node stand the package name at
position 9 and the declaration of `f`, with its name at 17, its type, and its
body; the body holds the call from position 23 to position 37, whose function
selects `println`, at position 27, from `fmt`, at position 23. -/
def exampleSourceFile : SourceFile :=
  { Package := 1,
    Nodes := [.ident { NamePos := 9, Name := "p" },
              .other [.ident { NamePos := 17, Name := "f" },
                      .other [.other []],
                      .other [.other [.call (.mk 23 37
                        (.selector (.ident { NamePos := 23, Name := "fmt" })
                          (some { NamePos := 27, Name := "println" }))
                        [.other []])]]]] }

/-- A front end for the examples.  It knows the example text, which it parses
into its tree and a file of base 1, 38 bytes and one line; any other text it
answers like a text whose package clause does not parse, with a file without
nodes.  Names are compared in lower case, which is `strings.EqualFold` on the
names of the examples. -/
def exampleFrontend : Frontend :=
  { ParseFile := fun _ src =>
      if src == exampleSource then
        (some exampleSourceFile, [{ Base := 1, Size := 38, Line := fun _ => 1 }])
      else
        (some { Package := 0, Nodes := [] },
         [{ Base := 1, Size := src.utf8ByteSize, Line := fun _ => 1 }]),
    EqualFold := fun a b => a.data.map Char.toLower == b.data.map Char.toLower }

/-- A request for call tips at offset 34 of the example text, between the
parentheses of the call, with the paths of the default context and with
builtins. -/
def exampleGocode : mGocode :=
  { Autoinst := false, InstallSuffix := "",
    Env := some [("GOROOT", "/go"), ("GOPATH", "/home")],
    Home := "/home", Dir := "/home", Builtins := true, Fn := "a.go",
    Src := exampleSource, Pos := 34, calltip := true }

/-- The packages of a tree in which `x` has an external test file and `x_test` is
the path of another package. -/
def testLocate (name : String) : Option BuildPackage :=
  if name == "x" then
    some { Dir := "/src/x", Name := "x", ImportPath := "x", GoFiles := ["x.go"],
           CgoFiles := [], TestGoFiles := [], XTestGoFiles := ["x_test.go"] }
  else if name == "x_test" then some (oneFilePackage "x_test")
  else none

/-- The files of that tree: the external test file of `x` imports `x`, the other
files import nothing. -/
def testParse (filename : String) : Option AstFile :=
  if filename == "/src/x/x.go" then some (fileImporting [])
  else if filename == "/src/x/x_test.go" then some (fileImporting ["x"])
  else if filename == "/src/x_test/x_test.go" then some (fileImporting [])
  else none

/-- The tree of `x` and `x_test`.  The checker makes a new package at every
check; here the address of the package tells the checks apart by the number of
imports of the files checked. -/
def testTree : World :=
  { exampleWorld testLocate testParse emptyChecked with
    Check := fun path files =>
      some { pkg := { addr := 1 + path.length + 10 * (importPaths exampleTree files).length,
                      path := path, name := path, complete := true },
             err := none, defs := [], uses := [], selections := [] } }

/-! # Theorems -/

/-! ## Sequencing of outcomes -/

@[simp] theorem Run.pure_eq {α : Type} (a : α) : (pure a : Run α) = Run.ok a := rfl

@[simp] theorem Run.bind_eq {α β : Type} (x : Run α) (f : α → Run β) :
    (x >>= f) = x.bind f := rfl

@[simp] theorem Run.ok_bind {α β : Type} (a : α) (f : α → Run β) :
    (Run.ok a).bind f = f a := rfl

@[simp] theorem Run.panic_bind {α β : Type} (m : String) (f : α → Run β) :
    (Run.panic m : Run α).bind f = Run.panic m := rfl

@[simp] theorem Run.fatal_bind {α β : Type} (m : String) (f : α → Run β) :
    (Run.fatal m : Run α).bind f = Run.fatal m := rfl

@[simp] theorem Run.outOfFuel_bind {α β : Type} (f : α → Run β) :
    (Run.outOfFuel : Run α).bind f = Run.outOfFuel := rfl

theorem Run.bind_eq_ok {α β : Type} {x : Run α} {f : α → Run β} {b : β} :
    x.bind f = Run.ok b ↔ ∃ a, x = Run.ok a ∧ f a = Run.ok b := by
  cases x <;> simp [Run.bind]

/-! ## Canned signatures of the builtins -/

/-- C10: `builtinInfo` depends on the identifier alone.  The table has 16 distinct
identifiers; for each of them the result is `builtin ` followed by its fixed
signature (so for `len` and `append` the two texts below), and for every other
identifier it is `builtin ` followed by the identifier. -/
theorem builtinInfo_canned :
    builtinInfoMap.length = 16 ∧ (builtinInfoMap.map Prod.fst).Nodup ∧
    (∀ id sig, (id, sig) ∈ builtinInfoMap → builtinInfo id = "builtin " ++ sig) ∧
    (∀ id, id ∉ builtinInfoMap.map Prod.fst → builtinInfo id = "builtin " ++ id) ∧
    builtinInfo "len" = "builtin func len(v Type) int" ∧
    builtinInfo "append" = "builtin func append(slice []Type, elems ...Type) []Type" := by
  refine ⟨by decide, by decide, ?_, ?_, by decide, by decide⟩
  · intro id sig h
    simp only [builtinInfoMap, List.mem_cons, Prod.mk.injEq, List.mem_singleton,
      List.not_mem_nil, or_false] at h
    rcases h with h | h | h | h | h | h | h | h | h | h | h | h | h | h | h | h <;>
      (obtain ⟨rfl, rfl⟩ := h; rfl)
  · intro id h
    have hnone : builtinInfoMap.lookup id = none := by
      rw [List.lookup_eq_none_iff]
      intro p hp
      simp only [bne_iff_ne, ne_eq]
      intro heq
      exact h (List.mem_map.mpr ⟨p, hp, heq.symm⟩)
    simp [builtinInfo, hnone]

/-! ## Kinds -/

/-- C5: `parserObjKind` classifies every object of a known shape without error.
A `Var` is `Field` exactly when it is a struct field and `Var` otherwise; a `Func`
is `Method` exactly when its type is a signature with a receiver and `Func`
otherwise; a `TypeName` is `Interface` exactly when its underlying type is an
interface, `Struct` exactly when it is a struct, and `TypeName` otherwise; package
names, constants, labels, builtins and nil get the kinds named after them. -/
theorem parserObjKind_known_shapes :
    (∀ v : Var, parserObjKind (.var v) = (if v.IsField then ObjField else ObjVar, none)) ∧
    (∀ f : Func, (parserObjKind (.func f)).2 = none ∧
      ((parserObjKind (.func f)).1 = ObjMethod ↔ ∃ r, f.Type = .signature (some r)) ∧
      ((parserObjKind (.func f)).1 = ObjFunc ↔ ¬ ∃ r, f.Type = .signature (some r))) ∧
    (∀ (h : ObjHead) (t : Typ), (parserObjKind (.typeName h t)).2 = none ∧
      ((parserObjKind (.typeName h t)).1 = ObjInterface ↔
        ∃ ms es, t.Underlying = .interface ms es) ∧
      ((parserObjKind (.typeName h t)).1 = ObjStruct ↔ ∃ fs, t.Underlying = .struct fs) ∧
      ((parserObjKind (.typeName h t)).1 = ObjTypeName ↔
        (¬ ∃ ms es, t.Underlying = .interface ms es) ∧ ¬ ∃ fs, t.Underlying = .struct fs)) ∧
    (∀ h, parserObjKind (.pkgName h) = (ObjPkgName, none)) ∧
    (∀ h t, parserObjKind (.const h t) = (ObjConst, none)) ∧
    (∀ h, parserObjKind (.label h) = (ObjLabel, none)) ∧
    (∀ h, parserObjKind (.builtin h) = (ObjBuiltin, none)) ∧
    (∀ h, parserObjKind (.nil h) = (ObjNil, none)) ∧
    [ObjPkgName, ObjTypeName, ObjInterface, ObjStruct, ObjConst, ObjVar, ObjField, ObjFunc,
      ObjMethod, ObjLabel, ObjBuiltin, ObjNil].map ObjKind.String =
      ["package", "type", "interface", "struct", "const", "var", "field", "func", "method",
        "label", "builtin", "nil"] := by
  refine ⟨?_, ?_, ?_, fun _ => rfl, fun _ _ => rfl, fun _ => rfl, fun _ => rfl, fun _ => rfl,
    by decide⟩
  · intro v
    simp only [parserObjKind]
    split <;> rfl
  · intro f
    have hne1 : (ObjFunc : Int) ≠ ObjMethod := by decide
    have hne2 : (ObjMethod : Int) ≠ ObjFunc := by decide
    cases hf : f.Type with
    | signature recv =>
      cases recv with
      | none => simp [parserObjKind, hf, hne1]
      | some r => simp [parserObjKind, hf, hne2]
    | _ => simp [parserObjKind, hf, hne1]
  · intro h t
    have d1 : (ObjInterface : Int) ≠ ObjStruct := by decide
    have d2 : (ObjInterface : Int) ≠ ObjTypeName := by decide
    have d3 : (ObjStruct : Int) ≠ ObjInterface := by decide
    have d4 : (ObjStruct : Int) ≠ ObjTypeName := by decide
    have d5 : (ObjTypeName : Int) ≠ ObjInterface := by decide
    have d6 : (ObjTypeName : Int) ≠ ObjStruct := by decide
    cases hu : t.Underlying <;> simp [parserObjKind, hu, d1, d2, d3, d4, d5, d6]

/-! ## The struct that owns a field -/

theorem structHasFieldAt_iff (cursorPos : TokenPos) (S : Object) :
    structHasFieldAt cursorPos S = true ↔
      ∃ h t fields f, S = .typeName h t ∧ t.Underlying = .struct fields ∧ f ∈ fields ∧
        f.Pos = cursorPos := by
  cases S with
  | typeName h t =>
    cases hu : t.Underlying with
    | struct fields =>
      constructor
      · intro hs
        simp only [structHasFieldAt, hu, List.any_eq_true, beq_iff_eq] at hs
        obtain ⟨f, hf, hp⟩ := hs
        exact ⟨h, t, fields, f, rfl, hu, hf, hp⟩
      · rintro ⟨h', t', fields', f, heq, hu', hf, hp⟩
        cases heq
        rw [hu] at hu'
        cases hu'
        simp only [structHasFieldAt, hu, List.any_eq_true, beq_iff_eq]
        exact ⟨f, hf, hp⟩
    | _ => simp [structHasFieldAt, hu]
  | _ => simp [structHasFieldAt]

theorem structOfField_eq_some {info : Info} {cursorPos : TokenPos} {S : Object}
    (h : structOfField info cursorPos = some S) :
    (∃ id, (id, some S) ∈ info.Defs) ∧ structHasFieldAt cursorPos S = true := by
  unfold structOfField at h
  cases hf : info.Defs.find? (fun e =>
      match e.2 with
      | some obj => structHasFieldAt cursorPos obj
      | none => false) with
  | none => simp [hf] at h
  | some e =>
    rw [hf] at h
    have hp := List.find?_some hf
    have hm := List.mem_of_find?_eq_some hf
    obtain ⟨id, o⟩ := e
    simp only [Option.some_bind] at h
    subst h
    exact ⟨⟨id, hm⟩, by simpa using hp⟩

theorem structOfField_eq_none {info : Info} {cursorPos : TokenPos} :
    structOfField info cursorPos = none ↔
      ∀ id S, (id, some S) ∈ info.Defs → structHasFieldAt cursorPos S = false := by
  unfold structOfField
  constructor
  · intro h id S hm
    cases hf : info.Defs.find? (fun e =>
        match e.2 with
        | some obj => structHasFieldAt cursorPos obj
        | none => false) with
    | none =>
      have := List.find?_eq_none.mp hf (id, some S) hm
      simpa using this
    | some e =>
      rw [hf] at h
      have hp := List.find?_some hf
      obtain ⟨id', o⟩ := e
      cases o with
      | none => simp at hp
      | some o => simp at h
  · intro h
    have : info.Defs.find? (fun e =>
        match e.2 with
        | some obj => structHasFieldAt cursorPos obj
        | none => false) = none := by
      rw [List.find?_eq_none]
      rintro ⟨id, o⟩ hm
      cases o with
      | none => simp
      | some o => simpa using h id o hm
    simp [this]

/-- C8: with a semantic table given, `LookupStructFromField` returns normally and
leaves the walker alone.  What it returns is a type name of the definition table
whose underlying struct has a field declared at exactly the given position; it
returns one whenever the table defines a struct with a field there, and that very
struct when no other type name of the table has a field at the position (the names
of the fields play no part); it returns nil when no struct of the table has a
field there. -/
theorem LookupStructFromField_owner (world : World) (fuel : Nat) (w : PkgWalker) (info : Info)
    (cursorPkg : Option Package) (cursorObj : Object) (cursorPos : TokenPos) :
    LookupStructFromField world fuel w (some info) cursorPkg cursorObj cursorPos =
      .ok (structOfField info cursorPos, w) ∧
    (∀ S, structOfField info cursorPos = some S →
      (∃ id, (id, some S) ∈ info.Defs) ∧
      ∃ h t fields f, S = .typeName h t ∧ t.Underlying = .struct fields ∧ f ∈ fields ∧
        f.Pos = cursorPos) ∧
    (∀ id h t fields f, (id, some (.typeName h t)) ∈ info.Defs → t.Underlying = .struct fields →
      f ∈ fields → f.Pos = cursorPos →
      (∃ S, structOfField info cursorPos = some S) ∧
      ((∀ id' h' t' fields' f', (id', some (.typeName h' t')) ∈ info.Defs →
          t'.Underlying = .struct fields' → f' ∈ fields' → f'.Pos = cursorPos →
          Object.typeName h' t' = .typeName h t) →
        structOfField info cursorPos = some (.typeName h t))) ∧
    ((¬ ∃ id h t fields f, (id, some (.typeName h t)) ∈ info.Defs ∧
        t.Underlying = .struct fields ∧ f ∈ fields ∧ f.Pos = cursorPos) →
      structOfField info cursorPos = none) := by
  refine ⟨rfl, ?_, ?_, ?_⟩
  · intro S h
    obtain ⟨hm, hs⟩ := structOfField_eq_some h
    exact ⟨hm, (structHasFieldAt_iff cursorPos S).mp hs⟩
  · intro id h t fields f hm hu hf hp
    have hex : ∃ S, structOfField info cursorPos = some S := by
      cases hr : structOfField info cursorPos with
      | some S => exact ⟨S, rfl⟩
      | none =>
        have := structOfField_eq_none.mp hr id _ hm
        have hs := (structHasFieldAt_iff cursorPos (.typeName h t)).mpr
          ⟨h, t, fields, f, rfl, hu, hf, hp⟩
        simp [hs] at this
    refine ⟨hex, ?_⟩
    intro huniq
    obtain ⟨S, hS⟩ := hex
    obtain ⟨⟨id', hm'⟩, hs'⟩ := structOfField_eq_some hS
    obtain ⟨h', t', fields', f', rfl, hu', hf', hp'⟩ := (structHasFieldAt_iff cursorPos S).mp hs'
    rw [hS, huniq id' h' t' fields' f' hm' hu' hf' hp']
  · intro hno
    rw [structOfField_eq_none]
    intro id S hm
    by_contra hc
    have hs : structHasFieldAt cursorPos S = true := by simpa using hc
    obtain ⟨h, t, fields, f, rfl, hu, hf, hp⟩ := (structHasFieldAt_iff cursorPos S).mp hs
    exact hno ⟨id, h, t, fields, f, hm, hu, hf, hp⟩

/-- C8, on the example: `S` and `T` both declare a field named `F`; the field at
position 17 belongs to `S`, the one at position 47 to `T`, and no struct has a
field at position 18. -/
theorem LookupStructFromField_owner_example :
    LookupStructFromField exampleTree 0 (NewPkgWalker true true true) (some twoStructs)
      (some examplePkg) (.var fieldOfS) 17 = .ok (some structS, NewPkgWalker true true true) ∧
    LookupStructFromField exampleTree 0 (NewPkgWalker true true true) (some twoStructs)
      (some examplePkg) (.var fieldOfT) 47 = .ok (some structT, NewPkgWalker true true true) ∧
    LookupStructFromField exampleTree 0 (NewPkgWalker true true true) (some twoStructs)
      (some examplePkg) (.var fieldOfS) 18 = .ok (none, NewPkgWalker true true true) :=
  ⟨(LookupStructFromField_owner exampleTree 0 (NewPkgWalker true true true) twoStructs
      (some examplePkg) (.var fieldOfS) 17).1,
   (LookupStructFromField_owner exampleTree 0 (NewPkgWalker true true true) twoStructs
      (some examplePkg) (.var fieldOfT) 47).1,
   (LookupStructFromField_owner exampleTree 0 (NewPkgWalker true true true) twoStructs
      (some examplePkg) (.var fieldOfS) 18).1⟩

/-! ## Methods of interfaces -/

theorem lookupEmbeddeds_eq_findSome (es : List Named) (name : String) :
    lookupEmbeddeds es name = es.findSome? (fun e => lookupNamedMethod e name) := by
  induction es with
  | nil => simp [lookupEmbeddeds]
  | cons e rest ih =>
    rw [lookupEmbeddeds, List.findSome?_cons]
    cases lookupNamedMethod e name <;> simp [ih]

theorem lookupFields_cons_embedded {field : Var} {typ : Named} (rest : List Var) (name : String)
    (h : embeddedOfField field = some typ) :
    lookupFields (field :: rest) name =
      match lookupNamedMethod typ name with
      | some r => some r
      | none => lookupFields rest name := by
  unfold embeddedOfField at h
  split at h
  · cases h; rw [lookupFields]
  · cases h

theorem lookupFields_cons_plain {field : Var} (rest : List Var) (name : String)
    (h : embeddedOfField field = none) :
    lookupFields (field :: rest) name = lookupFields rest name := by
  unfold embeddedOfField at h
  split at h
  · cases h
  · rename_i hne
    rw [lookupFields]
    intro head typ isField heq
    exact hne head typ isField heq

theorem lookupFields_eq_findSome (fs : List Var) (name : String) :
    lookupFields fs name =
      (fs.filterMap embeddedOfField).findSome? (fun e => lookupNamedMethod e name) := by
  induction fs with
  | nil => simp [lookupFields]
  | cons f rest ih =>
    cases hf : embeddedOfField f with
    | none => rw [lookupFields_cons_plain rest name hf, List.filterMap_cons_none hf, ih]
    | some typ =>
      rw [lookupFields_cons_embedded rest name hf, List.filterMap_cons_some hf,
        List.findSome?_cons]
      cases lookupNamedMethod typ name <;> simp [ih]

theorem lookupNamedMethod_eq (n : Named) (name : String) :
    lookupNamedMethod n name =
      match n.declared.find? (fun fn => fn.Name == name) with
      | some fn => some (fn, n)
      | none => n.embedded.findSome? (fun e => lookupNamedMethod e name) := by
  obtain ⟨obj, u, ms⟩ := n
  cases u with
  | interface methods embeddeds =>
    rw [lookupNamedMethod, lookupEmbeddeds_eq_findSome]; rfl
  | struct fields =>
    rw [lookupNamedMethod, lookupFields_eq_findSome]; rfl
  | _ => simp [lookupNamedMethod, Named.declared, Named.embedded]

theorem sizeOf_lt_of_mem_embedded {n e : Named} (h : e ∈ n.embedded) : sizeOf e < sizeOf n := by
  obtain ⟨obj, u, ms⟩ := n
  cases u with
  | interface methods embeddeds =>
    have := List.sizeOf_lt_of_mem (show e ∈ embeddeds from h)
    simp only [Named.mk.sizeOf_spec, Typ.interface.sizeOf_spec]
    omega
  | struct fields =>
    have h' : e ∈ fields.filterMap embeddedOfField := h
    obtain ⟨f, hf, hfe⟩ := List.mem_filterMap.mp h'
    have h1 := List.sizeOf_lt_of_mem hf
    have h2 : sizeOf e < sizeOf f := by
      unfold embeddedOfField at hfe
      split at hfe
      · cases hfe
        simp only [Var.mk.sizeOf_spec, Typ.named.sizeOf_spec]
        omega
      · cases hfe
    simp only [Named.mk.sizeOf_spec, Typ.struct.sizeOf_spec]
    omega
  | _ => simp [Named.embedded] at h

theorem Named.embedded_induction {P : Named → Prop}
    (step : ∀ n, (∀ e ∈ n.embedded, P e) → P n) (n : Named) : P n := by
  have key : ∀ k (n : Named), sizeOf n = k → P n := by
    intro k
    induction k using Nat.strong_induction_on with
    | _ k ih =>
      intro n hn
      exact step n (fun e he => ih (sizeOf e) (hn ▸ sizeOf_lt_of_mem_embedded he) e rfl)
  exact key _ n rfl

theorem lookupNamedMethod_sound (name : String) (n : Named) :
    ∀ fn na, lookupNamedMethod n name = some (fn, na) →
      fn.Name = name ∧ fn ∈ na.declared ∧ Embeds n na := by
  induction n using Named.embedded_induction with
  | step n ih =>
    intro fn na h
    rw [lookupNamedMethod_eq] at h
    cases hf : n.declared.find? (fun fn => fn.Name == name) with
    | some fn' =>
      rw [hf] at h
      simp only [Option.some.injEq, Prod.mk.injEq] at h
      obtain ⟨rfl, rfl⟩ := h
      exact ⟨by simpa using List.find?_some hf, List.mem_of_find?_eq_some hf, Embeds.refl _⟩
    | none =>
      rw [hf] at h
      obtain ⟨e, he, hl⟩ := List.exists_of_findSome?_eq_some h
      obtain ⟨h1, h2, h3⟩ := ih e he fn na hl
      exact ⟨h1, h2, Embeds.step he h3⟩

theorem lookupNamedMethod_complete (name : String) {n na : Named} (hr : Embeds n na) :
    lookupNamedMethod n name = none → ∀ fn ∈ na.declared, fn.Name ≠ name := by
  induction hr with
  | refl n =>
    intro h fn hfn
    rw [lookupNamedMethod_eq] at h
    cases hf : n.declared.find? (fun fn => fn.Name == name) with
    | some fn' => rw [hf] at h; cases h
    | none =>
      have := List.find?_eq_none.mp hf fn hfn
      simpa using this
  | step he _ ih =>
    intro h
    rw [lookupNamedMethod_eq] at h
    apply ih
    rename_i n e m _
    cases hf : n.declared.find? (fun fn => fn.Name == name) with
    | some fn' => rw [hf] at h; cases h
    | none =>
      rw [hf] at h
      exact List.findSome?_eq_none_iff.mp h e he

/-- C9: for every named interface type and method name, `lookupNamedMethod`
returns the method the interface declares directly under that name, paired with
the interface, if there is one; otherwise the first match of the embedded
interfaces, searched in declaration order and depth-first.  A result is always a
method of that name together with the named type that declares it, reached through
embedding; the result is `(nil, nil)` exactly when no type reached through
embedding declares a method of that name.  For `type I interface{ M() }` and
`type J interface{ I }`, looking up `M` on `J` returns `I`'s `M` paired with `I`. -/
theorem lookupNamedMethod_interface (obj : ObjHead) (methods : List Func)
    (embeddeds : List Named) (ms : List Func) (name : String) :
    (∀ fn, methods.find? (fun fn => fn.Name == name) = some fn →
      lookupNamedMethod (.mk obj (.interface methods embeddeds) ms) name =
        some (fn, .mk obj (.interface methods embeddeds) ms)) ∧
    ((∀ fn ∈ methods, fn.Name ≠ name) →
      lookupNamedMethod (.mk obj (.interface methods embeddeds) ms) name =
        embeddeds.findSome? (fun e => lookupNamedMethod e name)) ∧
    (∀ fn na, lookupNamedMethod (.mk obj (.interface methods embeddeds) ms) name = some (fn, na) →
      fn.Name = name ∧ fn ∈ na.declared ∧
        Embeds (.mk obj (.interface methods embeddeds) ms) na) ∧
    (lookupNamedMethod (.mk obj (.interface methods embeddeds) ms) name = none ↔
      ∀ na, Embeds (.mk obj (.interface methods embeddeds) ms) na →
        ∀ fn ∈ na.declared, fn.Name ≠ name) ∧
    lookupNamedMethod exampleJ "M" = some (exampleM, exampleI) := by
  refine ⟨?_, ?_, ?_, ?_, rfl⟩
  · intro fn h
    rw [lookupNamedMethod, h]
  · intro h
    have hnone : methods.find? (fun fn => fn.Name == name) = none := by
      rw [List.find?_eq_none]
      intro fn hfn
      simpa using h fn hfn
    rw [lookupNamedMethod, hnone, lookupEmbeddeds_eq_findSome]
  · exact lookupNamedMethod_sound name _
  · constructor
    · intro h na hr
      exact lookupNamedMethod_complete name hr h
    · intro h
      cases hl : lookupNamedMethod (.mk obj (.interface methods embeddeds) ms) name with
      | none => rfl
      | some r =>
        obtain ⟨fn, na⟩ := r
        obtain ⟨h1, h2, h3⟩ := lookupNamedMethod_sound name _ fn na hl
        exact absurd h1 (h na h3 fn h2)

/-! ## The symbol under the cursor -/

theorem find?_none_of_forall {α : Type} {p : α → Bool} {l : List α}
    (h : ∀ a ∈ l, p a = false) : l.find? p = none := by
  rw [List.find?_eq_none]
  intro a ha
  simp [h a ha]

theorem find?_some_of_exists {α : Type} {p : α → Bool} {l : List α}
    (h : ∃ a ∈ l, p a = true) : ∃ a, l.find? p = some a ∧ a ∈ l ∧ p a = true := by
  cases hf : l.find? p with
  | none =>
    obtain ⟨a, ha, hp⟩ := h
    have := List.find?_eq_none.mp hf a ha
    simp [hp] at this
  | some a => exact ⟨a, rfl, List.mem_of_find?_eq_some hf, List.find?_some hf⟩

/-- C4: `LookupObjects` picks the symbol in priority order.  If the selected
identifier of some member selection spans the position, the symbol is the object
of such a selection (the first one visited); otherwise, if a defining identifier
spans it, the object of such a definition; otherwise, if a referencing identifier
spans it, the object of such a reference; and if no identifier of the three tables
spans the position the result is the empty list. -/
theorem LookupObjects_priority (world : World) (fuel : Nat) (w : PkgWalker) (pkg : Package)
    (pkgInfo : Info) (cursor : FileCursor) :
    ((∃ s ∈ pkgInfo.Selections, s.1.Sel.spans cursor.pos = true) →
      ∃ s, pkgInfo.Selections.find? (fun e => e.1.Sel.spans cursor.pos) = some s ∧
        s ∈ pkgInfo.Selections ∧ s.1.Sel.spans cursor.pos = true ∧
        ∀ obj, s.2.obj = some obj → findCursorObj pkgInfo cursor.pos = (some obj, some s.2)) ∧
    ((∀ s ∈ pkgInfo.Selections, s.1.Sel.spans cursor.pos = false) →
      (∃ d ∈ pkgInfo.Defs, d.1.spans cursor.pos = true) →
      ∃ d, pkgInfo.Defs.find? (fun e => e.1.spans cursor.pos) = some d ∧
        d ∈ pkgInfo.Defs ∧ d.1.spans cursor.pos = true ∧
        ∀ obj, d.2 = some obj → findCursorObj pkgInfo cursor.pos = (some obj, none)) ∧
    ((∀ s ∈ pkgInfo.Selections, s.1.Sel.spans cursor.pos = false) →
      (∀ d ∈ pkgInfo.Defs, d.1.spans cursor.pos = false) →
      (∃ u ∈ pkgInfo.Uses, u.1.spans cursor.pos = true) →
      ∃ u, pkgInfo.Uses.find? (fun e => e.1.spans cursor.pos) = some u ∧
        u ∈ pkgInfo.Uses ∧ u.1.spans cursor.pos = true ∧
        ∀ obj, u.2 = some obj → findCursorObj pkgInfo cursor.pos = (some obj, none)) ∧
    ((∀ s ∈ pkgInfo.Selections, s.1.Sel.spans cursor.pos = false) →
      (∀ d ∈ pkgInfo.Defs, d.1.spans cursor.pos = false) →
      (∀ u ∈ pkgInfo.Uses, u.1.spans cursor.pos = false) →
      LookupObjects world fuel w pkg pkgInfo cursor = .ok ([], w)) := by
  refine ⟨?_, ?_, ?_, ?_⟩
  · intro h
    obtain ⟨s, hf, hm, hp⟩ := find?_some_of_exists h
    refine ⟨s, hf, hm, hp, ?_⟩
    intro obj ho
    simp [findCursorObj, hf, ho]
  · intro hs h
    have hsel := find?_none_of_forall hs
    obtain ⟨d, hf, hm, hp⟩ := find?_some_of_exists h
    refine ⟨d, hf, hm, hp, ?_⟩
    intro obj ho
    simp [findCursorObj, hsel, hf, ho]
  · intro hs hd h
    have hsel := find?_none_of_forall hs
    have hdef := find?_none_of_forall hd
    obtain ⟨u, hf, hm, hp⟩ := find?_some_of_exists h
    refine ⟨u, hf, hm, hp, ?_⟩
    intro obj ho
    simp [findCursorObj, hsel, hdef, hf, ho]
  · intro hs hd hu
    have hsel := find?_none_of_forall hs
    have hdef := find?_none_of_forall hd
    have huse := find?_none_of_forall hu
    simp [LookupObjects, findCursorObj, hsel, hdef, huse]

/-- C4, on the example tables: at position 82 a selection spans the cursor and its
object is taken; at 17 no selection does and the definition of `F` is taken; at 70
only the use of `S` spans the cursor; at 100 nothing does and the result is empty. -/
theorem LookupObjects_priority_example :
    (∃ s, twoStructs.Selections.find? (fun e => e.1.Sel.spans (cursorAt 82).pos) = some s ∧
      s ∈ twoStructs.Selections ∧ s.1.Sel.spans (cursorAt 82).pos = true ∧
      ∀ obj, s.2.obj = some obj →
        findCursorObj twoStructs (cursorAt 82).pos = (some obj, some s.2)) ∧
    (∃ d, twoStructs.Defs.find? (fun e => e.1.spans (cursorAt 17).pos) = some d ∧
      d ∈ twoStructs.Defs ∧ d.1.spans (cursorAt 17).pos = true ∧
      ∀ obj, d.2 = some obj → findCursorObj twoStructs (cursorAt 17).pos = (some obj, none)) ∧
    (∃ u, twoStructs.Uses.find? (fun e => e.1.spans (cursorAt 70).pos) = some u ∧
      u ∈ twoStructs.Uses ∧ u.1.spans (cursorAt 70).pos = true ∧
      ∀ obj, u.2 = some obj → findCursorObj twoStructs (cursorAt 70).pos = (some obj, none)) ∧
    LookupObjects exampleTree 0 (NewPkgWalker true true true) examplePkg twoStructs
      (cursorAt 100) = .ok ([], NewPkgWalker true true true) :=
  ⟨(LookupObjects_priority exampleTree 0 (NewPkgWalker true true true) examplePkg twoStructs
      (cursorAt 82)).1 (by decide),
   (LookupObjects_priority exampleTree 0 (NewPkgWalker true true true) examplePkg twoStructs
      (cursorAt 17)).2.1 (by decide) (by decide),
   (LookupObjects_priority exampleTree 0 (NewPkgWalker true true true) examplePkg twoStructs
      (cursorAt 70)).2.2.1 (by decide) (by decide) (by decide),
   (LookupObjects_priority exampleTree 0 (NewPkgWalker true true true) examplePkg twoStructs
      (cursorAt 100)).2.2.2 (by decide) (by decide) (by decide)⟩

/-! ## Classification errors -/

/-- C6, as the code has it: when `parserObjKind` cannot classify the object found
under the cursor it returns `ObjNone` with an error value, and `LookupObjects`
answers that error with `log.Fatalln`: the process exits and no result reaches the
caller. -/
theorem LookupObjects_unknown_kind_aborts (world : World) (fuel : Nat) (w : PkgWalker)
    (pkg : Package) (pkgInfo : Info) (cursor : FileCursor) (cursorObj : Object)
    (cursorSelection : Option Selection) (err : Err)
    (hfound : findCursorObj pkgInfo cursor.pos = (some cursorObj, cursorSelection))
    (herr : (parserObjKind cursorObj).2 = some err) :
    (parserObjKind cursorObj).1 = ObjNone ∧
    LookupObjects world fuel w pkg pkgInfo cursor = .fatal "unknown obj type" := by
  have hk : ∃ h, cursorObj = .other h := by
    cases cursorObj with
    | other h => exact ⟨h, rfl⟩
    | var v =>
      simp only [parserObjKind] at herr
      split at herr <;> simp at herr
    | func f =>
      simp only [parserObjKind] at herr
      split at herr <;> simp at herr
    | typeName h t =>
      simp only [parserObjKind] at herr
      split at herr <;> simp at herr
    | _ => simp [parserObjKind] at herr
  obtain ⟨h, rfl⟩ := hk
  exact ⟨rfl, by simp [LookupObjects, hfound, parserObjKind]⟩

/-- C6, on an example: the identifier under the cursor denotes an object that
cannot be classified. -/
theorem LookupObjects_unknown_kind_aborts_example :
    (parserObjKind (.other (exampleHead 40 "x" 30 "x"))).1 = ObjNone ∧
    LookupObjects exampleTree 0 (NewPkgWalker true true true) examplePkg unknownObjInfo
      (cursorAt 30) = .fatal "unknown obj type" :=
  LookupObjects_unknown_kind_aborts exampleTree 0 (NewPkgWalker true true true) examplePkg
    unknownObjInfo (cursorAt 30) (.other (exampleHead 40 "x" 30 "x")) none
    (.unknownObj "x") rfl rfl

/-- C6 fails as stated: for these tables the lookup ends the process instead of
returning a result. -/
theorem LookupObjects_unknown_kind_not_recoverable :
    (LookupObjects exampleTree 0 (NewPkgWalker true true true) examplePkg unknownObjInfo
      (cursorAt 30)).aborts = true ∧
    (LookupObjects exampleTree 0 (NewPkgWalker true true true) examplePkg unknownObjInfo
      (cursorAt 30)).returns = false :=
  ⟨rfl, rfl⟩

/-! ## Usages -/

/-- The guarantee of the type checker is needed: in a table that binds one
identifier to the symbol both as a definition and as a use, which the checker
never fills, the position is collected twice. -/
theorem usageRecords_shared_identifier :
    ObjFunc ≠ ObjPkgName ∧
    usageRecords exampleTree sharedIdentInfo ObjFunc exampleFoo =
      .ok [docAt exampleTree examplePkg exampleFoo ObjFunc 15,
           docAt exampleTree examplePkg exampleFoo ObjFunc 15] ∧
    sortInts (usagePositions sharedIdentInfo ObjFunc exampleFoo) = [15, 15] ∧
    ¬ (sortInts (usagePositions sharedIdentInfo ObjFunc exampleFoo)).Sorted
      (fun a b => a < b) :=
  ⟨by decide, rfl, by decide, by decide⟩

/-! ## Import declarations under the cursor -/

/-- When `CheckIsImport` finds an import declaration, `LookupCursor` hands the
cursor to `LookupImport` and does not look for a symbol. -/
theorem LookupCursor_import_target (world : World) (fuel : Nat) (w w1 : PkgWalker)
    (pkg : Package) (pkgInfo : Info) (cursor : FileCursor) (is : ImportSpec)
    (h : CheckIsImport world w cursor = .ok (some is, w1)) :
    LookupCursor world fuel w pkg pkgInfo cursor = LookupImport world w1 pkg pkgInfo cursor is := by
  simp [LookupCursor, h]

/-- For an import with a local alias the definition record comes first: kind
`package`, at the zero-based line and column of the declaration. -/
theorem LookupImport_with_alias (world : World) (w : PkgWalker) (pkg : Package)
    (pkgInfo : Info) (cursor : FileCursor) (is : ImportSpec) (n : Ident) (fpath : String)
    (hname : is.Name = some n) (hpath : world.Unquote is.Path.Value = some fpath)
    (hdef : w.findDef = true) :
    ∃ rest w1, LookupImport world w pkg pkgInfo cursor is =
      .ok ({ Pkg := pkg.name, Src := "", Name := n.Name, Kind := "package",
             Fn := (world.Position is.Pos).Filename, Row := (world.Position is.Pos).Line - 1,
             Col := (world.Position is.Pos).Column - 1 } :: rest, w1) := by
  simp only [LookupImport, hname, hpath, hdef, importDoc, if_true, Run.pure_eq, Run.bind_eq,
    Run.ok_bind]
  split_ifs <;> exact ⟨_, _, rfl⟩

/-- For an import without a local alias, a request for the definition makes
`LookupImport` read `is.Name.Name` through a nil pointer. -/
theorem LookupImport_without_alias (world : World) (w : PkgWalker) (pkg : Package)
    (pkgInfo : Info) (cursor : FileCursor) (is : ImportSpec) (fpath : String)
    (hname : is.Name = none) (hpath : world.Unquote is.Path.Value = some fpath)
    (hdef : w.findDef = true) :
    LookupImport world w pkg pkgInfo cursor is = .panic "nil dereference: is.Name.Name" := by
  simp [LookupImport, hname, hpath, hdef]

/-- C7 fails on the code: for `import "encoding/json"` with the cursor inside the
path and the definition requested, the request ends in a panic and no record is
returned. -/
theorem findCode_import_without_alias :
    findCode exampleTree 2 importRequest ["p"] = .panic "nil dereference: is.Name.Name" :=
  rfl

/-! ## What an import does to the table of imported packages -/

theorem parseFile_imported {world : World} {w w1 : PkgWalker} {dir file : String}
    {src : Option String} {r : Option AstFile × Option Err}
    (h : parseFile world w dir file src = .ok (r, w1)) : w1.imported = w.imported := by
  simp only [parseFile] at h
  split at h
  · simp only [Run.ok.injEq, Prod.mk.injEq] at h
    rw [← h.2]
  · simp only [Run.bind_eq, Run.bind_eq_ok] at h
    obtain ⟨a1, h1, a2, h2, h⟩ := h
    have e1 : a1.2.imported = w.imported := by
      split at h1
      · split at h1
        · cases h1
        · cases h1; rfl
      · cases h1; rfl
    have e2 : a2.2.imported = a1.2.imported := by
      split at h2
      · split at h2
        · cases h2
        · cases h2; rfl
      · cases h2; rfl
    split at h
    · cases h
      exact e2.trans e1
    · split at h <;> (cases h; exact e2.trans e1)

theorem parserFilesLoop_imported {world : World} {dir : String} :
    ∀ {filenames : List String} {cursor : Option FileCursor} {found : Bool} {w : PkgWalker}
      {r : List (Option AstFile) × Option FileCursor × Bool × PkgWalker},
      parserFilesLoop world dir filenames cursor found w = .ok r →
      r.2.2.2.imported = w.imported := by
  intro filenames
  induction filenames with
  | nil =>
    intro cursor found w r h
    simp only [parserFilesLoop, Run.ok.injEq] at h
    rw [← h]
  | cons file rest ih =>
    intro cursor found w r h
    simp only [parserFilesLoop] at h
    split at h
    · simp only [Run.bind_eq, Run.pure_eq, Run.bind_eq_ok] at h
      obtain ⟨a1, h1, h⟩ := h
      split at h
      · cases h
      · simp only [Run.bind_eq_ok, Run.ok.injEq] at h
        obtain ⟨base, _, a2, h2, h⟩ := h
        rw [← h]
        exact (ih h2).trans (parseFile_imported h1)
    · simp only [Run.bind_eq, Run.pure_eq, Run.bind_eq_ok, Run.ok.injEq] at h
      obtain ⟨a1, h1, a2, h2, h⟩ := h
      rw [← h]
      exact (ih h2).trans (parseFile_imported h1)

theorem parserFiles_imported {world : World} {w : PkgWalker} {dir : String}
    {filenames : List String} {cursor : Option FileCursor} {includeDefault : Bool}
    {r : List (Option AstFile) × Option FileCursor × PkgWalker}
    (h : parserFiles world w dir filenames cursor includeDefault = .ok r) :
    r.2.2.imported = w.imported := by
  simp only [parserFiles, Run.bind_eq, Run.pure_eq, Run.bind_eq_ok] at h
  obtain ⟨a1, h1, h⟩ := h
  have e1 := parserFilesLoop_imported h1
  split at h
  · split at h
    · simp only [Run.bind_eq_ok] at h
      obtain ⟨a2, h2, h⟩ := h
      have e2 := parseFile_imported h2
      split at h
      · cases h; exact e2.trans e1
      · split at h
        · cases h
        · simp only [Run.bind_eq_ok, Run.ok.injEq] at h
          obtain ⟨base, _, h⟩ := h
          rw [← h]; exact e2.trans e1
    · cases h; exact e1
  · cases h; exact e1

theorem importCallback_stable {R : PkgWalker → PkgWalker → Prop} (hR : ImportStable R)
    {world : World} {allowBinary : Bool} {imp : PkgWalker → String → Run ImportResult}
    (himp : ∀ w name r, imp w name = .ok r → R w r.2) :
    ∀ w name r, importCallback world allowBinary imp w name = .ok r → R w r.2 := by
  intro w name r h
  simp only [importCallback] at h
  split at h
  · split at h
    · cases h; exact hR.refl w
    · split at h
      · cases h; exact hR.congr rfl
      · have hrec := himp _ _ _ h
        refine hR.trans ?_ hrec
        exact hR.congr rfl
  · exact himp _ _ _ h

theorem resolveImports_stable {R : PkgWalker → PkgWalker → Prop} (hR : ImportStable R)
    {callback : PkgWalker → String → Run ImportResult}
    (hcb : ∀ w name r, callback w name = .ok r → R w r.2) :
    ∀ paths w w1, resolveImports callback paths w = .ok w1 → R w w1 := by
  intro paths
  induction paths with
  | nil =>
    intro w w1 h
    simp only [resolveImports, Run.ok.injEq] at h
    rw [← h]
    exact hR.refl w
  | cons path rest ih =>
    intro w w1 h
    simp only [resolveImports] at h
    split at h
    · exact ih _ _ h
    · simp only [Run.bind_eq, Run.bind_eq_ok] at h
      obtain ⟨a, ha, h⟩ := h
      exact hR.trans (hcb _ _ _ ha) (ih _ _ h)

theorem Check_stable {R : PkgWalker → PkgWalker → Prop} (hR : ImportStable R)
    {world : World} {callback : PkgWalker → String → Run ImportResult}
    (hcb : ∀ w name r, callback w name = .ok r → R w r.2)
    {path : String} {files : List (Option AstFile)} {info : Option Info} {w : PkgWalker}
    {r : (Package × Option Err) × Option Info × PkgWalker}
    (h : Check world callback path files info w = .ok r) :
    R w r.2.2 ∧ ∀ n, r.1.2 ≠ some (.cycle n) := by
  simp only [Check] at h
  split at h
  · cases h
  · simp only [Run.bind_eq, Run.pure_eq, Run.bind_eq_ok, Run.ok.injEq] at h
    obtain ⟨a, ha, h⟩ := h
    rw [← h]
    have hlog : R w (w.logged (.check path)) := hR.congr rfl
    refine ⟨hR.trans hlog (resolveImports_stable hR hcb _ _ _ ha), ?_⟩
    intro n
    rename_i c _
    cases c.err <;> simp

theorem Import_stable {R : PkgWalker → PkgWalker → Prop} (hR : ImportStable R) (world : World) :
    ∀ (fuel : Nat) (w : PkgWalker) (parentDir name : String) (conf : PkgConfig)
      (r : ImportResult × PkgConfig),
      Import world fuel w parentDir name conf = .ok r → R w r.1.2 := by
  intro fuel
  induction fuel with
  | zero =>
    intro w parentDir name conf r h
    simp [Import] at h
  | succ n ih =>
    intro w parentDir name conf r h
    simp only [Import] at h
    generalize (if (hasPrefix name "." && parentDir != "") = true then world.Join parentDir name
      else name) = name1 at h
    have hcb : ∀ (dir : String) (allowBinary : Bool) w name r,
        importCallback world allowBinary
          (fun w name => (Import world n w dir name nestedConfig).bind (fun r => .ok r.1))
          w name = .ok r → R w r.2 := by
      intro dir allowBinary
      apply importCallback_stable hR
      intro w name r hr
      simp only [Run.bind_eq_ok, Run.ok.injEq] at hr
      obtain ⟨a, ha, hr⟩ := hr
      rw [← hr]
      exact ih _ _ _ _ _ ha
    split at h
    · cases h; exact hR.refl w
    · cases h; exact hR.refl w
    · split at h
      · cases h; exact hR.congr rfl
      · simp only [Run.bind_eq, Run.pure_eq, Run.bind_eq_ok] at h
        obtain ⟨a1, h1, a2, h2, a3, h3, h⟩ := h
        have e1 := parserFiles_imported h1
        have e2 := parserFiles_imported h2
        have e3 := (Check_stable hR (hcb _ _) h3).1
        have e12 : R w a2.2.2 := hR.congr (e2.trans e1)
        split at h
        · simp only [Run.bind_eq_ok, Run.ok.injEq] at h
          obtain ⟨a4, h4, h⟩ := h
          have e4 := (Check_stable hR (hcb _ _) h4).1
          rw [← h]
          exact hR.trans (hR.trans (hR.trans (hR.trans e12 e3) (hR.set _ _ _)) e4) (hR.set _ _ _)
        · simp only [Run.ok.injEq] at h
          rw [← h]
          exact hR.trans (hR.trans e12 e3) (hR.set _ _ _)

theorem nestedImport_stable {R : PkgWalker → PkgWalker → Prop} (hR : ImportStable R)
    (world : World) (fuel : Nat) (dir : String) (allowBinary : Bool) :
    ∀ w name r,
      importCallback world allowBinary
        (fun w name => (Import world fuel w dir name nestedConfig).bind (fun r => .ok r.1))
        w name = .ok r → R w r.2 := by
  apply importCallback_stable hR
  intro w name r hr
  simp only [Run.bind_eq_ok, Run.ok.injEq] at hr
  obtain ⟨a, ha, hr⟩ := hr
  rw [← hr]
  exact Import_stable hR world _ _ _ _ _ _ ha

theorem importedAt_congr {w w1 : PkgWalker} (h : w1.imported = w.imported) (name : String) :
    w1.importedAt name = w.importedAt name := by
  simp [PkgWalker.importedAt, h]

theorem importedAt_setImported (w : PkgWalker) (k name : String) (v : Option Imported) :
    (w.setImported k v).importedAt name = if name == k then v else w.importedAt name := by
  simp only [PkgWalker.importedAt, PkgWalker.setImported, List.lookup_cons]
  split <;> simp_all

theorem KeepsPackages_stable : ImportStable KeepsPackages where
  refl := fun _ _ h => h
  trans := fun h1 h2 k h => h2 k (h1 k h)
  congr := fun h k hk => by rw [importedAt_congr h]; exact hk
  set := fun w k p name h => by
    rw [importedAt_setImported]
    split
    · exact ⟨p, rfl⟩
    · exact h

theorem StaysUnmarked_stable : ImportStable StaysUnmarked where
  refl := fun _ h => h
  trans := fun h1 h2 h => h2 (h1 h)
  congr := fun h hw k => by rw [importedAt_congr h]; exact hw k
  set := fun w k p hw name => by
    rw [importedAt_setImported]
    split
    · simp
    · exact hw name

theorem Import_hit (world : World) (fuel : Nat) (w : PkgWalker) (parentDir name : String)
    (conf : PkgConfig) (q : Package)
    (h : w.importedAt (if hasPrefix name "." && parentDir != "" then world.Join parentDir name
      else name) = some (.pkg q)) :
    Import world (fuel + 1) w parentDir name conf = .ok (((some q, none), w), conf) := by
  simp only [Import, h]

/-- What a returning `Import` leaves behind: no marker of an import in progress if
there was none, a package under the path if it returned one, and never the cycle
error if no marker was there. -/
theorem Import_result (world : World) (fuel : Nat) (w : PkgWalker) (parentDir name : String)
    (conf : PkgConfig) (r : ImportResult × PkgConfig)
    (h : Import world fuel w parentDir name conf = .ok r) :
    (r.1.1.1.isSome = true →
      ∃ q, r.1.2.importedAt (if hasPrefix name "." && parentDir != "" then
        world.Join parentDir name else name) = some (.pkg q)) ∧
    ((∀ k, w.importedAt k ≠ some .importing) → ∀ n, r.1.1.2 ≠ some (.cycle n)) := by
  cases fuel with
  | zero => simp [Import] at h
  | succ n =>
    simp only [Import] at h
    generalize (if (hasPrefix name "." && parentDir != "") = true then world.Join parentDir name
      else name) = name1 at h ⊢
    split at h
    · rename_i himp
      cases h
      exact ⟨fun hp => by simp at hp, fun hw => absurd himp (hw name1)⟩
    · rename_i p himp
      cases h
      exact ⟨fun _ => ⟨p, himp⟩, fun _ n => by simp⟩
    · split at h
      · cases h
        exact ⟨fun hp => by simp at hp, fun _ n => by simp⟩
      · simp only [Run.bind_eq, Run.pure_eq, Run.bind_eq_ok] at h
        obtain ⟨a1, h1, a2, h2, a3, h3, h⟩ := h
        have e3 := (Check_stable KeepsPackages_stable
          (nestedImport_stable KeepsPackages_stable world n _ _) h3).2
        split at h
        · simp only [Run.bind_eq_ok, Run.ok.injEq] at h
          obtain ⟨a4, h4, h⟩ := h
          have e4 := (Check_stable KeepsPackages_stable
            (nestedImport_stable KeepsPackages_stable world n _ _) h4).1
          rw [← h]
          refine ⟨fun _ => ?_, fun _ => e3⟩
          have hk := e4 name1 ⟨a3.1.1, by rw [importedAt_setImported]; simp⟩
          exact KeepsPackages_stable.set _ _ _ name1 hk
        · simp only [Run.ok.injEq] at h
          rw [← h]
          refine ⟨fun _ => ⟨a3.1.1, ?_⟩, fun _ => e3⟩
          show (a3.2.2.setImported name1 (some (Imported.pkg a3.1.1))).importedAt name1 = _
          rw [importedAt_setImported]
          simp


theorem Remembers.same (k : String) (p : Package) (w : PkgWalker) : Remembers k p w w :=
  fun h => ⟨h, rfl⟩

theorem Remembers.chain {k : String} {p : Package} {a b c : PkgWalker}
    (h1 : Remembers k p a b) (h2 : Remembers k p b c) : Remembers k p a c := by
  intro h
  obtain ⟨e1, e2⟩ := h1 h
  obtain ⟨e3, e4⟩ := h2 e1
  exact ⟨e3, e4.trans e2⟩

theorem Remembers.of_eq {k : String} {p : Package} {w w1 : PkgWalker}
    (hi : w1.imported = w.imported) (ht : w1.locates k = w.locates k) : Remembers k p w w1 := by
  intro h
  exact ⟨by rw [importedAt_congr hi]; exact h, ht⟩

theorem locates_logged (w : PkgWalker) (e : Event) (k : String) (he : e ≠ .locate k) :
    (w.logged e).locates k = w.locates k := by
  simp [PkgWalker.locates, PkgWalker.logged, List.count_append, List.count_singleton, he]

theorem Remembers.set {k : String} {p : Package} (w : PkgWalker) (name : String)
    (v : Option Imported) (hne : name ≠ k) : Remembers k p w (w.setImported name v) := by
  intro h
  refine ⟨?_, rfl⟩
  rw [importedAt_setImported]
  have : (k == name) = false := by simpa using fun h : k = name => hne h.symm
  simp [this, h]

theorem parseFile_locates {world : World} {w w1 : PkgWalker} {dir file : String}
    {src : Option String} {r : Option AstFile × Option Err}
    (h : parseFile world w dir file src = .ok (r, w1)) (k : String) :
    w1.locates k = w.locates k := by
  simp only [parseFile] at h
  split at h
  · simp only [Run.ok.injEq, Prod.mk.injEq] at h
    rw [← h.2]
  · simp only [Run.bind_eq, Run.bind_eq_ok] at h
    obtain ⟨a1, h1, a2, h2, h⟩ := h
    have e1 : a1.2.locates k = w.locates k := by
      split at h1
      · split at h1
        · cases h1
        · cases h1; exact locates_logged _ _ _ (by simp)
      · cases h1; rfl
    have e2 : a2.2.locates k = a1.2.locates k := by
      split at h2
      · split at h2
        · cases h2
        · cases h2; exact locates_logged _ _ _ (by simp)
      · cases h2; rfl
    split at h
    · cases h
      exact e2.trans e1
    · split at h
      · cases h
        exact (locates_logged _ _ _ (by simp)).trans (e2.trans e1)
      · cases h
        exact (locates_logged a2.2 _ _ (by simp)).trans (e2.trans e1)

theorem parseFile_remembers {world : World} {w w1 : PkgWalker} {dir file : String}
    {src : Option String} {r : Option AstFile × Option Err} (k : String) (p : Package)
    (h : parseFile world w dir file src = .ok (r, w1)) : Remembers k p w w1 :=
  Remembers.of_eq (parseFile_imported h) (parseFile_locates h k)

theorem parserFilesLoop_remembers {world : World} {dir : String} (k : String) (p : Package) :
    ∀ {filenames : List String} {cursor : Option FileCursor} {found : Bool} {w : PkgWalker}
      {r : List (Option AstFile) × Option FileCursor × Bool × PkgWalker},
      parserFilesLoop world dir filenames cursor found w = .ok r →
      Remembers k p w r.2.2.2 := by
  intro filenames
  induction filenames with
  | nil =>
    intro cursor found w r h
    simp only [parserFilesLoop, Run.ok.injEq] at h
    rw [← h]
    exact Remembers.same k p w
  | cons file rest ih =>
    intro cursor found w r h
    simp only [parserFilesLoop] at h
    split at h
    · simp only [Run.bind_eq, Run.pure_eq, Run.bind_eq_ok] at h
      obtain ⟨a1, h1, h⟩ := h
      split at h
      · cases h
      · simp only [Run.bind_eq_ok, Run.ok.injEq] at h
        obtain ⟨base, _, a2, h2, h⟩ := h
        have e2 : Remembers k p a1.2 a2.2.2.2 := ih h2
        rw [← h]
        exact (parseFile_remembers k p h1).chain e2
    · simp only [Run.bind_eq, Run.pure_eq, Run.bind_eq_ok, Run.ok.injEq] at h
      obtain ⟨a1, h1, a2, h2, h⟩ := h
      have e2 : Remembers k p a1.2 a2.2.2.2 := ih h2
      rw [← h]
      exact (parseFile_remembers k p h1).chain e2

theorem parserFiles_remembers {world : World} {w : PkgWalker} {dir : String}
    {filenames : List String} {cursor : Option FileCursor} {includeDefault : Bool}
    {r : List (Option AstFile) × Option FileCursor × PkgWalker} (k : String) (p : Package)
    (h : parserFiles world w dir filenames cursor includeDefault = .ok r) :
    Remembers k p w r.2.2 := by
  simp only [parserFiles, Run.bind_eq, Run.pure_eq, Run.bind_eq_ok] at h
  obtain ⟨a1, h1, h⟩ := h
  have e1 := parserFilesLoop_remembers k p h1
  split at h
  · split at h
    · simp only [Run.bind_eq_ok] at h
      obtain ⟨a2, h2, h⟩ := h
      have e2 := parseFile_remembers k p h2
      split at h
      · cases h; exact e1.chain e2
      · split at h
        · cases h
        · simp only [Run.bind_eq_ok, Run.ok.injEq] at h
          obtain ⟨base, _, h⟩ := h
          rw [← h]; exact e1.chain e2
    · cases h; exact e1
  · cases h; exact e1

theorem importCallback_remembers {world : World} {allowBinary : Bool} {k : String} {p : Package}
    {imp : PkgWalker → String → Run ImportResult}
    (himp : ∀ w name r, imp w name = .ok r → Remembers k p w r.2) :
    ∀ w name r, importCallback world allowBinary imp w name = .ok r → Remembers k p w r.2 := by
  intro w name r h
  simp only [importCallback] at h
  split at h
  · split at h
    · cases h; exact Remembers.same k p w
    · split at h
      · cases h; exact Remembers.of_eq rfl rfl
      · have hrec := himp _ _ _ h
        refine Remembers.chain ?_ hrec
        exact Remembers.of_eq rfl rfl
  · exact himp _ _ _ h

theorem resolveImports_remembers {k : String} {p : Package}
    {callback : PkgWalker → String → Run ImportResult}
    (hcb : ∀ w name r, callback w name = .ok r → Remembers k p w r.2) :
    ∀ paths w w1, resolveImports callback paths w = .ok w1 → Remembers k p w w1 := by
  intro paths
  induction paths with
  | nil =>
    intro w w1 h
    simp only [resolveImports, Run.ok.injEq] at h
    rw [← h]
    exact Remembers.same k p w
  | cons path rest ih =>
    intro w w1 h
    simp only [resolveImports] at h
    split at h
    · exact ih _ _ h
    · simp only [Run.bind_eq, Run.bind_eq_ok] at h
      obtain ⟨a, ha, h⟩ := h
      exact Remembers.chain (hcb _ _ _ ha) (ih _ _ h)

theorem Check_remembers {world : World} {k : String} {p : Package}
    {callback : PkgWalker → String → Run ImportResult}
    (hcb : ∀ w name r, callback w name = .ok r → Remembers k p w r.2)
    {path : String} {files : List (Option AstFile)} {info : Option Info} {w : PkgWalker}
    {r : (Package × Option Err) × Option Info × PkgWalker}
    (h : Check world callback path files info w = .ok r) :
    Remembers k p w r.2.2 := by
  simp only [Check] at h
  split at h
  · cases h
  · simp only [Run.bind_eq, Run.pure_eq, Run.bind_eq_ok, Run.ok.injEq] at h
    obtain ⟨a, ha, h⟩ := h
    rw [← h]
    have hlog : Remembers k p w (w.logged (.check path)) :=
      Remembers.of_eq rfl (locates_logged _ _ _ (by simp))
    exact hlog.chain (resolveImports_remembers hcb _ _ _ ha)

/-- An import that returns keeps the package stored under a path that is not the
name of an external test package, and does not locate that path again. -/
theorem Import_remembers (world : World) (k : String) (p : Package) (hk : NotTestKey k) :
    ∀ (fuel : Nat) (w : PkgWalker) (parentDir name : String) (conf : PkgConfig)
      (r : ImportResult × PkgConfig),
      Import world fuel w parentDir name conf = .ok r → Remembers k p w r.1.2 := by
  intro fuel
  induction fuel with
  | zero =>
    intro w parentDir name conf r h
    simp [Import] at h
  | succ n ih =>
    intro w parentDir name conf r h
    simp only [Import] at h
    generalize (if (hasPrefix name "." && parentDir != "") = true then world.Join parentDir name
      else name) = name1 at h
    have hcb : ∀ (dir : String) (allowBinary : Bool) w name r,
        importCallback world allowBinary
          (fun w name => (Import world n w dir name nestedConfig).bind (fun r => .ok r.1))
          w name = .ok r → Remembers k p w r.2 := by
      intro dir allowBinary
      apply importCallback_remembers
      intro w name r hr
      simp only [Run.bind_eq_ok, Run.ok.injEq] at hr
      obtain ⟨a, ha, hr⟩ := hr
      rw [← hr]
      exact ih _ _ _ _ _ ha
    split at h
    · cases h; exact Remembers.same k p w
    · cases h; exact Remembers.same k p w
    · rename_i hmiss
      intro hw
      have hne : name1 ≠ k := by
        intro heq
        rw [heq, hw] at hmiss
        cases hmiss
      have hloc : Remembers k p w (w.logged (.locate name1)) :=
        Remembers.of_eq rfl (locates_logged _ _ _ (by simpa using hne))
      revert hw
      show Remembers k p w r.1.2
      split at h
      · cases h; exact hloc
      · simp only [Run.bind_eq, Run.pure_eq, Run.bind_eq_ok] at h
        obtain ⟨a1, h1, a2, h2, a3, h3, h⟩ := h
        have e1 := parserFiles_remembers k p h1
        have e2 := parserFiles_remembers k p h2
        have e3 := Check_remembers (hcb _ _) h3
        have e12 : Remembers k p w a2.2.2 := hloc.chain (e1.chain e2)
        split at h
        · simp only [Run.bind_eq_ok, Run.ok.injEq] at h
          obtain ⟨a4, h4, h⟩ := h
          have e4 := Check_remembers (hcb _ _) h4
          rw [← h]
          exact (((e12.chain e3).chain (Remembers.set _ _ _ hne)).chain e4).chain
            (Remembers.set _ _ _ (fun heq => hk _ heq.symm))
        · simp only [Run.ok.injEq] at h
          rw [← h]
          exact (e12.chain e3).chain (Remembers.set _ _ _ hne)

theorem nestedImport_remembers (world : World) (k : String) (p : Package) (hk : NotTestKey k)
    (fuel : Nat) (dir : String) (allowBinary : Bool) :
    ∀ w name r,
      importCallback world allowBinary
        (fun w name => (Import world fuel w dir name nestedConfig).bind (fun r => .ok r.1))
        w name = .ok r → Remembers k p w r.2 := by
  apply importCallback_remembers
  intro w name r hr
  simp only [Run.bind_eq_ok, Run.ok.injEq] at hr
  obtain ⟨a, ha, hr⟩ := hr
  rw [← hr]
  exact Import_remembers world k p hk _ _ _ _ _ _ ha

/-- The package that `Import` returns is the package it leaves stored under the
path, for a path that is not the name of an external test package. -/
theorem Import_stores (world : World) (fuel : Nat) (w w1 : PkgWalker) (parentDir name : String)
    (conf conf1 : PkgConfig) (p : Package) (e : Option Err)
    (h : Import world fuel w parentDir name conf = .ok (((some p, e), w1), conf1))
    (hk : NotTestKey (importKey world parentDir name)) :
    w1.importedAt (importKey world parentDir name) = some (.pkg p) := by
  cases fuel with
  | zero => simp [Import] at h
  | succ n =>
    simp only [Import] at h
    simp only [importKey] at hk ⊢
    generalize (if (hasPrefix name "." && parentDir != "") = true then world.Join parentDir name
      else name) = name1 at h hk ⊢
    split at h
    · simp at h
    · rename_i q himp
      simp only [Run.ok.injEq, Prod.mk.injEq, Option.some.injEq] at h
      obtain ⟨⟨⟨hq, _⟩, hw⟩, _⟩ := h
      rw [← hw, ← hq]
      exact himp
    · split at h
      · simp at h
      · simp only [Run.bind_eq, Run.pure_eq, Run.bind_eq_ok] at h
        obtain ⟨a1, h1, a2, h2, a3, h3, h⟩ := h
        split at h
        · simp only [Run.bind_eq_ok, Run.ok.injEq, Prod.mk.injEq, Option.some.injEq] at h
          obtain ⟨a4, h4, ⟨⟨hp, _⟩, hw⟩, _⟩ := h
          have e4 := Check_remembers (nestedImport_remembers world name1 p hk n _ _) h4
          rw [← hw]
          have hset : (a3.2.2.setImported name1 (some (Imported.pkg a3.1.1))).importedAt name1 =
              some (.pkg p) := by
            rw [importedAt_setImported, hp]
            simp
          have h5 := (e4 hset).1
          exact ((Remembers.set _ _ _ (fun heq => hk _ heq.symm)) h5).1
        · simp only [Run.ok.injEq, Prod.mk.injEq, Option.some.injEq] at h
          obtain ⟨⟨⟨hp, _⟩, hw⟩, _⟩ := h
          rw [← hw, importedAt_setImported, hp]
          simp

/-- An `Import` that the build context answers with an error returns that error
and stores nothing: only the question is recorded. -/
theorem Import_locate_error (world : World) (fuel : Nat) (w : PkgWalker) (parentDir name : String)
    (conf : PkgConfig) (bp : BuildPackage) (e : String)
    (hmiss : w.importedAt (importKey world parentDir name) = none)
    (hloc : locatePackage world (importKey world parentDir name) = (bp, some e)) :
    Import world (fuel + 1) w parentDir name conf =
      .ok (((none, some (.lib e)), w.logged (.locate (importKey world parentDir name))), conf) := by
  simp only [importKey, locatePackage] at hmiss hloc ⊢
  simp only [Import, hmiss, hloc]

/-- C3, as the code has it.  Once `Import` has returned a package for a path,
with or without an error of the checker, that package is stored under the path
(for a path that is not the name of an external test package), and in every
walker that still holds it: a later `Import` of the path returns that very package
with a nil error and leaves the walker as it is, so nothing is located, parsed or
checked again; and a later `Import` of any path, with the imports nested in it,
keeps the package stored and does not locate the path again, so the path is not
type-checked a second time.  An `Import` that the build context answers with an
error returns the error and stores nothing, so the next `Import` of the path asks
the build context again. -/
theorem Import_memoized (world : World) (fuel : Nat) (w w1 : PkgWalker) (parentDir name : String)
    (conf conf1 : PkgConfig) :
    (∀ (p : Package) (e : Option Err),
      Import world fuel w parentDir name conf = .ok (((some p, e), w1), conf1) →
      NotTestKey (importKey world parentDir name) →
      w1.importedAt (importKey world parentDir name) = some (.pkg p) ∧
      ∀ w2, w2.importedAt (importKey world parentDir name) = some (.pkg p) →
        (∀ fuel2 conf2,
          Import world (fuel2 + 1) w2 parentDir name conf2 = .ok (((some p, none), w2), conf2)) ∧
        (∀ fuel3 parentDir3 name3 conf3 r,
          Import world fuel3 w2 parentDir3 name3 conf3 = .ok r →
          r.1.2.importedAt (importKey world parentDir name) = some (.pkg p) ∧
            r.1.2.locates (importKey world parentDir name) =
              w2.locates (importKey world parentDir name))) ∧
    (∀ (bp : BuildPackage) (e : String),
      w.importedAt (importKey world parentDir name) = none →
      locatePackage world (importKey world parentDir name) = (bp, some e) →
      ∀ fuel2 conf2,
        Import world (fuel2 + 1) w parentDir name conf2 =
          .ok (((none, some (.lib e)),
            w.logged (.locate (importKey world parentDir name))), conf2) ∧
        (w.logged (.locate (importKey world parentDir name))).importedAt
          (importKey world parentDir name) = none ∧
        Import world (fuel2 + 1) (w.logged (.locate (importKey world parentDir name)))
            parentDir name conf2 =
          .ok (((none, some (.lib e)),
            (w.logged (.locate (importKey world parentDir name))).logged
              (.locate (importKey world parentDir name))), conf2)) := by
  refine ⟨?_, ?_⟩
  · intro p e h hk
    refine ⟨Import_stores world fuel w w1 parentDir name conf conf1 p e h hk, ?_⟩
    intro w2 hw2
    refine ⟨fun fuel2 conf2 => Import_hit world fuel2 w2 parentDir name conf2 p hw2, ?_⟩
    intro fuel3 parentDir3 name3 conf3 r hr
    exact Import_remembers world _ p hk fuel3 w2 parentDir3 name3 conf3 r hr hw2
  · intro bp e hmiss hloc fuel2 conf2
    have hmiss2 : (w.logged (.locate (importKey world parentDir name))).importedAt
        (importKey world parentDir name) = none := hmiss
    exact ⟨Import_locate_error world fuel2 w parentDir name conf2 bp e hmiss hloc, hmiss2,
      Import_locate_error world fuel2 _ parentDir name conf2 bp e hmiss2 hloc⟩

theorem notTestKey_top : NotTestKey (importKey exampleTree "" "top") := by
  intro c h
  have hl := congrArg String.length h
  have h1 : (importKey exampleTree "" "top").length = 3 := by decide
  have h2 : (c ++ "_test").length = c.length + 5 := by
    rw [String.length_append]; rfl
  omega

/-- C3, on the example tree: `top` is imported in a fresh session, which stores
its package; the next import of `top` returns that package and changes nothing,
and a later import of `leaf` keeps it stored without locating `top` again. -/
theorem Import_memoized_example :
    walkerAfterTop.importedAt (importKey exampleTree "" "top") =
        some (.pkg (emptyChecked "top").pkg) ∧
    (∀ fuel2 conf2,
      Import exampleTree (fuel2 + 1) walkerAfterTop "" "top" conf2 =
        .ok (((some (emptyChecked "top").pkg, none), walkerAfterTop), conf2)) ∧
    (walkerAfterTop.locates (importKey exampleTree "" "top") = 1) ∧
    (∀ r, Import exampleTree 1 walkerAfterTop "" "leaf" nestedConfig = .ok r →
      r.1.2.locates (importKey exampleTree "" "top") = 1) :=
  have h := (Import_memoized exampleTree 2 (NewPkgWalker false false false) walkerAfterTop ""
    "top" nestedConfig nestedConfig).1 (emptyChecked "top").pkg none rfl notTestKey_top
  ⟨h.1, (h.2 walkerAfterTop h.1).1, by decide,
    fun r hr => ((h.2 walkerAfterTop h.1).2 1 "" "leaf" nestedConfig r hr).2.trans (by decide)⟩

/-- The memo needs the condition on the path: in the tree of `x` and `x_test`, the
package returned for the path `x_test` is replaced, when `x` is imported, by the
external test package of `x`, which is stored under the same name; the
next import of `x_test` returns that other package. -/
theorem Import_test_key_replaced :
    (∃ w1 w2,
      Import testTree 2 (NewPkgWalker false false false) "" "x_test" nestedConfig =
        .ok (((some { addr := 7, path := "x_test", name := "x_test", complete := true }, none),
          w1), nestedConfig) ∧
      Import testTree 2 w1 "" "x" nestedConfig =
        .ok (((some { addr := 2, path := "x", name := "x", complete := true }, none), w2),
          nestedConfig) ∧
      Import testTree 2 w2 "" "x_test" nestedConfig =
        .ok (((some { addr := 17, path := "x_test", name := "x_test", complete := true }, none),
          w2), nestedConfig)) ∧
    ¬ NotTestKey (importKey testTree "" "x_test") :=
  ⟨⟨_, _, rfl, rfl, rfl⟩, fun h => h "x" rfl⟩

/-- C3 fails as stated, in two ways.  An `Import` that cannot locate the package
returns its error and stores nothing, and the next `Import` of the same path asks
the build context to locate the package again.  And in the session that has
imported `top` and with it `leaf`, each checked once, `LookupStructFromField`
without a table clears the entry of `leaf` and imports it afresh, so `leaf` is
located and type-checked a second time. -/
theorem Import_failure_not_memoized :
    Import exampleTree 1 (NewPkgWalker false false false) "" "nopkg" nestedConfig =
      .ok (((none, some (.lib "cannot find package")),
        (NewPkgWalker false false false).logged (.locate "nopkg")), nestedConfig) ∧
    Import exampleTree 1 ((NewPkgWalker false false false).logged (.locate "nopkg")) "" "nopkg"
        nestedConfig =
      .ok (((none, some (.lib "cannot find package")),
        ((NewPkgWalker false false false).logged (.locate "nopkg")).logged (.locate "nopkg")),
        nestedConfig) ∧
    (((NewPkgWalker false false false).logged (.locate "nopkg")).logged
      (.locate "nopkg")).trace = [.locate "nopkg", .locate "nopkg"] ∧
    Import exampleTree 2 (NewPkgWalker false false false) "" "top" nestedConfig =
      .ok (((some (emptyChecked "top").pkg, none), walkerAfterTop), nestedConfig) ∧
    walkerAfterTop.trace.count (.check "leaf") = 1 ∧
    (match LookupStructFromField exampleTree 1 walkerAfterTop none
        (some (emptyChecked "leaf").pkg) exampleFoo 17 with
      | .ok (_, w) => w.trace
      | _ => []) =
      [.locate "top", .parse "/src/top/top.go", .check "top",
       .locate "leaf", .parse "/src/leaf/leaf.go", .check "leaf",
       .locate "leaf", .check "leaf"] :=
  ⟨rfl, rfl, rfl, rfl, by decide, rfl⟩

/-- In a session that starts without the marker of an import in progress, no
`Import` stores the marker and none returns the cycle error: the test for such an
unfinished import never succeeds. -/
theorem Import_never_reports_cycle (world : World) (fuel : Nat) (w : PkgWalker)
    (parentDir name : String) (conf : PkgConfig) (r : ImportResult × PkgConfig)
    (hw : ∀ k, w.importedAt k ≠ some .importing)
    (h : Import world fuel w parentDir name conf = .ok r) :
    (∀ k, r.1.2.importedAt k ≠ some .importing) ∧ ∀ n, r.1.1.2 ≠ some (.cycle n) :=
  ⟨Import_stable StaysUnmarked_stable world fuel w parentDir name conf r h hw,
   (Import_result world fuel w parentDir name conf r h).2 hw⟩

/-! ## Import cycles -/

theorem parseFile_exampleTree (w : PkgWalker) (dir file : String) (f : AstFile)
    (hc : CacheOK w)
    (hgen1 : (file == "zgoos_linux.go") = false) (hgen2 : (file == "zgoarch_amd64.go") = false)
    (hf : exampleParse (exampleTree.Join dir (exampleTree.Base file)) = some f) :
    ∃ w1, parseFile exampleTree w dir file none = .ok ((some f, none), w1) ∧
      w1.imported = w.imported ∧ CacheOK w1 := by
  simp only [parseFile]
  cases hl : (w.parsedFileCache.lookup (exampleTree.Join dir (exampleTree.Base file))).join with
  | some g =>
    have := hc _ _ hl
    rw [hf] at this
    cases this
    exact ⟨w, rfl, rfl, hc⟩
  | none =>
    have h1 : (file == "zgoos_" ++ exampleTree.GOOS ++ ".go") = false := hgen1
    have h2 : (file == "zgoarch_" ++ exampleTree.GOARCH ++ ".go") = false := hgen2
    have h3 : exampleTree.ParseFile (exampleTree.Join dir (exampleTree.Base file)) none true =
        (some f, none) := by
      show (match exampleParse (exampleTree.Join dir (exampleTree.Base file)) with
        | some f => (some f, none)
        | none => (none, some "no such file")) = _
      rw [hf]
    simp only [h1, h2, h3, Run.bind_eq, Run.ok_bind, Bool.false_eq_true, if_false]
    refine ⟨_, rfl, rfl, ?_⟩
    intro filename g hg
    simp only [PkgWalker.logged, List.lookup_cons] at hg
    split at hg
    · rename_i heq
      simp only [Option.join] at hg
      cases hg
      have : filename = exampleTree.Join dir (exampleTree.Base file) := by simpa using heq
      rw [this, hf]
    · exact hc _ _ hg

theorem parserFiles_one (w : PkgWalker) (dir file : String) (f : AstFile) (includeDefault : Bool)
    (hc : CacheOK w)
    (hgen1 : (file == "zgoos_linux.go") = false) (hgen2 : (file == "zgoarch_amd64.go") = false)
    (hf : exampleParse (exampleTree.Join dir (exampleTree.Base file)) = some f) :
    ∃ w1, parserFiles exampleTree w dir [file] none includeDefault = .ok ([some f], none, w1) ∧
      w1.imported = w.imported ∧ CacheOK w1 := by
  obtain ⟨w1, h1, h2, h3⟩ := parseFile_exampleTree w dir file f hc hgen1 hgen2 hf
  refine ⟨w1, ?_, h2, h3⟩
  simp [parserFiles, parserFilesLoop, h1]

theorem parserFiles_none (world : World) (w : PkgWalker) (dir : String) (includeDefault : Bool) :
    parserFiles world w dir [] none includeDefault = .ok ([], none, w) := by
  simp [parserFiles, parserFilesLoop]

/-- The packages on a cycle of the example tree, each with the package it imports. -/
theorem Import_on_cycle_step (fuel : Nat) (w : PkgWalker) (parentDir name next : String)
    (conf : PkgConfig)
    (hname : (name = "self" ∧ next = "self") ∨ (name = "a" ∧ next = "b") ∨
      (name = "b" ∧ next = "a"))
    (hcur : conf.Cursor = none) (himp : w.importedAt name = none) (hc : CacheOK w) :
    ∃ w1, w1.imported = w.imported ∧ CacheOK w1 ∧
      (Import exampleTree fuel w1 ("/src/" ++ name) next nestedConfig = .outOfFuel →
        Import exampleTree (fuel + 1) w parentDir name conf = .outOfFuel) := by
  have hpre : hasPrefix name "." = false := by
    rcases hname with ⟨rfl, _⟩ | ⟨rfl, _⟩ | ⟨rfl, _⟩ <;> decide
  have hloc : (if exampleTree.IsAbs name then exampleTree.ImportDir name
      else exampleTree.Import name) = (oneFilePackage name, none) := by
    rcases hname with ⟨rfl, _⟩ | ⟨rfl, _⟩ | ⟨rfl, _⟩ <;> rfl
  have hrt : (name == "runtime") = false := by
    rcases hname with ⟨rfl, _⟩ | ⟨rfl, _⟩ | ⟨rfl, _⟩ <;> decide
  have hg1 : (name ++ ".go" == "zgoos_linux.go") = false := by
    rcases hname with ⟨rfl, _⟩ | ⟨rfl, _⟩ | ⟨rfl, _⟩ <;> decide
  have hg2 : (name ++ ".go" == "zgoarch_amd64.go") = false := by
    rcases hname with ⟨rfl, _⟩ | ⟨rfl, _⟩ | ⟨rfl, _⟩ <;> decide
  have hf : exampleParse (exampleTree.Join ("/src/" ++ name) (exampleTree.Base (name ++ ".go"))) =
      some (fileImporting [next]) := by
    rcases hname with ⟨rfl, rfl⟩ | ⟨rfl, rfl⟩ | ⟨rfl, rfl⟩ <;> rfl
  have hpaths : importPaths exampleTree [some (fileImporting [next])] = [next] := by
    rcases hname with ⟨rfl, rfl⟩ | ⟨rfl, rfl⟩ | ⟨rfl, rfl⟩ <;> rfl
  have hC : (next == "C") = false := by
    rcases hname with ⟨_, rfl⟩ | ⟨_, rfl⟩ | ⟨_, rfl⟩ <;> decide
  have hbin : isBinaryPkg next = false := by
    rcases hname with ⟨_, rfl⟩ | ⟨_, rfl⟩ | ⟨_, rfl⟩ <;> decide
  have hip : (oneFilePackage name).ImportPath = name := rfl
  have hdot : (name == ".") = false := by
    rcases hname with ⟨rfl, _⟩ | ⟨rfl, _⟩ | ⟨rfl, _⟩ <;> decide
  obtain ⟨w1, hp1, hi1, hc1⟩ := parserFiles_one (w.logged (.locate name)) ("/src/" ++ name)
    (name ++ ".go") (fileImporting [next]) true hc hg1 hg2 hf
  refine ⟨w1.logged (.check name), hi1, hc1, ?_⟩
  intro hrec
  have hcheck : ∀ path files, exampleTree.Check path files = some (emptyChecked path) :=
    fun _ _ => rfl
  have hfiles : (oneFilePackage name).GoFiles ++ (oneFilePackage name).CgoFiles = [name ++ ".go"] :=
    rfl
  have htest : (oneFilePackage name).TestGoFiles = [] := rfl
  have hx : (oneFilePackage name).XTestGoFiles = [] := rfl
  have hdir : (oneFilePackage name).Dir = "/src/" ++ name := rfl
  simp only [Import, hpre, Bool.false_and, Bool.false_eq_true, if_false, himp, hloc, hrt,
    hfiles, htest, hx, hdir, hip, hdot, List.append_nil, ite_self, hcur, hp1, parserFiles_none,
    Run.bind_eq, Run.ok_bind, Check, hcheck, hpaths, resolveImports, hC, importCallback, hbin,
    Bool.and_false, hrec, Run.outOfFuel_bind]

theorem Import_on_cycle_outOfFuel (fuel : Nat) :
    ∀ (w : PkgWalker) (parentDir name : String) (conf : PkgConfig),
      name = "self" ∨ name = "a" ∨ name = "b" → conf.Cursor = none →
      (w.importedAt "self" = none ∧ w.importedAt "a" = none ∧ w.importedAt "b" = none) →
      CacheOK w → Import exampleTree fuel w parentDir name conf = .outOfFuel := by
  induction fuel with
  | zero => intros; rfl
  | succ n ih =>
    intro w parentDir name conf hname hcur himp hc
    have hnext : ∃ next, ((name = "self" ∧ next = "self") ∨ (name = "a" ∧ next = "b") ∨
        (name = "b" ∧ next = "a")) ∧ (next = "self" ∨ next = "a" ∨ next = "b") := by
      rcases hname with rfl | rfl | rfl
      · exact ⟨"self", Or.inl ⟨rfl, rfl⟩, Or.inl rfl⟩
      · exact ⟨"b", Or.inr (Or.inl ⟨rfl, rfl⟩), Or.inr (Or.inr rfl)⟩
      · exact ⟨"a", Or.inr (Or.inr ⟨rfl, rfl⟩), Or.inr (Or.inl rfl)⟩
    obtain ⟨next, hpair, hnext⟩ := hnext
    have himpn : w.importedAt name = none := by
      rcases hname with rfl | rfl | rfl
      · exact himp.1
      · exact himp.2.1
      · exact himp.2.2
    obtain ⟨w1, hi1, hc1, hstep⟩ :=
      Import_on_cycle_step n w parentDir name next conf hpair hcur himpn hc
    apply hstep
    apply ih w1 _ next nestedConfig hnext rfl _ hc1
    simp only [importedAt_congr hi1]
    exact himp

theorem NewPkgWalker_clean (findDef findUse findInfo : Bool) :
    ((NewPkgWalker findDef findUse findInfo).importedAt "self" = none ∧
      (NewPkgWalker findDef findUse findInfo).importedAt "a" = none ∧
      (NewPkgWalker findDef findUse findInfo).importedAt "b" = none) ∧
    CacheOK (NewPkgWalker findDef findUse findInfo) := by
  refine ⟨⟨rfl, rfl, rfl⟩, ?_⟩
  intro filename f h
  simp [NewPkgWalker] at h

/-- C2 fails on the code: for the package that imports itself and for the two
packages that import each other, `Import` does not return, whatever depth of
nested imports is allowed; in particular it returns no cycle error. -/
theorem Import_cycle_never_returns (fuel : Nat) (findDef findUse findInfo : Bool) :
    Import exampleTree fuel (NewPkgWalker findDef findUse findInfo) "" "self" preciseConfig =
      .outOfFuel ∧
    Import exampleTree fuel (NewPkgWalker findDef findUse findInfo) "" "a" preciseConfig =
      .outOfFuel :=
  ⟨Import_on_cycle_outOfFuel fuel _ "" "self" preciseConfig (Or.inl rfl) rfl
      (NewPkgWalker_clean findDef findUse findInfo).1 (NewPkgWalker_clean findDef findUse findInfo).2,
   Import_on_cycle_outOfFuel fuel _ "" "a" preciseConfig (Or.inr (Or.inl rfl)) rfl
      (NewPkgWalker_clean findDef findUse findInfo).1 (NewPkgWalker_clean findDef findUse findInfo).2⟩

/-! ## Embedded fields -/

theorem usageDocs_without_package (world : World) (cursorObj : Object) (kind : ObjKind)
    (hpkg : cursorObj.Pkg = none) (pos : Int) (rest : List Int) :
    usageDocs world cursorObj kind (pos :: rest) =
      .panic "nil dereference: cursorObj.Pkg().Name()" := by
  simp [usageDocs, symbolDoc, hpkg]

/-- For a located symbol without an owning package that is neither a field nor a
method, a request for the definition reads the name of the nil package, and so
does a request for the usages as soon as one identifier denotes the symbol. -/
theorem LookupObjects_without_package (world : World) (fuel : Nat) (w : PkgWalker)
    (pkg : Package) (pkgInfo : Info) (cursor : FileCursor) (obj : Object)
    (sel : Option Selection) (kind : ObjKind)
    (hfound : findCursorObj pkgInfo cursor.pos = (some obj, sel))
    (hkind : parserObjKind obj = (kind, none))
    (hfield : kind ≠ ObjField) (hmethod : kind ≠ ObjMethod) (hpkg : obj.Pkg = none) :
    (w.findDef = true →
      LookupObjects world fuel w pkg pkgInfo cursor =
        .panic "nil dereference: cursorObj.Pkg().Name()") ∧
    (w.findDef = false → w.findInfo = false → w.findUse = true →
      usagePositions pkgInfo kind obj ≠ [] →
      LookupObjects world fuel w pkg pkgInfo cursor =
        .panic "nil dereference: cursorObj.Pkg().Name()") := by
  have hf : (kind == ObjField) = false := by simpa using hfield
  have hm : (kind == ObjMethod) = false := by simpa using hmethod
  have hsame : samePkg (none : Option Package) (some pkg) = false := rfl
  have hstart : LookupObjects world fuel w pkg pkgInfo cursor =
      emitDocs world w pkg pkgInfo
        { cursorObj := obj, kind := kind, cursorPkg := none, cursorPos := obj.Pos,
          fieldTypeInfo := none, cursorIsInterfaceMethod := false,
          cursorInterfaceTypeName := "" } none := by
    simp [LookupObjects, hfound, hkind, promoteAnonymous, hf, interfaceMethod, hm, hpkg, hsame,
      promotePackage]
  refine ⟨?_, ?_⟩
  · intro hdef
    rw [hstart]
    simp [emitDocs, hdef, symbolDoc, hpkg]
  · intro hdef hinfo huse hne
    rw [hstart]
    have hsort : sortInts (usagePositions pkgInfo kind obj) ≠ [] := by
      intro h
      have hlen := (List.perm_insertionSort (fun a b : Int => a ≤ b)
        (usagePositions pkgInfo kind obj)).length_eq
      rw [show List.insertionSort (fun a b : Int => a ≤ b) (usagePositions pkgInfo kind obj) =
        sortInts (usagePositions pkgInfo kind obj) from rfl, h] at hlen
      exact hne (List.length_eq_zero.mp hlen.symm)
    obtain ⟨pos, rest, hl⟩ := List.exists_cons_of_ne_nil hsort
    simp [emitDocs, hdef, hinfo, huse, usageRecords, hl, usageDocs_without_package _ _ _ hpkg]

/-- C16 fails on the code: with the cursor on a call of the builtin `len`, which
has no package, a request for the definition ends in a nil dereference, and so
does a request for the usages; only the hover text alone is produced. -/
theorem LookupObjects_builtin_panics :
    LookupObjects exampleTree 0 (NewPkgWalker true false false) examplePkg lenInfo
        (cursorAt 41) = .panic "nil dereference: cursorObj.Pkg().Name()" ∧
    LookupObjects exampleTree 0 (NewPkgWalker false true false) examplePkg lenInfo
        (cursorAt 41) = .panic "nil dereference: cursorObj.Pkg().Name()" ∧
    LookupObjects exampleTree 0 (NewPkgWalker false false true) examplePkg lenInfo
        (cursorAt 41) =
      .ok ([], (NewPkgWalker false false true).printed
        (.line "builtin func len(v Type) int")) :=
  ⟨rfl, rfl, rfl⟩

/-! ## Methods selected through an interface -/

/-- When the method under the cursor has an interface as declared receiver and
the receiver of the selection is not a named type, the conversion
`cursorSelection.Recv().(*types.Named)` fails. -/
theorem interfaceMethod_unnamed_receiver (sel : Selection) (f : Func) (r : Var) (t : Typ)
    (methods : List Func) (embeddeds : List Named) (cursorPkg : Option Package)
    (hsig : f.Type.Underlying = .signature (some r))
    (hiface : r.Type.Underlying = .interface methods embeddeds)
    (hrecv : sel.recv = some t) (hnot : ∀ n, t ≠ .named n) :
    interfaceMethod ObjMethod (some sel) (.func f) cursorPkg =
      .panic "type assertion: cursorSelection.Recv().(*types.Named)" := by
  simp only [interfaceMethod, beq_self_eq_true, if_true, Option.some_bind, hrecv, hsig, hiface]

/-- When the receiver of the selection is a named type the step succeeds: the
method found by `lookupNamedMethod` replaces the symbol, and the step is marked
as an interface method. -/
theorem interfaceMethod_named_receiver (sel : Selection) (f : Func) (r : Var) (named : Named)
    (methods : List Func) (embeddeds : List Named) (cursorPkg : Option Package)
    (hsig : f.Type.Underlying = .signature (some r))
    (hiface : r.Type.Underlying = .interface methods embeddeds)
    (hrecv : sel.recv = some (.named named)) :
    ∃ obj pkg typeName,
      interfaceMethod ObjMethod (some sel) (.func f) cursorPkg = .ok (obj, pkg, typeName, true) := by
  simp only [interfaceMethod, beq_self_eq_true, if_true, Option.some_bind, hrecv, hsig, hiface]
  cases lookupNamedMethod named (Object.func f).Name with
  | none => exact ⟨_, _, _, rfl⟩
  | some p => exact ⟨_, _, _, rfl⟩

/-- C17 fails on the code: for the call `r.M()` with `r` a pointer to a struct that
embeds the interface `I`, and for the call `x.M()` with `x` of an interface type
without a name, the conversion of the receiver of the selection to a named type is
reached with a receiver that is not a named type, and `LookupObjects` panics; for
a receiver of the named interface type `J` it returns the records of `M`. -/
theorem LookupObjects_unnamed_receiver_panics :
    LookupObjects exampleTree 0 (NewPkgWalker true true true) examplePkg pointerReceiverInfo
        (cursorAt 92) = .panic "type assertion: cursorSelection.Recv().(*types.Named)" ∧
    LookupObjects exampleTree 0 (NewPkgWalker true true true) examplePkg literalReceiverInfo
        (cursorAt 92) = .panic "type assertion: cursorSelection.Recv().(*types.Named)" ∧
    (LookupObjects exampleTree 0 (NewPkgWalker true true true) examplePkg namedReceiverInfo
        (cursorAt 92)).returns = true :=
  ⟨rfl, rfl, rfl⟩

/-! ## The cache of parsed files -/

theorem KeepsFiles.refl (w : PkgWalker) : KeepsFiles w w := fun _ _ h => h

theorem KeepsFiles.trans {a b c : PkgWalker} (h1 : KeepsFiles a b) (h2 : KeepsFiles b c) :
    KeepsFiles a c := fun k f h => h2 k f (h1 k f h)

theorem KeepsFiles.congr {w w1 : PkgWalker} (h : w1.parsedFileCache = w.parsedFileCache) :
    KeepsFiles w w1 := by
  intro k f hk
  rw [h]
  exact hk

/-- Storing a tree under a name that has none keeps every stored file. -/
theorem KeepsFiles.store {w w1 : PkgWalker} {filename : String} {t : Option AstFile}
    (hmiss : (w.parsedFileCache.lookup filename).join = none)
    (h : w1.parsedFileCache = (filename, t) :: w.parsedFileCache) : KeepsFiles w w1 := by
  intro k f hk
  rw [h, List.lookup_cons]
  by_cases hkf : k = filename
  · subst hkf
    rw [hmiss] at hk
    cases hk
  · have : (k == filename) = false := by simpa using hkf
    simpa [this] using hk

/-- A call of `parseFile` that returns keeps every stored file, and when it
returns a tree without an error the tree is stored under the joined name. -/
theorem parseFile_keeps {world : World} {w w1 : PkgWalker} {dir file : String}
    {src : Option String} {r : Option AstFile × Option Err}
    (h : parseFile world w dir file src = .ok (r, w1)) :
    KeepsFiles w w1 ∧
    (∀ f, r = (some f, none) →
      (w1.parsedFileCache.lookup (world.Join dir (world.Base file))).join = some f) ∧
    (∀ e, r.2 = some e → w1.parsedFileCache = w.parsedFileCache) := by
  simp only [parseFile] at h
  split at h
  · rename_i f0 hhit
    simp only [Run.ok.injEq, Prod.mk.injEq] at h
    obtain ⟨hr, hw⟩ := h
    subst hw
    subst hr
    refine ⟨KeepsFiles.refl _, ?_, ?_⟩
    · intro f hf
      simp only [Prod.mk.injEq, Option.some.injEq, and_true] at hf
      rw [← hf]
      exact hhit
    · intro e he
      cases he
  · rename_i hmiss
    simp only [Run.bind_eq, Run.bind_eq_ok] at h
    obtain ⟨a1, h1, a2, h2, h⟩ := h
    have e1 : a1.2.parsedFileCache = w.parsedFileCache := by
      split at h1
      · split at h1
        · cases h1
        · cases h1; rfl
      · cases h1; rfl
    have e2 : a2.2.parsedFileCache = a1.2.parsedFileCache := by
      split at h2
      · split at h2
        · cases h2
        · cases h2; rfl
      · cases h2; rfl
    have e12 := e2.trans e1
    split at h
    · rename_i f1 _
      simp only [Run.ok.injEq, Prod.mk.injEq] at h
      obtain ⟨hr, hw⟩ := h
      subst hw
      subst hr
      refine ⟨@KeepsFiles.store _ _ _ (some f1) hmiss (by simp [e12]), ?_, ?_⟩
      · intro f hf
        simp only [Prod.mk.injEq, Option.some.injEq, and_true] at hf
        simp [hf]
      · intro e he
        cases he
    · split at h
      · simp only [Run.ok.injEq, Prod.mk.injEq] at h
        obtain ⟨hr, hw⟩ := h
        subst hw
        subst hr
        refine ⟨KeepsFiles.congr (by simp [PkgWalker.logged, e12]), ?_, ?_⟩
        · intro f hf
          simp at hf
        · intro e _
          simp [PkgWalker.logged, e12]
      · rename_i f1 _
        simp only [Run.ok.injEq, Prod.mk.injEq] at h
        obtain ⟨hr, hw⟩ := h
        subst hw
        subst hr
        refine ⟨@KeepsFiles.store _ _ _ f1 hmiss (by simp [PkgWalker.logged, e12]), ?_, ?_⟩
        · intro f hf
          simp only [Prod.mk.injEq, and_true] at hf
          simp [hf]
        · intro e he
          cases he

theorem parserFilesLoop_keeps {world : World} {dir : String} :
    ∀ {filenames : List String} {cursor : Option FileCursor} {found : Bool} {w : PkgWalker}
      {r : List (Option AstFile) × Option FileCursor × Bool × PkgWalker},
      parserFilesLoop world dir filenames cursor found w = .ok r →
      KeepsFiles w r.2.2.2 := by
  intro filenames
  induction filenames with
  | nil =>
    intro cursor found w r h
    simp only [parserFilesLoop, Run.ok.injEq] at h
    rw [← h]
    exact KeepsFiles.refl w
  | cons file rest ih =>
    intro cursor found w r h
    simp only [parserFilesLoop] at h
    split at h
    · simp only [Run.bind_eq, Run.pure_eq, Run.bind_eq_ok] at h
      obtain ⟨a1, h1, h⟩ := h
      split at h
      · cases h
      · simp only [Run.bind_eq_ok, Run.ok.injEq] at h
        obtain ⟨base, _, a2, h2, h⟩ := h
        have e2 : KeepsFiles a1.2 a2.2.2.2 := ih h2
        rw [← h]
        exact (parseFile_keeps h1).1.trans e2
    · simp only [Run.bind_eq, Run.pure_eq, Run.bind_eq_ok, Run.ok.injEq] at h
      obtain ⟨a1, h1, a2, h2, h⟩ := h
      have e2 : KeepsFiles a1.2 a2.2.2.2 := ih h2
      rw [← h]
      exact (parseFile_keeps h1).1.trans e2

theorem parserFiles_keeps {world : World} {w : PkgWalker} {dir : String}
    {filenames : List String} {cursor : Option FileCursor} {includeDefault : Bool}
    {r : List (Option AstFile) × Option FileCursor × PkgWalker}
    (h : parserFiles world w dir filenames cursor includeDefault = .ok r) :
    KeepsFiles w r.2.2 := by
  simp only [parserFiles, Run.bind_eq, Run.pure_eq, Run.bind_eq_ok] at h
  obtain ⟨a1, h1, h⟩ := h
  have e1 := parserFilesLoop_keeps h1
  split at h
  · split at h
    · simp only [Run.bind_eq_ok] at h
      obtain ⟨a2, h2, h⟩ := h
      have e2 := (parseFile_keeps h2).1
      split at h
      · cases h; exact e1.trans e2
      · split at h
        · cases h
        · simp only [Run.bind_eq_ok, Run.ok.injEq] at h
          obtain ⟨base, _, h⟩ := h
          rw [← h]; exact e1.trans e2
    · cases h; exact e1
  · cases h; exact e1

theorem importCallback_keeps {world : World} {allowBinary : Bool}
    {imp : PkgWalker → String → Run ImportResult}
    (himp : ∀ w name r, imp w name = .ok r → KeepsFiles w r.2) :
    ∀ w name r, importCallback world allowBinary imp w name = .ok r → KeepsFiles w r.2 := by
  intro w name r h
  simp only [importCallback] at h
  split at h
  · split at h
    · cases h; exact KeepsFiles.refl w
    · split at h
      · cases h; exact KeepsFiles.congr rfl
      · have hrec := himp _ _ _ h
        refine KeepsFiles.trans ?_ hrec
        exact KeepsFiles.congr rfl
  · exact himp _ _ _ h

theorem resolveImports_keeps {callback : PkgWalker → String → Run ImportResult}
    (hcb : ∀ w name r, callback w name = .ok r → KeepsFiles w r.2) :
    ∀ paths w w1, resolveImports callback paths w = .ok w1 → KeepsFiles w w1 := by
  intro paths
  induction paths with
  | nil =>
    intro w w1 h
    simp only [resolveImports, Run.ok.injEq] at h
    rw [← h]
    exact KeepsFiles.refl w
  | cons path rest ih =>
    intro w w1 h
    simp only [resolveImports] at h
    split at h
    · exact ih _ _ h
    · simp only [Run.bind_eq, Run.bind_eq_ok] at h
      obtain ⟨a, ha, h⟩ := h
      exact KeepsFiles.trans (hcb _ _ _ ha) (ih _ _ h)

theorem Check_keeps {world : World} {callback : PkgWalker → String → Run ImportResult}
    (hcb : ∀ w name r, callback w name = .ok r → KeepsFiles w r.2)
    {path : String} {files : List (Option AstFile)} {info : Option Info} {w : PkgWalker}
    {r : (Package × Option Err) × Option Info × PkgWalker}
    (h : Check world callback path files info w = .ok r) : KeepsFiles w r.2.2 := by
  simp only [Check] at h
  split at h
  · cases h
  · simp only [Run.bind_eq, Run.pure_eq, Run.bind_eq_ok, Run.ok.injEq] at h
    obtain ⟨a, ha, h⟩ := h
    rw [← h]
    have hlog : KeepsFiles w (w.logged (.check path)) := KeepsFiles.congr rfl
    exact hlog.trans (resolveImports_keeps hcb _ _ _ ha)

/-- An import that returns keeps every file of the cache: what `parseFile` has
stored is never replaced during the session. -/
theorem Import_keeps (world : World) :
    ∀ (fuel : Nat) (w : PkgWalker) (parentDir name : String) (conf : PkgConfig)
      (r : ImportResult × PkgConfig),
      Import world fuel w parentDir name conf = .ok r → KeepsFiles w r.1.2 := by
  intro fuel
  induction fuel with
  | zero =>
    intro w parentDir name conf r h
    simp [Import] at h
  | succ n ih =>
    intro w parentDir name conf r h
    simp only [Import] at h
    generalize (if (hasPrefix name "." && parentDir != "") = true then world.Join parentDir name
      else name) = name1 at h
    have hcb : ∀ (dir : String) (allowBinary : Bool) w name r,
        importCallback world allowBinary
          (fun w name => (Import world n w dir name nestedConfig).bind (fun r => .ok r.1))
          w name = .ok r → KeepsFiles w r.2 := by
      intro dir allowBinary
      apply importCallback_keeps
      intro w name r hr
      simp only [Run.bind_eq_ok, Run.ok.injEq] at hr
      obtain ⟨a, ha, hr⟩ := hr
      rw [← hr]
      exact ih _ _ _ _ _ ha
    split at h
    · cases h; exact KeepsFiles.refl w
    · cases h; exact KeepsFiles.refl w
    · split at h
      · cases h; exact KeepsFiles.congr rfl
      · simp only [Run.bind_eq, Run.pure_eq, Run.bind_eq_ok] at h
        obtain ⟨a1, h1, a2, h2, a3, h3, h⟩ := h
        have e1 := parserFiles_keeps h1
        have e2 := parserFiles_keeps h2
        have e3 := Check_keeps (hcb _ _) h3
        have e12 : KeepsFiles w a2.2.2 := (KeepsFiles.congr rfl).trans (e1.trans e2)
        have hset : ∀ (v : PkgWalker) k p, KeepsFiles v (v.setImported k p) :=
          fun v k p => KeepsFiles.congr rfl
        split at h
        · simp only [Run.bind_eq_ok, Run.ok.injEq] at h
          obtain ⟨a4, h4, h⟩ := h
          have e4 := Check_keeps (hcb _ _) h4
          rw [← h]
          exact (((e12.trans e3).trans (hset _ _ _)).trans e4).trans (hset _ _ _)
        · simp only [Run.ok.injEq] at h
          rw [← h]
          exact (e12.trans e3).trans (hset _ _ _)

/-- C11, as the code has it: once `parseFile` has returned a tree without an error for a
directory and a file name, every later call of the session for the same pair
returns that tree and no error, whatever override text it passes, and leaves the
walker as it is.  A call that returns an error stores nothing. -/
theorem parseFile_cached (world : World) (w w1 : PkgWalker) (dir file : String)
    (src : Option String) :
    (∀ f : AstFile, parseFile world w dir file src = .ok ((some f, none), w1) →
      ∀ w2, KeepsFiles w1 w2 → ∀ src2,
        parseFile world w2 dir file src2 = .ok ((some f, none), w2)) ∧
    (∀ (t : Option AstFile) (e : Err), parseFile world w dir file src = .ok ((t, some e), w1) →
      w1.parsedFileCache = w.parsedFileCache) := by
  refine ⟨?_, ?_⟩
  · intro f h w2 hkeep src2
    have hstored := hkeep _ _ ((parseFile_keeps h).2.1 f rfl)
    simp only [parseFile, hstored]
  · intro t e h
    exact (parseFile_keeps h).2.2 e rfl

/-- C11, on the example: the file `p.go` parsed from disk is returned again when a
later call passes an override text. -/
theorem parseFile_cached_example :
    parseFile editedTree
        { NewPkgWalker true true true with
          parsedFileCache := [("/src/p/p.go", some (fileImporting ["encoding/json"]))],
          trace := [.parse "/src/p/p.go"] }
        "/src/p" "p.go" (some "package p\n\nimport (") =
      .ok ((some (fileImporting ["encoding/json"]), none),
        { NewPkgWalker true true true with
          parsedFileCache := [("/src/p/p.go", some (fileImporting ["encoding/json"]))],
          trace := [.parse "/src/p/p.go"] }) :=
  (parseFile_cached editedTree (NewPkgWalker true true true) _ "/src/p" "p.go" none).1
    (fileImporting ["encoding/json"]) rfl _ (KeepsFiles.refl _) _

/-- C11 fails as stated: a first call whose override text does not parse returns
the partial tree and the error and stores nothing, and the next call for the
same pair reads the file on disk and returns another tree. -/
theorem parseFile_error_not_cached :
    parseFile editedTree (NewPkgWalker true true true) "/src/p" "p.go"
        (some "package p\n\nimport (") =
      .ok ((some partialFile, some (.lib "expected import path")),
        (NewPkgWalker true true true).logged (.parse "/src/p/p.go")) ∧
    parseFile editedTree ((NewPkgWalker true true true).logged (.parse "/src/p/p.go"))
        "/src/p" "p.go" none =
      .ok ((some (fileImporting ["encoding/json"]), none),
        { ((NewPkgWalker true true true).logged (.parse "/src/p/p.go")).logged
            (.parse "/src/p/p.go") with
          parsedFileCache := [("/src/p/p.go", some (fileImporting ["encoding/json"]))] }) ∧
    partialFile ≠ fileImporting ["encoding/json"] :=
  ⟨rfl, rfl, by decide⟩

/-! ## Unique package directories -/

theorem mem_removeRepeats (l : List String) :
    ∀ (earlier : List String) (x : String),
      x ∈ removeRepeats earlier l ↔ x ∈ l ∧ x ∉ earlier := by
  induction l with
  | nil => intro earlier x; simp [removeRepeats]
  | cons a rest ih =>
    intro earlier x
    simp only [removeRepeats]
    by_cases ha : a ∈ earlier
    · have hc : earlier.contains a = true := by simpa using ha
      simp only [hc, if_true, ih, List.mem_cons]
      constructor
      · rintro ⟨h1, h2⟩; exact ⟨Or.inr h1, h2⟩
      · rintro ⟨h1 | h1, h2⟩
        · subst h1; exact absurd ha h2
        · exact ⟨h1, h2⟩
    · have hc : earlier.contains a = false := by simpa using ha
      simp only [hc, Bool.false_eq_true, if_false, List.mem_cons, ih]
      constructor
      · rintro (h | ⟨h1, h2⟩)
        · subst h; exact ⟨Or.inl rfl, ha⟩
        · exact ⟨Or.inr h1, fun h => h2 (Or.inr h)⟩
      · rintro ⟨h1 | h1, h2⟩
        · exact Or.inl h1
        · by_cases hx : x = a
          · exact Or.inl hx
          · exact Or.inr ⟨h1, fun h => h.elim hx h2⟩

theorem removeRepeats_sublist (l : List String) :
    ∀ earlier : List String, (removeRepeats earlier l).Sublist l := by
  induction l with
  | nil => intro earlier; simp [removeRepeats]
  | cons a rest ih =>
    intro earlier
    simp only [removeRepeats]
    split
    · exact (ih earlier).cons a
    · exact (ih (a :: earlier)).cons₂ a

/-- In `removeRepeats` the strings stand in the order of their first occurrence. -/
theorem removeRepeats_order (l : List String) :
    ∀ earlier : List String,
      (removeRepeats earlier l).Pairwise (fun x y => l.indexOf x < l.indexOf y) := by
  induction l with
  | nil => intro earlier; simp [removeRepeats]
  | cons a rest ih =>
    intro earlier
    simp only [removeRepeats]
    have shift : ∀ earlier2 : List String, a ∈ earlier2 →
        (removeRepeats earlier2 rest).Pairwise
          (fun x y => (a :: rest).indexOf x < (a :: rest).indexOf y) := by
      intro earlier2 ha2
      refine (ih earlier2).imp_of_mem ?_
      intro x y hx hy hxy
      have hxa : x ≠ a := fun h => ((mem_removeRepeats _ _ _).1 hx).2 (h ▸ ha2)
      have hya : y ≠ a := fun h => ((mem_removeRepeats _ _ _).1 hy).2 (h ▸ ha2)
      rw [List.indexOf_cons_ne _ hxa.symm, List.indexOf_cons_ne _ hya.symm]
      omega
    by_cases ha : a ∈ earlier
    · have hc : earlier.contains a = true := by simpa using ha
      simp only [hc, if_true]
      exact shift earlier ha
    · have hc : earlier.contains a = false := by simpa using ha
      simp only [hc, Bool.false_eq_true, if_false, List.pairwise_cons]
      refine ⟨?_, shift (a :: earlier) (List.mem_cons_self _ _)⟩
      intro y hy
      have hya : y ≠ a :=
        fun h => ((mem_removeRepeats _ _ _).1 hy).2 (h ▸ List.mem_cons_self _ _)
      rw [List.indexOf_cons_self, List.indexOf_cons_ne _ hya.symm]
      omega

/-- The loop of `uniqueSlice` leaves in `s[:j]` what was there, followed by the
strings of `s[i:]` that are not repeated. -/
theorem uniqueSliceLoop_take :
    ∀ (n : Nat) (seen s : List String) (i j : Nat), s.length - i = n → j ≤ i →
      (uniqueSliceLoop seen s i j).1.take (uniqueSliceLoop seen s i j).2 =
        s.take j ++ removeRepeats seen (s.drop i) := by
  intro n
  induction n with
  | zero =>
    intro seen s i j hn hji
    have hi : ¬ i < s.length := by omega
    rw [uniqueSliceLoop]
    simp only [hi, dite_false]
    rw [List.drop_eq_nil_of_le (by omega)]
    simp [removeRepeats]
  | succ n ih =>
    intro seen s i j hn hji
    have hi : i < s.length := by omega
    rw [uniqueSliceLoop]
    simp only [hi, dite_true]
    have hdrop : s.drop i = s.get ⟨i, hi⟩ :: s.drop (i + 1) := by
      simp
    rw [hdrop]
    simp only [removeRepeats]
    split
    · exact ih seen s (i + 1) j (by omega) (by omega)
    · rw [ih _ _ (i + 1) (j + 1) (by simp; omega) (by omega)]
      have hj : j < s.length := by omega
      have hset : s.set j (s.get ⟨i, hi⟩) =
          s.take j ++ s.get ⟨i, hi⟩ :: s.drop (j + 1) := by
        rw [List.set_eq_take_append_cons_drop, if_pos hj]
      have htake : (s.set j (s.get ⟨i, hi⟩)).take (j + 1) = s.take j ++ [s.get ⟨i, hi⟩] := by
        rw [hset, List.take_append_eq_append_take]
        simp [List.length_take, Nat.min_eq_left (Nat.le_of_lt hj)]
      have hdrop2 : (s.set j (s.get ⟨i, hi⟩)).drop (i + 1) = s.drop (i + 1) :=
        List.drop_set_of_lt _ _ (by omega)
      rw [htake, hdrop2]
      simp

/-- The function `uniqueSlice` computes `removeRepeats` of the concatenation. -/
theorem uniqueSlice_eq (s0 s1 : List String) :
    uniqueSlice s0 s1 = removeRepeats [] (s0 ++ s1) := by
  have h := uniqueSliceLoop_take ((s0 ++ s1).length - 0) [] (s0 ++ s1) 0 0 rfl (Nat.le_refl 0)
  simpa [uniqueSlice] using h

/-- C14: for all slices `s0` and `s1`, `uniqueSlice s0 s1` is the concatenation of
`s0` and `s1` with every repeated occurrence removed; it has no duplicate, it
holds exactly the strings of `s0` and of `s1`, and its strings stand in the order
of their first occurrence in `s0` followed by `s1`. -/
theorem uniqueSlice_unique (s0 s1 : List String) :
    uniqueSlice s0 s1 = removeRepeats [] (s0 ++ s1) ∧
    (uniqueSlice s0 s1).Nodup ∧
    (∀ x, x ∈ uniqueSlice s0 s1 ↔ x ∈ s0 ∨ x ∈ s1) ∧
    (uniqueSlice s0 s1).Pairwise
      (fun x y => (s0 ++ s1).indexOf x < (s0 ++ s1).indexOf y) ∧
    (uniqueSlice s0 s1).Sublist (s0 ++ s1) := by
  have hord := removeRepeats_order (s0 ++ s1) []
  rw [uniqueSlice_eq]
  refine ⟨rfl, ?_, ?_, hord, ?_⟩
  · exact hord.imp (fun h => fun heq => by rw [heq] at h; exact Nat.lt_irrefl _ h)
  · intro x
    simp [mem_removeRepeats]
  · exact removeRepeats_sublist _ _

/-- On an example: the directories of the default environment stand first, and the
directories of the request follow unless they were listed already. -/
theorem uniqueSlice_example :
    uniqueSlice ["/go/pkg", "/home/pkg", "/go/pkg"] ["/home/pkg", "/work/pkg", "/go/pkg"] =
      ["/go/pkg", "/home/pkg", "/work/pkg"] :=
  (uniqueSlice_eq _ _).trans (by decide)

/-- With a map of the request that is not empty, `uniqueEnv` is `uniqueSlice` of
the default directories and the directories of the request; with a nil or empty
map it is the list of the default directories as it stands. -/
theorem uniqueEnv_unique (PkgDirs : Option (List (String × String)) → List String)
    (e : List (String × String)) :
    (e ≠ [] → uniqueEnv PkgDirs (some e) =
      removeRepeats [] (PkgDirs none ++ PkgDirs (some e))) ∧
    uniqueEnv PkgDirs (some []) = PkgDirs none ∧
    uniqueEnv PkgDirs none = PkgDirs none := by
  refine ⟨?_, rfl, rfl⟩
  intro he
  cases e with
  | nil => exact absurd rfl he
  | cons a rest => simp [uniqueEnv, uniqueSlice_eq]

/-! ## The candidate engine and its caches -/

theorem reconfigure_of_pathsDiffer (engine : Engine) (g : Globals) (config : MargoConfig)
    (h : pathsDiffer g config) :
    mgoDaemon.reconfigure engine g config = mgoDaemon.update engine g config := by
  simp only [mgoDaemon.reconfigure, bne_iff_ne, ne_eq, ite_not]
  rcases h with h | h | h
  · simp [h]
  · by_cases h1 : g.daemon.context.GOROOT = config.GOROOT <;> simp [h1, h]
  · by_cases h1 : g.daemon.context.GOROOT = config.GOROOT <;>
      by_cases h2 : g.daemon.context.GOPATH = config.GOPATH <;> simp [h1, h2, h]

theorem reconfigure_of_same_paths (engine : Engine) (g : Globals) (config : MargoConfig)
    (h : ¬ pathsDiffer g config) :
    mgoDaemon.reconfigure engine g config =
      { g with g_config := { g.g_config with ProposeBuiltins := config.Builtins } } := by
  simp only [pathsDiffer, not_or, not_not] at h
  obtain ⟨h1, h2, h3⟩ := h
  simp only [mgoDaemon.reconfigure, bne_iff_ne, ne_eq, h1, h2, h3, not_true_eq_false, if_false,
    ite_not]
  split
  · rename_i hb
    cases g with
    | mk daemon g_config heap =>
      cases g_config with
      | mk pb lp => simp at hb; simp [hb]
  · rfl

/-- The caches of the daemon keep their addresses when the engine is asked. -/
theorem apropos_addr (engine : Engine) (g : Globals) (file filename : String) (cursor : Int) :
    (mgoDaemon.apropos engine g file filename cursor).2.daemon.pkgcache.addr =
      g.daemon.pkgcache.addr ∧
    (mgoDaemon.apropos engine g file filename cursor).2.daemon.declcache.addr =
      g.daemon.declcache.addr ∧
    (mgoDaemon.apropos engine g file filename cursor).2.daemon.autocomplete.addr =
      g.daemon.autocomplete.addr ∧
    (mgoDaemon.apropos engine g file filename cursor).2.daemon.context = g.daemon.context ∧
    (mgoDaemon.apropos engine g file filename cursor).2.g_config = g.g_config ∧
    (mgoDaemon.apropos engine g file filename cursor).2.heap = g.heap :=
  ⟨rfl, rfl, rfl, rfl, rfl, rfl⟩

/-- The daemon that has just started is sound. -/
theorem newMgoDaemon_sound (defaultContext : BuildContext) (heap : Nat) (c : config) :
    Globals.Sound
      { daemon := (newMgoDaemon defaultContext heap).1, g_config := c,
        heap := (newMgoDaemon defaultContext heap).2 } := by
  simp only [Globals.Sound, newMgoDaemon, new_package_cache, new_decl_cache,
    new_auto_complete_context]
  exact ⟨by omega, by omega, by omega, trivial, trivial⟩

/-- Asking the engine keeps the package variables sound. -/
theorem apropos_sound (engine : Engine) (g : Globals) (file filename : String) (cursor : Int)
    (h : g.Sound) : (mgoDaemon.apropos engine g file filename cursor).2.Sound := by
  obtain ⟨h1, h2, h3, h4, h5⟩ := h
  refine ⟨h1, h2, h3, ?_, ?_⟩
  · simp [mgoDaemon.apropos, h4]
  · simp [mgoDaemon.apropos, h5]

/-- A call of `Complete` keeps the package variables sound. -/
theorem Complete_sound (engine : Engine) (g : Globals) (file filename : String) (cursor : Int)
    (config : MargoConfig) (h : g.Sound) :
    (mgoDaemon.Complete engine g file filename cursor config).2.Sound := by
  have hr : (mgoDaemon.reconfigure engine g config).Sound := by
    by_cases hp : pathsDiffer g config
    · rw [reconfigure_of_pathsDiffer engine g config hp]
      simp only [Globals.Sound, mgoDaemon.update, new_package_cache, new_decl_cache,
        new_auto_complete_context]
      exact ⟨by omega, by omega, by omega, trivial, trivial⟩
    · rw [reconfigure_of_same_paths engine g config hp]
      exact h
  exact apropos_sound engine _ file filename cursor hr

/-- C13, as the code has it: when the root, the path list or the install suffix of the
request differs from what the daemon holds, `Complete` first replaces the package
cache, the declaration cache and the autocomplete context by new and empty ones,
made for the context of the request, and computes the candidates on them.  When
only the builtins flag differs, `Complete` writes the flag and computes the
candidates on the caches and the autocomplete context it had. -/
theorem Complete_replaces_caches (engine : Engine) (g : Globals) (file filename : String)
    (cursor : Int) (config : MargoConfig) :
    (pathsDiffer g config →
      mgoDaemon.Complete engine g file filename cursor config =
        ((margoCandidates engine
            (mgoDaemon.apropos engine (mgoDaemon.update engine g config) file filename cursor).1),
          (mgoDaemon.apropos engine (mgoDaemon.update engine g config) file filename cursor).2) ∧
      (mgoDaemon.update engine g config).daemon.context =
        { g.daemon.context with
          GOROOT := config.GOROOT, GOPATH := config.GOPATH,
          InstallSuffix := config.InstallSuffix } ∧
      (mgoDaemon.update engine g config).g_config.ProposeBuiltins = config.Builtins ∧
      (mgoDaemon.update engine g config).daemon.pkgcache = { addr := g.heap, entries := [] } ∧
      (mgoDaemon.update engine g config).daemon.declcache =
        { addr := g.heap + 1, context := (mgoDaemon.update engine g config).daemon.context,
          entries := [] } ∧
      (mgoDaemon.update engine g config).daemon.autocomplete =
        { addr := g.heap + 2, pcache := (mgoDaemon.update engine g config).daemon.pkgcache,
          declcache := (mgoDaemon.update engine g config).daemon.declcache } ∧
      (g.Sound →
        (mgoDaemon.Complete engine g file filename cursor config).2.daemon.pkgcache.addr ≠
          g.daemon.pkgcache.addr ∧
        (mgoDaemon.Complete engine g file filename cursor config).2.daemon.declcache.addr ≠
          g.daemon.declcache.addr ∧
        (mgoDaemon.Complete engine g file filename cursor config).2.daemon.autocomplete.addr ≠
          g.daemon.autocomplete.addr)) ∧
    (¬ pathsDiffer g config →
      mgoDaemon.Complete engine g file filename cursor config =
        ((margoCandidates engine
            (mgoDaemon.apropos engine
              { g with g_config := { g.g_config with ProposeBuiltins := config.Builtins } }
              file filename cursor).1),
          (mgoDaemon.apropos engine
            { g with g_config := { g.g_config with ProposeBuiltins := config.Builtins } }
            file filename cursor).2) ∧
      (mgoDaemon.Complete engine g file filename cursor config).2.daemon.pkgcache.addr =
        g.daemon.pkgcache.addr ∧
      (mgoDaemon.Complete engine g file filename cursor config).2.daemon.declcache.addr =
        g.daemon.declcache.addr ∧
      (mgoDaemon.Complete engine g file filename cursor config).2.daemon.autocomplete.addr =
        g.daemon.autocomplete.addr ∧
      (mgoDaemon.Complete engine g file filename cursor config).2.g_config.ProposeBuiltins =
        config.Builtins) := by
  refine ⟨?_, ?_⟩
  · intro h
    have hC : mgoDaemon.Complete engine g file filename cursor config =
        ((margoCandidates engine
            (mgoDaemon.apropos engine (mgoDaemon.update engine g config) file filename cursor).1),
          (mgoDaemon.apropos engine (mgoDaemon.update engine g config) file filename cursor).2) := by
      simp only [mgoDaemon.Complete, reconfigure_of_pathsDiffer engine g config h]
    refine ⟨hC, rfl, rfl, rfl, rfl, rfl, ?_⟩
    intro hs
    obtain ⟨h1, h2, h3, _, _⟩ := hs
    rw [hC]
    have ha := apropos_addr engine (mgoDaemon.update engine g config) file filename cursor
    simp only [ha.1, ha.2.1, ha.2.2.1]
    have e1 : (mgoDaemon.update engine g config).daemon.pkgcache.addr = g.heap := rfl
    have e2 : (mgoDaemon.update engine g config).daemon.declcache.addr = g.heap + 1 := rfl
    have e3 : (mgoDaemon.update engine g config).daemon.autocomplete.addr = g.heap + 2 := rfl
    rw [e1, e2, e3]
    exact ⟨by omega, by omega, by omega⟩
  · intro h
    have hC : mgoDaemon.Complete engine g file filename cursor config =
        ((margoCandidates engine
            (mgoDaemon.apropos engine
              { g with g_config := { g.g_config with ProposeBuiltins := config.Builtins } }
              file filename cursor).1),
          (mgoDaemon.apropos engine
            { g with g_config := { g.g_config with ProposeBuiltins := config.Builtins } }
            file filename cursor).2) := by
      simp only [mgoDaemon.Complete, reconfigure_of_same_paths engine g config h]
    refine ⟨hC, ?_⟩
    rw [hC]
    exact ⟨rfl, rfl, rfl, rfl⟩

/-- C13, on the example: a request with another path list makes the daemon that
has just started replace its caches, at the addresses 3, 4 and 5. -/
theorem Complete_replaces_caches_example :
    (mgoDaemon.Complete exampleEngine exampleGlobals "package main" "a.go" 0
        { GOROOT := "/go", GOPATH := "/work", InstallSuffix := "", Builtins := false }).2.daemon.pkgcache.addr
      ≠ exampleGlobals.daemon.pkgcache.addr :=
  (((Complete_replaces_caches exampleEngine exampleGlobals "package main" "a.go" 0
      { GOROOT := "/go", GOPATH := "/work", InstallSuffix := "", Builtins := false }).1
    (Or.inr (Or.inl (by decide)))).2.2.2.2.2.2
    ⟨by decide, by decide, by decide, by decide, by decide⟩).1

/-- C13 fails as stated: when only the builtins flag of the request differs, the
daemon keeps the package cache, the declaration cache and the autocomplete
context it had, with the entries they held, and computes the candidates on
them. -/
theorem Complete_builtins_keeps_caches :
    filledGlobals.g_config.ProposeBuiltins ≠ (defaultRequest true).Builtins ∧
    filledGlobals.daemon.pkgcache = { addr := 0, entries := ["/go/pkg/fmt.a"] } ∧
    (mgoDaemon.Complete exampleEngine filledGlobals "package main" "a.go" 0
        (defaultRequest true)).2.daemon.pkgcache =
      { addr := 0, entries := ["/go/pkg/fmt.a", "/go/pkg/fmt.a"] } ∧
    (mgoDaemon.Complete exampleEngine filledGlobals "package main" "a.go" 0
        (defaultRequest true)).2.daemon.declcache.addr = filledGlobals.daemon.declcache.addr ∧
    (mgoDaemon.Complete exampleEngine filledGlobals "package main" "a.go" 0
        (defaultRequest true)).2.daemon.autocomplete.addr =
      filledGlobals.daemon.autocomplete.addr ∧
    (mgoDaemon.Complete exampleEngine filledGlobals "package main" "a.go" 0
        (defaultRequest true)).2.heap = filledGlobals.heap ∧
    (mgoDaemon.Complete exampleEngine filledGlobals "package main" "a.go" 0
        (defaultRequest true)).1 =
      some [{ Name := "Println", Typ := "func(a ...string)", Class := "func" },
            { Name := "println", Typ := "func(args ...Type)", Class := "func" }] := by
  refine ⟨by decide, ?_, ?_, ?_, ?_, ?_, ?_⟩ <;> rfl

/-! ## Call tips -/

theorem Visit_good (v : calltipVisitor) (node : AstNode) (h : v.Good) :
    (v.Visit node).Good ∧ (v.Visit node).fset = v.fset ∧ (v.Visit node).offset = v.offset := by
  cases node with
  | call x =>
    simp only [calltipVisitor.Visit]
    split
    · rename_i ha
      split
      · rename_i hb
        refine ⟨?_, rfl, rfl⟩
        intro y hy
        simp only [Option.some.injEq] at hy
        subst hy
        simp only [Bool.and_eq_true, decide_eq_true_eq] at ha
        simp only [Bool.or_eq_true, Bool.not_eq_true', decide_eq_true_eq] at hb
        exact ⟨ha.1, ha.2, hb⟩
      · exact ⟨h, rfl, rfl⟩
    · exact ⟨h, rfl, rfl⟩
  | ident id => exact ⟨h, rfl, rfl⟩
  | selector X Sel => exact ⟨h, rfl, rfl⟩
  | other children => exact ⟨h, rfl, rfl⟩

mutual
theorem Walk_good : ∀ (node : AstNode) (v : calltipVisitor), v.Good →
    (Walk v node).Good ∧ (Walk v node).fset = v.fset ∧ (Walk v node).offset = v.offset
  | .ident id, v, h => by
    simpa only [Walk] using Visit_good v (.ident id) h
  | .selector X Sel, v, h => by
    have h1 := Visit_good v (.selector X Sel) h
    have h2 := Walk_good X _ h1.1
    simp only [Walk]
    cases Sel with
    | none => exact ⟨h2.1, h2.2.1.trans h1.2.1, h2.2.2.trans h1.2.2⟩
    | some id =>
      have h3 := Visit_good (Walk (v.Visit (.selector X (some id))) X) (.ident id) h2.1
      exact ⟨h3.1, h3.2.1.trans (h2.2.1.trans h1.2.1), h3.2.2.trans (h2.2.2.trans h1.2.2)⟩
  | .call x, v, h => by
    have h1 := Visit_good v (.call x) h
    have h2 := WalkCall_good x _ h1.1
    simp only [Walk]
    exact ⟨h2.1, h2.2.1.trans h1.2.1, h2.2.2.trans h1.2.2⟩
  | .other children, v, h => by
    have h1 := Visit_good v (.other children) h
    have h2 := WalkList_good children _ h1.1
    simp only [Walk]
    exact ⟨h2.1, h2.2.1.trans h1.2.1, h2.2.2.trans h1.2.2⟩
theorem WalkCall_good : ∀ (x : CallExpr) (v : calltipVisitor), v.Good →
    (WalkCall v x).Good ∧ (WalkCall v x).fset = v.fset ∧ (WalkCall v x).offset = v.offset
  | .mk _ _ fn args, v, h => by
    have h1 := Walk_good fn v h
    have h2 := WalkList_good args _ h1.1
    simp only [WalkCall]
    exact ⟨h2.1, h2.2.1.trans h1.2.1, h2.2.2.trans h1.2.2⟩
theorem WalkList_good : ∀ (nodes : List AstNode) (v : calltipVisitor), v.Good →
    (WalkList v nodes).Good ∧ (WalkList v nodes).fset = v.fset ∧
      (WalkList v nodes).offset = v.offset
  | [], v, h => by
    simp only [WalkList]
    exact ⟨h, trivial, trivial⟩
  | node :: rest, v, h => by
    have h1 := Walk_good node v h
    have h2 := WalkList_good rest _ h1.1
    simp only [WalkList]
    exact ⟨h2.1, h2.2.1.trans h1.2.1, h2.2.2.trans h1.2.2⟩
end

/-- The identifier that `calltipsWalk` returns is the function of a call that
holds the offset, or the selected name of that function. -/
theorem calltipsWalk_encloses (af : SourceFile) (fset : FileSet) (offset : Int) (id : Ident)
    (h : calltipsWalk af fset offset = some id) :
    ∃ x : CallExpr, Encloses fset offset x ∧
      (x.Fun = .ident id ∨ ∃ X, x.Fun = .selector X (some id)) := by
  have hgood := WalkList_good af.Nodes { offset := offset, fset := fset, x := none }
    (fun x hx => by cases hx)
  simp only [calltipsWalk] at h
  split at h
  · cases h
  · rename_i x hx
    have henc := hgood.1 x hx
    rw [hgood.2.1, hgood.2.2] at henc
    refine ⟨x, henc, ?_⟩
    split at h
    · rename_i v hv
      cases h
      exact Or.inl hv
    · rename_i X Sel hv
      subst h
      exact Or.inr ⟨X, hv⟩
    · cases h

/-- The function `offsetLine` always returns: the test before `f.Position` keeps
the position inside the file. -/
theorem offsetLine_returns (fset : Option FileSet) (af : Option SourceFile) (offset : Int) :
    ∃ line, offsetLine fset af offset = .ok line := by
  cases fset with
  | none => exact ⟨0, by simp [offsetLine]⟩
  | some fset =>
    cases af with
    | none => exact ⟨0, by simp [offsetLine]⟩
    | some af =>
      simp only [offsetLine]
      split
      · exact ⟨0, rfl⟩
      · split
        · exact ⟨0, rfl⟩
        · rename_i f _
          split
          · exact ⟨0, rfl⟩
          · rename_i hin
            simp only [Bool.or_eq_true, decide_eq_true_eq, not_or, not_lt] at hin
            have hin2 : (decide (offset < f.Base) || decide (offset > f.Base + f.Size)) = false := by
              simp only [Bool.or_eq_false_iff, decide_eq_false_iff_not, not_lt]
              exact ⟨hin.1, by simpa using hin.2⟩
            by_cases h0 : offset = 0
            · exact ⟨0, by simp [TokenFile.Position, h0]⟩
            · exact ⟨f.Line (offset - f.Base), by simp [TokenFile.Position, h0, hin2]⟩

/-- The loop of `calltips` returns the empty slice when no candidate has the
name, and else the slice of the first candidate that has it. -/
theorem calltipsLoop_first (front : Frontend) (id : Ident) (cl : List MargoCandidate) :
    ((∀ d ∈ cl, front.EqualFold id.Name d.Name = false) ∧
      calltipsLoop front id cl = some []) ∨
    (∃ pre c post, cl = pre ++ c :: post ∧
      (∀ d ∈ pre, front.EqualFold id.Name d.Name = false) ∧
      front.EqualFold id.Name c.Name = true ∧ calltipsLoop front id cl = some [c]) := by
  induction cl with
  | nil => exact Or.inl ⟨by simp, rfl⟩
  | cons a rest ih =>
    simp only [calltipsLoop]
    cases ha : front.EqualFold id.Name a.Name with
    | true => exact Or.inr ⟨[], a, rest, rfl, by simp, ha, by simp⟩
    | false =>
      rcases ih with ⟨hall, hr⟩ | ⟨pre, c, post, hcl, hpre, hc, hr⟩
      · refine Or.inl ⟨?_, by simpa using hr⟩
        intro d hd
        rcases List.mem_cons.1 hd with h | h
        · rw [h]; exact ha
        · exact hall d h
      · refine Or.inr ⟨a :: pre, c, post, by simp [hcl], ?_, hc, by simpa using hr⟩
        intro d hd
        rcases List.mem_cons.1 hd with h | h
        · rw [h]; exact ha
        · exact hpre d h

/-- For every source, file name and offset, `calltips` returns, and its result
is a slice that is not nil and holds no candidate or exactly one.  The one
candidate is the first of the completion list, asked for at the end of the
identifier that `calltipsWalk` finds, whose name is the name of that identifier
but for the case; when that list has no such candidate the result is the empty
slice. -/
theorem calltips_shape (front : Frontend) (engine : Engine) (g : mGocode)
    (st : Globals) (src filename : String) (offset : Int) :
    ∃ r st1, mGocode.calltips front engine g st src filename offset = .ok (r, st1) ∧
      (r = some [] ∨
        ∃ c af id pre post,
          r = some [c] ∧
          (front.ParseFile "<stdin>" src).1 = some af ∧
          calltipsWalk af (front.ParseFile "<stdin>" src).2 offset = some id ∧
          ((g.completions engine st src filename
              ((front.ParseFile "<stdin>" src).2.Position id.End).Offset).1.getD []) =
            pre ++ c :: post ∧
          (∀ d ∈ pre, front.EqualFold id.Name d.Name = false) ∧
          front.EqualFold id.Name c.Name = true) ∧
      (∀ af id,
        (front.ParseFile "<stdin>" src).1 = some af →
        calltipsWalk af (front.ParseFile "<stdin>" src).2 offset = some id →
        (∀ d ∈ ((g.completions engine st src filename
            ((front.ParseFile "<stdin>" src).2.Position id.End).Offset).1.getD []),
          front.EqualFold id.Name d.Name = false) →
        r = some []) := by
  simp only [mGocode.calltips]
  cases haf : (front.ParseFile "<stdin>" src).1 with
  | none =>
    refine ⟨some [], st, ?_, Or.inl rfl, fun _ _ _ _ _ => rfl⟩
    simp [haf, emptyCandidate]
  | some af =>
    cases hid : calltipsWalk af (front.ParseFile "<stdin>" src).2 offset with
    | none =>
      refine ⟨some [], st, ?_, Or.inl rfl, fun _ _ _ _ _ => rfl⟩
      simp [haf, hid, emptyCandidate]
    | some id =>
      by_cases hend : ((front.ParseFile "<stdin>" src).2.Position id.End).IsValid = true
      · obtain ⟨line, hline⟩ :=
          offsetLine_returns (some (front.ParseFile "<stdin>" src).2) (some af) offset
        by_cases hl : (((front.ParseFile "<stdin>" src).2.Position id.End).Line != line &&
            line != 0) = true
        · refine ⟨some [], st, ?_, Or.inl rfl, fun _ _ _ _ _ => rfl⟩
          simp only [haf, hid, hend, hline, Run.bind_eq, Run.ok_bind, hl, emptyCandidate]
          simp
        · by_cases hlen : ((g.completions engine st src filename
              ((front.ParseFile "<stdin>" src).2.Position id.End).Offset).1.getD []).length = 0
          · refine ⟨some [], (g.completions engine st src filename
              ((front.ParseFile "<stdin>" src).2.Position id.End).Offset).2, ?_, Or.inl rfl,
              fun _ _ _ _ _ => rfl⟩
            simp only [haf, hid, hend, hline, Run.bind_eq, Run.ok_bind, hl, emptyCandidate]
            simp [hlen]
          · refine ⟨calltipsLoop front id ((g.completions engine st src filename
              ((front.ParseFile "<stdin>" src).2.Position id.End).Offset).1.getD []),
              (g.completions engine st src filename
              ((front.ParseFile "<stdin>" src).2.Position id.End).Offset).2, ?_, ?_, ?_⟩
            · simp only [haf, hid, hend, hline, Run.bind_eq, Run.ok_bind, hl, emptyCandidate]
              simp [hlen]
            · rcases calltipsLoop_first front id ((g.completions engine st src filename
                ((front.ParseFile "<stdin>" src).2.Position id.End).Offset).1.getD []) with
                ⟨_, hr⟩ | ⟨pre, c, post, hcl, hpre, hc, hr⟩
              · exact Or.inl hr
              · exact Or.inr ⟨c, af, id, pre, post, hr, rfl, hid, hcl, hpre, hc⟩
            · intro af1 id1 haf1 hid1 hall
              cases haf1
              rw [hid] at hid1
              cases hid1
              rcases calltipsLoop_first front id ((g.completions engine st src filename
                ((front.ParseFile "<stdin>" src).2.Position id.End).Offset).1.getD []) with
                ⟨_, hr⟩ | ⟨pre, c, post, hcl, hpre, hc, hr⟩
              · exact hr
              · have := hall c (by rw [hcl]; simp)
                rw [this] at hc
                cases hc
      · refine ⟨some [], st, ?_, Or.inl rfl, fun _ _ _ _ _ => rfl⟩
        simp [haf, hid, hend, emptyCandidate]

theorem Visit_call (v : calltipVisitor) (x : CallExpr) :
    v.Visit (.call x) = if holdsOffset v.fset v.offset x then { v with x := some x } else v := by
  simp only [calltipVisitor.Visit, holdsOffset]
  by_cases h1 : ((v.fset.Position x.Pos).IsValid &&
      decide (v.offset ≥ (v.fset.Position x.Pos).Offset)) = true
  · by_cases h2 : (!(v.fset.Position x.End).IsValid ||
        decide (v.offset ≤ (v.fset.Position x.End).Offset)) = true
    · simp [h1, h2]
    · simp [h1, h2]
  · simp [h1]

mutual
theorem Walk_eq_foldl : ∀ (node : AstNode) (v : calltipVisitor),
    Walk v node = (callsOf node).foldl (fun v x => v.Visit (.call x)) v
  | .ident id, v => by
    simp only [Walk, callsOf, List.foldl_nil]
    rfl
  | .selector X Sel, v => by
    have h1 : v.Visit (.selector X Sel) = v := rfl
    have h2 := Walk_eq_foldl X v
    simp only [Walk, callsOf, h1, h2]
    cases Sel with
    | none => rfl
    | some id => rfl
  | .call x, v => by
    have h := WalkCall_eq_foldl x (v.Visit (.call x))
    simp only [Walk, callsOf, List.foldl_cons, h]
  | .other children, v => by
    have h1 : v.Visit (.other children) = v := rfl
    have h := WalkList_eq_foldl children v
    simp only [Walk, callsOf, h1, h]
theorem WalkCall_eq_foldl : ∀ (x : CallExpr) (v : calltipVisitor),
    WalkCall v x = (callsOfCall x).foldl (fun v x => v.Visit (.call x)) v
  | .mk _ _ fn args, v => by
    have h1 := Walk_eq_foldl fn v
    have h2 := WalkList_eq_foldl args (Walk v fn)
    simp only [WalkCall, callsOfCall, List.foldl_append]
    rw [← h1]
    exact h2
theorem WalkList_eq_foldl : ∀ (nodes : List AstNode) (v : calltipVisitor),
    WalkList v nodes = (callsOfList nodes).foldl (fun v x => v.Visit (.call x)) v
  | [], v => by
    simp only [WalkList, callsOfList, List.foldl_nil]
  | node :: rest, v => by
    have h1 := Walk_eq_foldl node v
    have h2 := WalkList_eq_foldl rest (Walk v node)
    simp only [WalkList, callsOfList, List.foldl_append]
    rw [← h1]
    exact h2
end

/-- After the visits of a list of calls the visitor holds the last call of the
list that holds the offset, or the call it held before when there is none. -/
theorem foldl_Visit (l : List CallExpr) (v : calltipVisitor) :
    l.foldl (fun v x => v.Visit (.call x)) v =
      { v with x := (l.reverse.find? (holdsOffset v.fset v.offset)).or v.x } := by
  induction l using List.reverseRecOn with
  | nil => simp
  | append_singleton l a ih =>
    rw [List.foldl_append, ih]
    simp only [List.foldl_cons, List.foldl_nil, Visit_call, List.reverse_append,
      List.reverse_cons, List.reverse_nil, List.nil_append, List.singleton_append,
      List.find?_cons]
    cases h : holdsOffset v.fset v.offset a with
    | true => simp
    | false => simp

/-- The function `calltipsWalk` returns the function identifier of the enclosing
call, and nil when no call holds the offset or the function of the enclosing call
is neither an identifier nor a selector expression. -/
theorem calltipsWalk_eq (af : SourceFile) (fset : FileSet) (offset : Int) :
    calltipsWalk af fset offset =
      (enclosingCall fset offset af.Nodes).bind CallExpr.funIdent := by
  simp only [calltipsWalk, WalkList_eq_foldl, foldl_Visit, enclosingCall, Option.or_none]
  cases h : (callsOfList af.Nodes).reverse.find? (holdsOffset fset offset) with
  | none => rfl
  | some x =>
    simp only [Option.some_bind, CallExpr.funIdent]

theorem calltipsLoop_append (front : Frontend) (id : Ident) (pre post : List MargoCandidate)
    (c : MargoCandidate) (hpre : ∀ d ∈ pre, front.EqualFold id.Name d.Name = false)
    (hc : front.EqualFold id.Name c.Name = true) :
    calltipsLoop front id (pre ++ c :: post) = some [c] := by
  induction pre with
  | nil => simp [calltipsLoop, hc]
  | cons a rest ih =>
    have ha := hpre a (List.mem_cons_self _ _)
    simp only [List.cons_append, calltipsLoop, ha, Bool.false_eq_true, if_false]
    exact ih (fun d hd => hpre d (List.mem_cons_of_mem _ hd))

/-- When the walk finds an identifier whose end is a valid position on the line
of the offset (or the line of the offset is not known), and the completion list at
that end has a first candidate of that name but for the case, `calltips` returns
the slice of that candidate. -/
theorem calltips_match (front : Frontend) (engine : Engine) (g : mGocode)
    (st : Globals) (src filename : String) (offset : Int) (af : SourceFile) (id : Ident)
    (line : Int) (pre post : List MargoCandidate) (c : MargoCandidate)
    (haf : (front.ParseFile "<stdin>" src).1 = some af)
    (hid : calltipsWalk af (front.ParseFile "<stdin>" src).2 offset = some id)
    (hend : ((front.ParseFile "<stdin>" src).2.Position id.End).IsValid = true)
    (hline : offsetLine (some (front.ParseFile "<stdin>" src).2) (some af) offset = .ok line)
    (hsame : ((front.ParseFile "<stdin>" src).2.Position id.End).Line = line ∨ line = 0)
    (hcl : ((g.completions engine st src filename
        ((front.ParseFile "<stdin>" src).2.Position id.End).Offset).1.getD []) = pre ++ c :: post)
    (hpre : ∀ d ∈ pre, front.EqualFold id.Name d.Name = false)
    (hc : front.EqualFold id.Name c.Name = true) :
    mGocode.calltips front engine g st src filename offset =
      .ok (some [c], (g.completions engine st src filename
        ((front.ParseFile "<stdin>" src).2.Position id.End).Offset).2) := by
  have hl : (((front.ParseFile "<stdin>" src).2.Position id.End).Line != line && line != 0) =
      false := by
    rcases hsame with h | h
    · simp [h]
    · simp [h]
  have hlen : (((g.completions engine st src filename
      ((front.ParseFile "<stdin>" src).2.Position id.End).Offset).1.getD []).length == 0) =
      false := by
    rw [hcl]; simp
  simp only [mGocode.calltips, haf, hid, hend, hline, Run.bind_eq, Run.ok_bind, hl, hlen,
    Bool.not_true, Bool.false_eq_true, if_false, hcl,
    calltipsLoop_append front id pre post c hpre hc]
  simp

/-- The line that `offsetLine` returns: the line of the offset in the file of the
tree when the offset lies in that file, and 0 otherwise. -/
theorem offsetLine_eq (fset : FileSet) (af : SourceFile) (offset : Int) :
    offsetLine (some fset) (some af) offset =
      .ok (match fset.File af.Pos with
        | some f =>
          if f.Base ≤ offset ∧ offset ≤ f.Base + f.Size ∧ offset ≠ 0 then
            f.Line (offset - f.Base)
          else 0
        | none => 0) := by
  simp only [offsetLine]
  by_cases hp : af.Pos = 0
  · have : fset.File af.Pos = none := by simp [FileSet.File, hp]
    rw [this]
    simp [hp]
  · have hp1 : (af.Pos == 0) = false := by simpa using hp
    simp only [hp1, Bool.false_eq_true, if_false]
    cases hf : fset.File af.Pos with
    | none => rfl
    | some f =>
      simp only
      by_cases h1 : offset < f.Base
      · have : ¬ (f.Base ≤ offset ∧ offset ≤ f.Base + f.Size ∧ offset ≠ 0) := by omega
        simp [h1, this]
      · by_cases h2 : offset > f.Base + f.Size
        · have : ¬ (f.Base ≤ offset ∧ offset ≤ f.Base + f.Size ∧ offset ≠ 0) := by omega
          simp [h1, h2, this]
        · by_cases h0 : offset = 0
          · have : ¬ (f.Base ≤ offset ∧ offset ≤ f.Base + f.Size ∧ offset ≠ 0) := by omega
            simp [h1, h2, this, TokenFile.Position, h0]
          · have : f.Base ≤ offset ∧ offset ≤ f.Base + f.Size ∧ offset ≠ 0 := by omega
            simp [h1, h2, this, TokenFile.Position, h0]

/-- C12: for every source, file name and offset, `calltips` returns, and its
result is a slice that is not nil and holds no candidate or exactly one.  The
identifier it works with is the function identifier of the enclosing call, the
last call in the order of the walk that holds the offset.  When the end of that
identifier is a valid position on the line of the offset, and the completion list
asked for at that end has a candidate whose name is the name of the identifier
but for the case, the result is the slice of the first such candidate; a result
of one candidate arises in no other way, and when the list has no such candidate
the result is the empty slice.  The line of the offset is its line in the file of
the tree, and 0, which stands for a line that is not known, when the offset lies
outside that file. -/
theorem calltips_one_candidate (front : Frontend) (engine : Engine) (g : mGocode)
    (st : Globals) (src filename : String) (offset : Int) :
    (∃ r st1, mGocode.calltips front engine g st src filename offset = .ok (r, st1) ∧
      (r = some [] ∨
        ∃ c af id pre post,
          r = some [c] ∧
          (front.ParseFile "<stdin>" src).1 = some af ∧
          calltipsWalk af (front.ParseFile "<stdin>" src).2 offset = some id ∧
          ((g.completions engine st src filename
              ((front.ParseFile "<stdin>" src).2.Position id.End).Offset).1.getD []) =
            pre ++ c :: post ∧
          (∀ d ∈ pre, front.EqualFold id.Name d.Name = false) ∧
          front.EqualFold id.Name c.Name = true) ∧
      (∀ af id,
        (front.ParseFile "<stdin>" src).1 = some af →
        calltipsWalk af (front.ParseFile "<stdin>" src).2 offset = some id →
        (∀ d ∈ ((g.completions engine st src filename
            ((front.ParseFile "<stdin>" src).2.Position id.End).Offset).1.getD []),
          front.EqualFold id.Name d.Name = false) →
        r = some [])) ∧
    (∀ (af : SourceFile) (id : Ident) (line : Int) (pre post : List MargoCandidate)
        (c : MargoCandidate),
      (front.ParseFile "<stdin>" src).1 = some af →
      calltipsWalk af (front.ParseFile "<stdin>" src).2 offset = some id →
      ((front.ParseFile "<stdin>" src).2.Position id.End).IsValid = true →
      offsetLine (some (front.ParseFile "<stdin>" src).2) (some af) offset = .ok line →
      (((front.ParseFile "<stdin>" src).2.Position id.End).Line = line ∨ line = 0) →
      ((g.completions engine st src filename
          ((front.ParseFile "<stdin>" src).2.Position id.End).Offset).1.getD []) =
        pre ++ c :: post →
      (∀ d ∈ pre, front.EqualFold id.Name d.Name = false) →
      front.EqualFold id.Name c.Name = true →
      mGocode.calltips front engine g st src filename offset =
        .ok (some [c], (g.completions engine st src filename
          ((front.ParseFile "<stdin>" src).2.Position id.End).Offset).2)) ∧
    (∀ af : SourceFile,
      calltipsWalk af (front.ParseFile "<stdin>" src).2 offset =
        (enclosingCall (front.ParseFile "<stdin>" src).2 offset af.Nodes).bind
          CallExpr.funIdent) ∧
    (∀ af : SourceFile,
      offsetLine (some (front.ParseFile "<stdin>" src).2) (some af) offset =
        .ok (match (front.ParseFile "<stdin>" src).2.File af.Pos with
          | some f =>
            if f.Base ≤ offset ∧ offset ≤ f.Base + f.Size ∧ offset ≠ 0 then
              f.Line (offset - f.Base)
            else 0
          | none => 0)) :=
  ⟨calltips_shape front engine g st src filename offset,
   fun af id line pre post c haf hid hend hline hsame hcl hpre hc =>
     calltips_match front engine g st src filename offset af id line pre post c haf hid hend
       hline hsame hcl hpre hc,
   fun af => calltipsWalk_eq af _ offset,
   fun af => offsetLine_eq _ af offset⟩

/-- C12, on the example: at offset 34 of the example text, between the parentheses
of `fmt.println(1)`, the enclosing call is that call and its function identifier
is `println`; the completion list at the end of `println` holds `Println` and then
`println`, and the call tip is `Println`, the first whose name is `println` but
for the case. -/
theorem calltips_one_candidate_example :
    calltipsWalk exampleSourceFile (exampleFrontend.ParseFile "<stdin>" exampleSource).2 34 =
      some { NamePos := 27, Name := "println" } ∧
    (exampleGocode.completions exampleEngine exampleGlobals exampleSource "a.go" 33).1 =
      some [{ Name := "Println", Typ := "func(a ...string)", Class := "func" },
            { Name := "println", Typ := "func(args ...Type)", Class := "func" }] ∧
    mGocode.calltips exampleFrontend exampleEngine exampleGocode exampleGlobals exampleSource
        "a.go" 34 =
      .ok (some [{ Name := "Println", Typ := "func(a ...string)", Class := "func" }],
        (exampleGocode.completions exampleEngine exampleGlobals exampleSource "a.go" 33).2) :=
  ⟨rfl, rfl,
    (calltips_one_candidate exampleFrontend exampleEngine exampleGocode exampleGlobals
      exampleSource "a.go" 34).2.1 exampleSourceFile { NamePos := 27, Name := "println" } 1 []
      [{ Name := "println", Typ := "func(args ...Type)", Class := "func" }]
      { Name := "Println", Typ := "func(a ...string)", Class := "func" }
      rfl rfl rfl rfl (Or.inl rfl) rfl (fun _ h => absurd h (List.not_mem_nil _)) rfl⟩

/-! ## The cursor file and its package clause -/

/-- The base of the cursor file is read through the position of its package
clause: a tree without that position, as the parser returns it when the package
clause does not parse, makes `parserFiles` panic. -/
theorem fileBase_package_clause (af : AstFile) :
    (af.Package = 0 →
      fileBase af = .panic "nil dereference: w.fset.File(f.Pos()).Base()") ∧
    (af.Package ≠ 0 → fileBase af = .ok af.Base) := by
  refine ⟨fun h => ?_, fun h => ?_⟩
  · simp [fileBase, h]
  · simp [fileBase, h]

end Margo
